import Mathlib

/-!
# Lowering of the frontend AST (`lang/lower_ast.cpp`)

A shallow embedding of the pass `LowerAST` and of `irpass::lower`.

* Heap objects (statements and expression nodes) are identified by an address
  (`Addr`); a pointer to a statement is the address of that statement. Every
  `std::make_unique` / `push_back<T>` takes the next unused address from a
  counter that is threaded through the pass.
* The tree is a `Block` holding `Stmt`s which hold `Block`s. The `parent`
  pointer of a statement and the enclosing-block pointer of a block are
  represented by the position in the tree: a visit carries the identifier maps
  of the enclosing blocks, innermost first.
* `throw IRModifiedException()` is the result `Walk.modified`, a failed
  `TC_ASSERT` or lookup is `Walk.failed`, a visit that returns is
  `Walk.completed`.
-/

namespace LowerAST

/-- Address of a heap object; `Stmt *` is the address of the statement. -/
abbrev Addr := Nat

/-- An identifier (the key of `local_var_alloca`). -/
abbrev Identifier := Nat

/-- The identifier map of one block: `std::map<Identifier, Stmt *>`. -/
abbrev VarMap := List (Identifier × Addr)

inductive DataType where
  | i32
  | f32
  deriving DecidableEq, Repr

inductive UnaryType where
  | neg
  | bit_not
  deriving DecidableEq, Repr

inductive BinaryType where
  | add
  | sub
  | mul
  | cmp_lt
  | cmp_gt
  deriving DecidableEq, Repr

/-- Expression nodes. `nid` is the address of the node: two occurrences with the
same `nid` are one shared node (`Expr` is a shared pointer to the node). -/
inductive Expr where
  | ConstExpression (nid : Addr) (val : Int)
  | IdExpression (nid : Addr) (id : Identifier)
  | UnaryOpExpression (nid : Addr) (op_type : UnaryType) (operand : Expr)
  | BinaryOpExpression (nid : Addr) (op_type : BinaryType) (lhs rhs : Expr)
  | GlobalPtrExpression (nid : Addr) (g : Nat)
  | GlobalLoadExpression (nid : Addr) (ptr : Expr)
  deriving DecidableEq, Repr

mutual
/-- Statements: the six frontend kinds first, then the lowered kinds. -/
inductive Stmt where
  | FrontendAllocaStmt (addr : Addr) (ident : Identifier) (data_type : DataType)
  | FrontendAssignStmt (addr : Addr) (lhs rhs : Expr)
  | FrontendIfStmt (addr : Addr) (condition : Expr)
      (true_statements false_statements : Option Block)
  | FrontendWhileStmt (addr : Addr) (cond : Expr) (body : Block)
  | FrontendForStmt (addr : Addr) (loop_var_id : Identifier) (begin_ end_ : Expr)
      (body : Block) (vectorize parallelize : Int)
  | FrontendPrintStmt (addr : Addr) (expr : Expr) (str : String)
  | ConstStmt (addr : Addr) (val : Int)
  | UnaryOpStmt (addr : Addr) (op_type : UnaryType) (operand : Addr)
  | BinaryOpStmt (addr : Addr) (op_type : BinaryType) (lhs rhs : Addr)
  | AllocaStmt (addr : Addr) (data_type : DataType)
  | LocalLoadStmt (addr : Addr) (ptr : Addr)
  | LocalStoreStmt (addr : Addr) (ptr data : Addr)
  | GlobalPtrStmt (addr : Addr) (g : Nat)
  | GlobalLoadStmt (addr : Addr) (ptr : Addr)
  | GlobalStoreStmt (addr : Addr) (ptr data : Addr)
  | IfStmt (addr : Addr) (cond true_mask false_mask : Addr)
      (true_statements false_statements : Option Block)
  | WhileStmt (addr : Addr) (mask : Addr) (body : Block)
  | WhileControlStmt (addr : Addr) (mask cond : Addr)
  | RangeForStmt (addr : Addr) (loop_var begin_ end_ : Addr) (body : Block)
      (vectorize parallelize : Int)
  | PrintStmt (addr : Addr) (stmt : Addr) (str : String)
/-- A block: its statements, its identifier map, its active-mask reference and
its loop-induction marker. -/
inductive Block where
  | mk (statements : List Stmt) (local_var_alloca : VarMap)
      (mask_var inner_loop_variable : Option Addr)
end

/-- The address of an expression node. -/
def Expr.nid : Expr → Addr
  | .ConstExpression n _ => n
  | .IdExpression n _ => n
  | .UnaryOpExpression n _ _ => n
  | .BinaryOpExpression n _ _ _ => n
  | .GlobalPtrExpression n _ => n
  | .GlobalLoadExpression n _ => n

/-- The address of a statement (`stmt.get()`). -/
def Stmt.addr : Stmt → Addr
  | .FrontendAllocaStmt a _ _ => a
  | .FrontendAssignStmt a _ _ => a
  | .FrontendIfStmt a _ _ _ => a
  | .FrontendWhileStmt a _ _ => a
  | .FrontendForStmt a _ _ _ _ _ _ => a
  | .FrontendPrintStmt a _ _ => a
  | .ConstStmt a _ => a
  | .UnaryOpStmt a _ _ => a
  | .BinaryOpStmt a _ _ _ => a
  | .AllocaStmt a _ => a
  | .LocalLoadStmt a _ => a
  | .LocalStoreStmt a _ _ => a
  | .GlobalPtrStmt a _ => a
  | .GlobalLoadStmt a _ => a
  | .GlobalStoreStmt a _ _ => a
  | .IfStmt a _ _ _ _ _ => a
  | .WhileStmt a _ _ => a
  | .WhileControlStmt a _ _ => a
  | .RangeForStmt a _ _ _ _ _ _ => a
  | .PrintStmt a _ _ => a

def Block.statements : Block → List Stmt
  | .mk ss _ _ _ => ss

def Block.local_var_alloca : Block → VarMap
  | .mk _ m _ _ => m

def Block.mask_var : Block → Option Addr
  | .mk _ _ m _ => m

def Block.inner_loop_variable : Block → Option Addr
  | .mk _ _ _ v => v

/-- Assignment `block->mask_var = p`. -/
def Block.set_mask_var : Block → Addr → Block
  | .mk ss m _ v, p => .mk ss m (some p) v

/-- Assignment `block->inner_loop_variable = p`. -/
def Block.set_inner_loop_variable : Block → Addr → Block
  | .mk ss m k _, p => .mk ss m k (some p)

/-- Replacement of the statement list of a block, every other field kept
(the effect of the calls `stmts->insert(...)` of the while rewriter). -/
def Block.set_statements : Block → List Stmt → Block
  | .mk _ m k v, ss => .mk ss m k v

/-- Whether a statement is of one of the six frontend-only kinds. -/
def Stmt.is_frontend : Stmt → Bool
  | .FrontendAllocaStmt _ _ _ => true
  | .FrontendAssignStmt _ _ _ => true
  | .FrontendIfStmt _ _ _ _ => true
  | .FrontendWhileStmt _ _ _ => true
  | .FrontendForStmt _ _ _ _ _ _ _ => true
  | .FrontendPrintStmt _ _ _ => true
  | _ => false

mutual
/-- Number of frontend-only statement nodes in a statement, its nested bodies
included. -/
def Stmt.frontend_count : Stmt → Nat
  | .FrontendAllocaStmt _ _ _ => 1
  | .FrontendAssignStmt _ _ _ => 1
  | .FrontendIfStmt _ _ t f => 1 + (frontend_count_opt t + frontend_count_opt f)
  | .FrontendWhileStmt _ _ b => 1 + Block.frontend_count b
  | .FrontendForStmt _ _ _ _ b _ _ => 1 + Block.frontend_count b
  | .FrontendPrintStmt _ _ _ => 1
  | .IfStmt _ _ _ _ t f => frontend_count_opt t + frontend_count_opt f
  | .WhileStmt _ _ b => Block.frontend_count b
  | .RangeForStmt _ _ _ _ b _ _ => Block.frontend_count b
  | .ConstStmt _ _ => 0
  | .UnaryOpStmt _ _ _ => 0
  | .BinaryOpStmt _ _ _ _ => 0
  | .AllocaStmt _ _ => 0
  | .LocalLoadStmt _ _ => 0
  | .LocalStoreStmt _ _ _ => 0
  | .GlobalPtrStmt _ _ => 0
  | .GlobalLoadStmt _ _ => 0
  | .GlobalStoreStmt _ _ _ => 0
  | .WhileControlStmt _ _ _ => 0
  | .PrintStmt _ _ _ => 0
/-- Count over an optional body (a null body holds nothing). -/
def frontend_count_opt : Option Block → Nat
  | none => 0
  | some b => Block.frontend_count b
/-- Number of frontend-only statement nodes in a block. -/
def Block.frontend_count : Block → Nat
  | .mk ss _ _ _ => frontend_count_list ss
/-- Count over a statement list. -/
def frontend_count_list : List Stmt → Nat
  | [] => 0
  | s :: rest => Stmt.frontend_count s + frontend_count_list rest
end

/-! ## Scope resolution and expression flattening

`ir.h`, which holds `Block::lookup_var`, `Expression::flatten`, `load`,
`Block::replace_with`, `Stmt::insert_before_me` and `Block::insert`, is not among
the sources; these are modelled from the specification. -/

/-- The call `local_var_alloca.find(id)` of `std::map`: the slot registered under
the identifier, if any. -/
def VarMap.find (m : VarMap) (id : Identifier) : Option Addr :=
  List.lookup id m

/-- The call `local_var_alloca.insert(std::make_pair(id, slot))` of `std::map`: it
adds the entry when the key is absent and leaves the map alone when it is
present. -/
def VarMap.insert (m : VarMap) (id : Identifier) (slot : Addr) : VarMap :=
  if (VarMap.find m id).isSome then m else (id, slot) :: m

/-- The assignment `local_var_alloca[id] = slot` of `std::map`: the entry of `id`
becomes `slot`, the entries of other keys are kept. -/
def VarMap.assign (m : VarMap) (id : Identifier) (slot : Addr) : VarMap :=
  (id, slot) :: m.filter (fun p => p.1 != id)

/-- Modelled from the spec: `Block::lookup_var`, missing with `ir.h` (spec 4.2):
it searches the block, then its enclosing blocks in order, and returns the first
match; `none` is the invariant failure of an undeclared identifier. The argument
is the chain of identifier maps, the block's own map first. -/
def lookup_var : List VarMap → Identifier → Option Addr
  | [], _ => none
  | m :: outer, id =>
    match VarMap.find m id with
    | some slot => some slot
    | none => lookup_var outer id

/-- The state of one flattening: the buffer `VecStatement flattened`, the `stmt`
fields recorded on expression nodes, and the next unused address. -/
structure FlattenState where
  flattened : List Stmt
  memo : List (Addr × Addr)
  next : Addr

/-- The field `e->stmt`: the instruction recorded on the node, if any. -/
def FlattenState.stmt_of (st : FlattenState) (e : Expr) : Option Addr :=
  List.lookup e.nid st.memo

/-- Whether the node at address `nid` already has a recorded instruction. -/
def FlattenState.has_stmt (st : FlattenState) (nid : Addr) : Bool :=
  (List.lookup nid st.memo).isSome

/-- One `ret.push_back(...)` followed by `stmt = ret.back().get()` on node `nid`. -/
def FlattenState.emit (st : FlattenState) (nid : Addr) (s : Stmt) : FlattenState :=
  { flattened := st.flattened ++ [s], memo := (nid, s.addr) :: st.memo, next := st.next + 1 }

/-- Modelled from the spec: `Expression::flatten`, missing with `ir.h` (spec 2 and
4.1): sub-expressions first, one lowered instruction appended per node, the
instruction recorded on the node, and a node that already has a recorded
instruction is not flattened again. An identifier reference becomes a local load
of `lookup_var` in the scope `scope` (the block being visited); `none` is the
invariant failure of an undeclared identifier. -/
def Expr.flatten (scope : List VarMap) : Expr → FlattenState → Option FlattenState
  | .ConstExpression nid v, st =>
    if st.has_stmt nid then some st
    else some (st.emit nid (.ConstStmt st.next v))
  | .IdExpression nid id, st =>
    if st.has_stmt nid then some st
    else
      match lookup_var scope id with
      | none => none
      | some slot => some (st.emit nid (.LocalLoadStmt st.next slot))
  | .UnaryOpExpression nid op e, st =>
    if st.has_stmt nid then some st
    else
      match Expr.flatten scope e st with
      | none => none
      | some st1 =>
        match st1.stmt_of e with
        | none => none
        | some v => some (st1.emit nid (.UnaryOpStmt st1.next op v))
  | .BinaryOpExpression nid op l r, st =>
    if st.has_stmt nid then some st
    else
      match Expr.flatten scope l st with
      | none => none
      | some st1 =>
        match Expr.flatten scope r st1 with
        | none => none
        | some st2 =>
          match st2.stmt_of l, st2.stmt_of r with
          | some a, some b => some (st2.emit nid (.BinaryOpStmt st2.next op a b))
          | _, _ => none
  | .GlobalPtrExpression nid g, st =>
    if st.has_stmt nid then some st
    else some (st.emit nid (.GlobalPtrStmt st.next g))
  | .GlobalLoadExpression nid p, st =>
    if st.has_stmt nid then some st
    else
      match Expr.flatten scope p st with
      | none => none
      | some st1 =>
        match st1.stmt_of p with
        | none => none
        | some v => some (st1.emit nid (.GlobalLoadStmt st1.next v))

/-- Modelled from the spec: the class test `expr.is<GlobalPtrStmt>()`; `Expr::is`
and the class `GlobalPtrStmt` are declared in the missing `ir.h`. In the data
model (spec 3) statements and expressions are disjoint variants and
`GlobalPtrStmt` is a statement class, so the test holds of no expression node. -/
def Expr.is_GlobalPtrStmt : Expr → Bool
  | _ => false

/-- The class test `expr.is<IdExpression>()`. -/
def Expr.is_IdExpression : Expr → Bool
  | .IdExpression _ _ => true
  | _ => false

/-- The class test `expr.is<GlobalPtrExpression>()`. -/
def Expr.is_GlobalPtrExpression : Expr → Bool
  | .GlobalPtrExpression _ _ => true
  | _ => false

/-- Modelled from the spec: `load`, missing with `ir.h` (spec 4.1): a new
expression node, at address `nid`, that is the explicit load of `ptr`. -/
def load (nid : Addr) (ptr : Expr) : Expr :=
  .GlobalLoadExpression nid ptr

/-- The function `LowerAST::load_if_ptr`; the second component is the next unused
address after the call. -/
def load_if_ptr (next : Addr) (expr : Expr) : Expr × Addr :=
  if expr.is_GlobalPtrStmt then (load next expr, next + 1)
  else (expr, next)

/-- The effect of one rewriter on the parent block of the rewritten statement:
the statements that stand where the statement stood (those placed by
`insert_before_me` and those given to `replace_with`), the parent's identifier
map and the next unused address. -/
structure Rewrite where
  replacement : List Stmt
  local_var_alloca : VarMap
  next : Addr

/-- The conversion `(int)0xFFFFFFFF` to a 32-bit signed integer. -/
def to_int32 (n : Nat) : Int :=
  ((n + 2 ^ 31) % 2 ^ 32 : Nat) - 2 ^ 31

/-- The 32-bit pattern of a signed integer. -/
def bits32 (v : Int) : Nat :=
  (v % 2 ^ 32).toNat

/-! ## The rewriters

Each rewriter receives the identifier maps of the blocks enclosing the parent
block (`outer`, innermost first), the parent block's own map (`vars`), the next
unused address, and the fields of the frontend statement. `none` is a failed
`TC_ASSERT` or lookup. Addresses are handed out in the order in which the source
creates the objects.

Every rewriter starts its buffer `VecStatement flattened` empty. It also starts
with no instruction recorded on the expression nodes of its statement: the
nodes are owned by that one statement, which is lowered once (spec 2: a node is
flattened at most once per lowering of its enclosing statement). -/

/-- The rewriter `visit(FrontendAllocaStmt *)`. -/
def visit_FrontendAllocaStmt (vars : VarMap) (next : Addr)
    (ident : Identifier) (data_type : DataType) : Option Rewrite :=
  if (VarMap.find vars ident).isSome then none
  else
    some { replacement := [.AllocaStmt next data_type],
           local_var_alloca := VarMap.insert vars ident next,
           next := next + 1 }

/-- Attach a mask slot to a body that is present (`if (body) body->mask_var = m`). -/
def move_body_with_mask (body : Option Block) (mask : Addr) : Option Block :=
  match body with
  | none => none
  | some b => some (b.set_mask_var mask)

/-- The rewriter `visit(FrontendIfStmt *)`. -/
def visit_FrontendIfStmt (outer : List VarMap) (vars : VarMap) (next : Addr)
    (condition : Expr) (true_statements false_statements : Option Block) :
    Option Rewrite :=
  match condition.flatten (vars :: outer) { flattened := [], memo := [], next := next } with
  | none => none
  | some st =>
    match st.stmt_of condition with
    | none => none
    | some c =>
      let new_if := st.next
      let true_mask := st.next + 1
      let false_mask := st.next + 2
      let store_true := st.next + 3
      let lnot_stmt_ptr := st.next + 4
      let store_false := st.next + 5
      some { replacement := st.flattened ++
               [ .AllocaStmt true_mask .i32,
                 .AllocaStmt false_mask .i32,
                 .LocalStoreStmt store_true true_mask c,
                 .UnaryOpStmt lnot_stmt_ptr .bit_not c,
                 .LocalStoreStmt store_false false_mask lnot_stmt_ptr,
                 .IfStmt new_if c true_mask false_mask
                   (move_body_with_mask true_statements true_mask)
                   (move_body_with_mask false_statements false_mask) ],
             local_var_alloca := vars,
             next := st.next + 6 }

/-- The rewriter `visit(FrontendPrintStmt *)`. -/
def visit_FrontendPrintStmt (outer : List VarMap) (vars : VarMap) (next : Addr)
    (e : Expr) (str : String) : Option Rewrite :=
  let expr := (load_if_ptr next e).1
  let next1 := (load_if_ptr next e).2
  match expr.flatten (vars :: outer) { flattened := [], memo := [], next := next1 } with
  | none => none
  | some st =>
    match st.stmt_of expr with
    | none => none
    | some v =>
      some { replacement := st.flattened ++ [.PrintStmt st.next v str],
             local_var_alloca := vars,
             next := st.next + 1 }

/-- The rewriter `visit(FrontendWhileStmt *)`. `flattened.back()` of an empty
buffer has no defined value and is a failure here. -/
def visit_FrontendWhileStmt (outer : List VarMap) (vars : VarMap) (next : Addr)
    (cond : Expr) (body : Block) : Option Rewrite :=
  match cond.flatten (vars :: outer) { flattened := [], memo := [], next := next } with
  | none => none
  | some st =>
    match st.flattened.getLast? with
    | none => none
    | some last =>
      let cond_stmt := last.addr
      let new_while := st.next
      let mask := st.next + 1
      let control := st.next + 2
      let unused := st.next + 3
      let const_stmt_ptr := st.next + 4
      let store := st.next + 5
      let stmts := st.flattened ++ [.WhileControlStmt control mask cond_stmt] ++ body.statements
      some { replacement :=
               [ .AllocaStmt unused .i32,
                 .AllocaStmt mask .i32,
                 .ConstStmt const_stmt_ptr (to_int32 0xFFFFFFFF),
                 .LocalStoreStmt store mask const_stmt_ptr,
                 .WhileStmt new_while mask ((body.set_statements stmts).set_mask_var mask) ],
             local_var_alloca := vars,
             next := st.next + 6 }

/-- The rewriter `visit(FrontendForStmt *)`. -/
def visit_FrontendForStmt (outer : List VarMap) (vars : VarMap) (next : Addr)
    (loop_var_id : Identifier) (begin_ end_ : Expr) (body : Block)
    (vectorize parallelize : Int) : Option Rewrite :=
  let vars1 := VarMap.assign vars loop_var_id next
  match begin_.flatten (vars1 :: outer)
      { flattened := [.AllocaStmt next .i32], memo := [], next := next + 1 } with
  | none => none
  | some st1 =>
    match end_.flatten (vars1 :: outer) st1 with
    | none => none
    | some st2 =>
      match lookup_var (vars1 :: outer) loop_var_id, st2.stmt_of begin_, st2.stmt_of end_ with
      | some loop_var, some b, some e =>
        some { replacement := st2.flattened ++
                 [ .RangeForStmt st2.next loop_var b e
                     (body.set_inner_loop_variable loop_var) vectorize parallelize ],
               local_var_alloca := vars1,
               next := st2.next + 1 }
      | _, _, _ => none

/-- The rewriter `visit(FrontendAssignStmt *)`. -/
def visit_FrontendAssignStmt (outer : List VarMap) (vars : VarMap) (next : Addr)
    (lhs rhs : Expr) : Option Rewrite :=
  match rhs.flatten (vars :: outer) { flattened := [], memo := [], next := next } with
  | none => none
  | some st =>
    match lhs with
    | .IdExpression _ id =>
      match lookup_var (vars :: outer) id, st.stmt_of rhs with
      | some slot, some v =>
        some { replacement := st.flattened ++ [.LocalStoreStmt st.next slot v],
               local_var_alloca := vars,
               next := st.next + 1 }
      | _, _ => none
    | .GlobalPtrExpression nid g =>
      match (Expr.GlobalPtrExpression nid g).flatten (vars :: outer) st with
      | none => none
      | some st2 =>
        match st2.flattened.getLast?, st2.stmt_of rhs with
        | some last, some v =>
          some { replacement := st2.flattened ++ [.GlobalStoreStmt st2.next last.addr v],
                 local_var_alloca := vars,
                 next := st2.next + 1 }
        | _, _ => none
    | _ => none

/-! ## The walker and the driver -/

/-- Outcome of a visit: it returned (no rewrite happened below it), it threw
`IRModifiedException` after one rewrite, or an invariant failed. -/
inductive Walk (α : Type) where
  | completed : Walk α
  | modified (result : α) : Walk α
  | failed : Walk α

/-- Outcome of a rewriter as the outcome of the visit that ran it. -/
def Walk.of_rewrite : Option Rewrite → Walk Rewrite
  | none => .failed
  | some r => .modified r

mutual
/-- The call `stmt->accept(this)` on a statement of a block whose map is `vars`;
kinds without a visitor are skipped (`allow_undefined_visitor`). For a lowered
statement with bodies the replacement is the statement with the rewritten body. -/
def visit_Stmt (outer : List VarMap) (vars : VarMap) (next : Addr) : Stmt → Walk Rewrite
  | .FrontendAllocaStmt _ ident dt => Walk.of_rewrite (visit_FrontendAllocaStmt vars next ident dt)
  | .FrontendAssignStmt _ lhs rhs =>
    Walk.of_rewrite (visit_FrontendAssignStmt outer vars next lhs rhs)
  | .FrontendIfStmt _ c t f => Walk.of_rewrite (visit_FrontendIfStmt outer vars next c t f)
  | .FrontendWhileStmt _ c b => Walk.of_rewrite (visit_FrontendWhileStmt outer vars next c b)
  | .FrontendForStmt _ i b e body v p =>
    Walk.of_rewrite (visit_FrontendForStmt outer vars next i b e body v p)
  | .FrontendPrintStmt _ e str => Walk.of_rewrite (visit_FrontendPrintStmt outer vars next e str)
  | .IfStmt a c tm fm t f =>
    match visit_body (vars :: outer) next t with
    | .modified (t1, next1) =>
      .modified { replacement := [.IfStmt a c tm fm t1 f], local_var_alloca := vars, next := next1 }
    | .failed => .failed
    | .completed =>
      match visit_body (vars :: outer) next f with
      | .modified (f1, next1) =>
        .modified { replacement := [.IfStmt a c tm fm t f1], local_var_alloca := vars,
                    next := next1 }
      | .failed => .failed
      | .completed => .completed
  | .WhileStmt a m b =>
    match visit_Block (vars :: outer) next b with
    | .modified (b1, next1) =>
      .modified { replacement := [.WhileStmt a m b1], local_var_alloca := vars, next := next1 }
    | .failed => .failed
    | .completed => .completed
  | .RangeForStmt a lv b e body v p =>
    match visit_Block (vars :: outer) next body with
    | .modified (body1, next1) =>
      .modified { replacement := [.RangeForStmt a lv b e body1 v p], local_var_alloca := vars,
                  next := next1 }
    | .failed => .failed
    | .completed => .completed
  | .ConstStmt _ _ => .completed
  | .UnaryOpStmt _ _ _ => .completed
  | .BinaryOpStmt _ _ _ _ => .completed
  | .AllocaStmt _ _ => .completed
  | .LocalLoadStmt _ _ => .completed
  | .LocalStoreStmt _ _ _ => .completed
  | .GlobalPtrStmt _ _ => .completed
  | .GlobalLoadStmt _ _ => .completed
  | .GlobalStoreStmt _ _ _ => .completed
  | .WhileControlStmt _ _ _ => .completed
  | .PrintStmt _ _ _ => .completed
/-- The guarded call `if (body) body->accept(this)` of `visit(IfStmt *)`. -/
def visit_body (outer : List VarMap) (next : Addr) : Option Block → Walk (Option Block × Addr)
  | none => .completed
  | some b =>
    match visit_Block outer next b with
    | .modified (b1, next1) => .modified (some b1, next1)
    | .failed => .failed
    | .completed => .completed
/-- The visitor `visit(Block *)`: the statements in order. -/
def visit_Block (outer : List VarMap) (next : Addr) : Block → Walk (Block × Addr)
  | .mk ss vars m v =>
    match visit_statements outer vars next ss with
    | .modified r => .modified (.mk r.replacement r.local_var_alloca m v, r.next)
    | .failed => .failed
    | .completed => .completed
/-- The loop `for (auto &stmt : stmt_list->statements) stmt->accept(this)`. -/
def visit_statements (outer : List VarMap) (vars : VarMap) (next : Addr) :
    List Stmt → Walk Rewrite
  | [] => .completed
  | s :: rest =>
    match visit_Stmt outer vars next s with
    | .modified r => .modified { r with replacement := r.replacement ++ rest }
    | .failed => .failed
    | .completed =>
      match visit_statements outer vars next rest with
      | .modified r => .modified { r with replacement := s :: r.replacement }
      | .failed => .failed
      | .completed => .completed
end

/-- Outcome of the driver: it returned with this tree, an invariant failed, or
the iteration bound of the model was used up. -/
inductive RunResult where
  | returned (root : Block) (next : Addr)
  | failed
  | out_of_fuel

/-- The driver `LowerAST::run`: walk from the root until a walk completes without
a rewrite. `fuel` bounds the number of walks. -/
def run : Nat → Block → Addr → RunResult
  | 0, _, _ => .out_of_fuel
  | fuel + 1, root, next =>
    match visit_Block [] next root with
    | .completed => .returned root next
    | .modified (root1, next1) => run fuel root1 next1
    | .failed => .failed

/-- The entry point `irpass::lower`. -/
def lower (fuel : Nat) (root : Block) (next : Addr) : RunResult :=
  run fuel root next

/-! ## Predicates used to state the properties -/

/-- The kinds of instruction that flattening an expression emits. -/
def Stmt.is_value : Stmt → Bool
  | .ConstStmt _ _ => true
  | .UnaryOpStmt _ _ _ => true
  | .BinaryOpStmt _ _ _ _ => true
  | .LocalLoadStmt _ _ => true
  | .GlobalPtrStmt _ _ => true
  | .GlobalLoadStmt _ _ => true
  | _ => false

/-- What one successful flattening does to the state: it appends `seg`, made of
value instructions, does not lower the address counter, and keeps every
recorded instruction. -/
structure FlattenStep (st st1 : FlattenState) (seg : List Stmt) : Prop where
  buffer : st1.flattened = st.flattened ++ seg
  values : ∀ s ∈ seg, s.is_value = true
  next_le : st.next ≤ st1.next
  memo_kept : ∀ k, st.has_stmt k = true → List.lookup k st1.memo = List.lookup k st.memo

/-- The relation between the outcome of a visit and the number `n` of frontend
statements in what was visited: a completed visit saw none, a rewrite leaves one
fewer, and a failure needs one to be there. -/
def WalkCount {α : Type} (cnt : α → Nat) (n : Nat) : Walk α → Prop
  | .completed => n = 0
  | .modified r => cnt r + 1 = n
  | .failed => 0 < n

mutual
/-- The statement itself followed by every statement nested in its bodies, in the
order of a full pre-order traversal (bodies of frontend statements included). -/
def Stmt.nodes : Stmt → List Stmt
  | .FrontendIfStmt a c t f => .FrontendIfStmt a c t f :: (nodes_opt t ++ nodes_opt f)
  | .FrontendWhileStmt a c b => .FrontendWhileStmt a c b :: Block.nodes b
  | .FrontendForStmt a i b e body v p => .FrontendForStmt a i b e body v p :: Block.nodes body
  | .IfStmt a c tm fm t f => .IfStmt a c tm fm t f :: (nodes_opt t ++ nodes_opt f)
  | .WhileStmt a m b => .WhileStmt a m b :: Block.nodes b
  | .RangeForStmt a lv b e body v p => .RangeForStmt a lv b e body v p :: Block.nodes body
  | .FrontendAllocaStmt a i d => [.FrontendAllocaStmt a i d]
  | .FrontendAssignStmt a l r => [.FrontendAssignStmt a l r]
  | .FrontendPrintStmt a e s => [.FrontendPrintStmt a e s]
  | .ConstStmt a v => [.ConstStmt a v]
  | .UnaryOpStmt a o x => [.UnaryOpStmt a o x]
  | .BinaryOpStmt a o x y => [.BinaryOpStmt a o x y]
  | .AllocaStmt a d => [.AllocaStmt a d]
  | .LocalLoadStmt a p => [.LocalLoadStmt a p]
  | .LocalStoreStmt a p d => [.LocalStoreStmt a p d]
  | .GlobalPtrStmt a g => [.GlobalPtrStmt a g]
  | .GlobalLoadStmt a p => [.GlobalLoadStmt a p]
  | .GlobalStoreStmt a p d => [.GlobalStoreStmt a p d]
  | .WhileControlStmt a m c => [.WhileControlStmt a m c]
  | .PrintStmt a v s => [.PrintStmt a v s]
/-- Traversal of an optional body. -/
def nodes_opt : Option Block → List Stmt
  | none => []
  | some b => Block.nodes b
/-- Every statement of the tree below a block, in pre-order. -/
def Block.nodes : Block → List Stmt
  | .mk ss _ _ _ => nodes_list ss
/-- Traversal of a statement list. -/
def nodes_list : List Stmt → List Stmt
  | [] => []
  | s :: rest => Stmt.nodes s ++ nodes_list rest
end

/-- A tree in normal form: a full traversal finds no frontend-only statement. -/
def Block.lowered (b : Block) : Prop :=
  ∀ s ∈ b.nodes, s.is_frontend = false

/-- Number of entries of a list that satisfy a test. -/
def count_where (p : Stmt → Bool) (l : List Stmt) : Nat :=
  (l.filter p).length

/-- Whether a statement is a local store. -/
def Stmt.is_LocalStoreStmt : Stmt → Bool
  | .LocalStoreStmt _ _ _ => true
  | _ => false

/-- Whether a statement is a global store. -/
def Stmt.is_GlobalStoreStmt : Stmt → Bool
  | .GlobalStoreStmt _ _ _ => true
  | _ => false

/-! ## Meaning of the mask instructions

The backend that executes lowered instructions is outside `lower_ast.cpp`; the
meaning of the instructions that the if rewriter emits for its masks is modelled
from the specification (4.4: 32-bit words, store, bitwise NOT). -/

/-- Modelled from the spec: the 32-bit word computed by a unary instruction,
missing with the backend; `bit_not` is the bitwise NOT of a 32-bit word (spec 4.4),
`neg` the two's complement negation. -/
def eval_unary : UnaryType → Nat → Nat
  | .bit_not, w => 2 ^ 32 - 1 - w % 2 ^ 32
  | .neg, w => (2 ^ 32 - w % 2 ^ 32) % 2 ^ 32

/-- Modelled from the spec: the state in which instructions execute, missing with
the backend: the word computed by each instruction and the word held by each
storage slot. -/
structure Machine where
  value : Addr → Nat
  slot : Addr → Nat

/-- Modelled from the spec: execution of one straight-line instruction, missing
with the backend. An allocation changes no word, a constant and a unary operation
define the word of the instruction, a local store writes the word of its data
operand into its slot, a local load reads the slot; other kinds are not given a
meaning here (`none`). -/
def exec_stmt : Stmt → Machine → Option Machine
  | .AllocaStmt _ _, M => some M
  | .ConstStmt a v, M => some { M with value := fun k => if k = a then bits32 v else M.value k }
  | .UnaryOpStmt a op x, M =>
    some { M with value := fun k => if k = a then eval_unary op (M.value x) else M.value k }
  | .LocalStoreStmt _ p d, M =>
    some { M with slot := fun k => if k = p then M.value d else M.slot k }
  | .LocalLoadStmt a p, M =>
    some { M with value := fun k => if k = a then M.slot p else M.value k }
  | _, _ => none

/-- Execution of a sequence of straight-line instructions, in order. -/
def exec_list : List Stmt → Machine → Option Machine
  | [], M => some M
  | s :: rest, M =>
    match exec_stmt s M with
    | none => none
    | some M1 => exec_list rest M1

/-! ## Concrete trees used to exercise the definitions -/

/-- The tree `var x; while (x < 10) { print x }`. -/
def example_while_tree : Block :=
  .mk [ .FrontendAllocaStmt 0 1 .i32,
        .FrontendWhileStmt 1
          (.BinaryOpExpression 2 .cmp_lt (.IdExpression 3 1) (.ConstExpression 4 10))
          (.mk [.FrontendPrintStmt 5 (.IdExpression 6 1) "x"] [] none none) ]
    [] none none

/-- The tree `example_while_tree` after lowering. -/
def example_while_lowered : Block :=
  .mk [ .AllocaStmt 7 .i32,
        .AllocaStmt 14 .i32,
        .AllocaStmt 12 .i32,
        .ConstStmt 15 (-1),
        .LocalStoreStmt 16 12 15,
        .WhileStmt 11 12
          (.mk [ .LocalLoadStmt 8 7, .ConstStmt 9 10, .BinaryOpStmt 10 .cmp_lt 8 9,
                 .WhileControlStmt 13 12 10,
                 .LocalLoadStmt 17 7, .PrintStmt 18 17 "x" ] [] (some 12) none) ]
    [(1, 7)] none none

/-- The condition `x > 0`, with `x` the identifier 1. -/
def example_cond : Expr :=
  .BinaryOpExpression 2 .cmp_gt (.IdExpression 3 1) (.ConstExpression 4 0)

/-- The body `{ y = 1 }`, with `y` the identifier 2. -/
def example_body : Block :=
  .mk [.FrontendAssignStmt 5 (.IdExpression 6 2) (.ConstExpression 7 1)] [] none none

/-- The flattening of `example_cond` in a scope where `x` is the slot 0, from
the address 10 on. -/
def example_cond_flattened : FlattenState :=
  { flattened := [.LocalLoadStmt 10 0, .ConstStmt 11 0, .BinaryOpStmt 12 .cmp_gt 10 11],
    memo := [(2, 12), (4, 11), (3, 10)],
    next := 13 }

/-- The body `{ print i }`, with `i` the identifier 1. -/
def example_for_body : Block :=
  .mk [.FrontendPrintStmt 5 (.IdExpression 6 1) "i"] [] none none

/-! ## Further notions used to state the properties -/

/-- Whether an expression holds an identifier reference to `id`. -/
def Expr.mentions : Expr → Identifier → Bool
  | .ConstExpression _ _, _ => false
  | .IdExpression _ x, id => x == id
  | .UnaryOpExpression _ _ e, id => e.mentions id
  | .BinaryOpExpression _ _ l r, id => l.mentions id || r.mentions id
  | .GlobalPtrExpression _ _, _ => false
  | .GlobalLoadExpression _ p, id => p.mentions id

/-- The global-address node `g`, shared by both sides of `g = load(g)`. -/
def example_shared_ptr : Expr :=
  .GlobalPtrExpression 2 7

/-- The instructions and slots that a statement refers to by pointer (its own
operand fields; the statements inside its bodies are not counted). -/
def Stmt.operands : Stmt → List Addr
  | .UnaryOpStmt _ _ x => [x]
  | .BinaryOpStmt _ _ l r => [l, r]
  | .LocalLoadStmt _ p => [p]
  | .LocalStoreStmt _ p d => [p, d]
  | .GlobalLoadStmt _ p => [p]
  | .GlobalStoreStmt _ p d => [p, d]
  | .IfStmt _ c tm fm _ _ => [c, tm, fm]
  | .WhileStmt _ m _ => [m]
  | .WhileControlStmt _ m c => [m, c]
  | .RangeForStmt _ lv b e _ _ _ => [lv, b, e]
  | .PrintStmt _ v _ => [v]
  | _ => []

/-- Every address that a flattening state holds lies below its address counter:
the addresses and operands of the buffered statements and the recorded
instructions. -/
def FlattenState.bounded (st : FlattenState) : Prop :=
  (∀ s ∈ st.flattened, s.addr < st.next ∧ ∀ o ∈ s.operands, o < st.next) ∧
  (∀ q ∈ st.memo, q.2 < st.next)

/-! ## Meaning of the loop-control instruction

Modelled from the specification (4.5), as the backend is outside
`lower_ast.cpp`. -/

/-- The tree `for i in range(0, 10) { print i }`. -/
def example_for_tree : Block :=
  .mk [ .FrontendForStmt 1 1 (.ConstExpression 2 0) (.ConstExpression 3 10)
          example_for_body 1 0 ]
    [] none none

/-- The body of the range-for instruction of `example_for_tree` after lowering. -/
def example_for_body_lowered : Block :=
  .mk [.LocalLoadStmt 14 10, .PrintStmt 15 14 "i"] [] none (some 10)

/-- The tree `example_for_tree` after lowering. -/
def example_for_tree_lowered : Block :=
  .mk [ .AllocaStmt 10 .i32, .ConstStmt 11 0, .ConstStmt 12 10,
        .RangeForStmt 13 10 11 12 example_for_body_lowered 1 0 ]
    [(1, 10)] none none

/-! ## Positions in the tree

A position of a statement in the tree is given by the statements before and
after it in its parent block and, when the parent block is the body of a lowered
statement, by that statement and its own position. -/

/-- A lowered statement with bodies, seen from the body that a walk goes into:
the other fields of the statement. -/
inductive Frame where
  | if_true (a c tm fm : Addr) (f : Option Block)
  | if_false (a c tm fm : Addr) (t : Option Block)
  | while_body (a m : Addr)
  | for_body (a lv b e : Addr) (v p : Int)

/-- The statement of a frame around a given body. -/
def Frame.fill : Frame → Block → Stmt
  | .if_true a c tm fm f, b => .IfStmt a c tm fm (some b) f
  | .if_false a c tm fm t, b => .IfStmt a c tm fm t (some b)
  | .while_body a m, b => .WhileStmt a m b
  | .for_body a lv b e v p, body => .RangeForStmt a lv b e body v p

/-- Number of frontend statements in the body that `visit(IfStmt*)` walks before
the body of the frame (the true body, for the frame of a false body). -/
def Frame.before_count : Frame → Nat
  | .if_false _ _ _ _ t => frontend_count_opt t
  | _ => 0

/-- A position in a statement list: directly in the list, between `pre` and
`post`, or inside the body (with map `vars`, mask and induction marker) of the
lowered statement that stands between `pre` and `post`. -/
inductive Ctx where
  | here (pre post : List Stmt)
  | under (pre : List Stmt) (fr : Frame) (vars : VarMap) (mask_var ilv : Option Addr)
      (inner : Ctx) (post : List Stmt)

/-- The statement list that has the statement `s` at the position. -/
def Ctx.unplug : Ctx → Stmt → List Stmt
  | .here pre post, s => pre ++ s :: post
  | .under pre fr vars m v inner post, s =>
    pre ++ fr.fill (.mk (inner.unplug s) vars m v) :: post

/-- The map of the block that holds the position, when `vars` is the map of the
block of the list. -/
def Ctx.hole_vars : Ctx → VarMap → VarMap
  | .here _ _, vars => vars
  | .under _ _ ivars _ _ inner _, _ => inner.hole_vars ivars

/-- The maps of the blocks that enclose the block holding the position, innermost
first, when `vars` is the map of the block of the list and `outer` are the maps
around it. -/
def Ctx.hole_outer : Ctx → VarMap → List VarMap → List VarMap
  | .here _ _, _, outer => outer
  | .under _ _ ivars _ _ inner _, vars, outer => inner.hole_outer ivars (vars :: outer)

/-- The map of the block of the list after the block that holds the position got
the map `nv`. -/
def Ctx.plug_vars : Ctx → VarMap → VarMap → VarMap
  | .here _ _, _, nv => nv
  | .under _ _ _ _ _ _ _, vars, _ => vars

/-- The statement list that has the statements `content` at the position, the
block that holds the position having the map `nv`; nothing else differs from
`unplug`. -/
def Ctx.plug : Ctx → List Stmt → VarMap → List Stmt
  | .here pre post, content, _ => pre ++ content ++ post
  | .under pre fr vars m v inner post, content, nv =>
    pre ++ fr.fill (.mk (inner.plug content nv) (inner.plug_vars vars nv) m v) :: post

/-- The position comes first in the order of the walk: no frontend statement
stands before it in its block, nor in a body walked earlier, nor before the
enclosing statements. -/
def Ctx.leftmost : Ctx → Prop
  | .here pre _ => frontend_count_list pre = 0
  | .under pre fr _ _ _ inner _ =>
    frontend_count_list pre = 0 ∧ fr.before_count = 0 ∧ inner.leftmost

/-- The position in the list extended by the statement `x` in front. -/
def Ctx.cons_pre (x : Stmt) : Ctx → Ctx
  | .here pre post => .here (x :: pre) post
  | .under pre fr vars m v inner post => .under (x :: pre) fr vars m v inner post

/-- The position in the list extended by the statements `rest` at the end. -/
def Ctx.append_post : Ctx → List Stmt → Ctx
  | .here pre post, rest => .here pre (post ++ rest)
  | .under pre fr vars m v inner post, rest => .under pre fr vars m v inner (post ++ rest)

/-- The bodies that a statement holds directly. -/
def Stmt.bodies : Stmt → List Block
  | .FrontendIfStmt _ _ t f => t.toList ++ f.toList
  | .FrontendWhileStmt _ _ b => [b]
  | .FrontendForStmt _ _ _ _ b _ _ => [b]
  | .IfStmt _ _ _ _ t f => t.toList ++ f.toList
  | .WhileStmt _ _ b => [b]
  | .RangeForStmt _ _ _ _ b _ _ => [b]
  | _ => []

/-- The bodies held directly by the statements of a list, in order. -/
def bodies_list : List Stmt → List Block
  | [] => []
  | s :: rest => s.bodies ++ bodies_list rest

/-- The bodies of a lowered conditional carry its two mask slots and the body of
a masked loop carries its mask slot; nothing is asked of other statements. -/
def Stmt.body_masks_set : Stmt → Prop
  | .IfStmt _ _ tm fm t f =>
    (∀ b, t = some b → b.mask_var = some tm) ∧ (∀ b, f = some b → b.mask_var = some fm)
  | .WhileStmt _ m b => b.mask_var = some m
  | _ => True

/-- The statements of the bodies of a framed statement that come before the body
of the frame in a full traversal. -/
def Frame.nodes_before : Frame → List Stmt
  | .if_false _ _ _ _ t => nodes_opt t
  | _ => []

/-- The statements of the bodies of a framed statement that come after the body
of the frame in a full traversal. -/
def Frame.nodes_after : Frame → List Stmt
  | .if_true _ _ _ _ f => nodes_opt f
  | _ => []

/-! # Theorems

## Facts about flattening -/

theorem FlattenStep.refl (st : FlattenState) : FlattenStep st st [] :=
  ⟨by simp, by simp, le_refl _, fun _ _ => rfl⟩

theorem FlattenStep.trans {a b c : FlattenState} {s1 s2 : List Stmt}
    (h1 : FlattenStep a b s1) (h2 : FlattenStep b c s2) : FlattenStep a c (s1 ++ s2) := by
  refine ⟨?_, ?_, le_trans h1.next_le h2.next_le, ?_⟩
  · rw [h2.buffer, h1.buffer, List.append_assoc]
  · intro s hs
    rcases List.mem_append.mp hs with h | h
    · exact h1.values s h
    · exact h2.values s h
  · intro k hk
    have e1 := h1.memo_kept k hk
    have hk2 : b.has_stmt k = true := by
      unfold FlattenState.has_stmt at hk ⊢
      rw [e1]; exact hk
    rw [h2.memo_kept k hk2, e1]

theorem lookup_cons_ne {k nid v : Addr} {m : List (Addr × Addr)} (hne : k ≠ nid) :
    List.lookup k ((nid, v) :: m) = List.lookup k m := by
  have : (k == nid) = false := by simpa using hne
  simp only [List.lookup, this]

theorem lookup_cons_self {nid v : Addr} {m : List (Addr × Addr)} :
    List.lookup nid ((nid, v) :: m) = some v := by
  simp only [List.lookup, beq_self_eq_true]

theorem FlattenStep.then_emit {st sa : FlattenState} {seg : List Stmt}
    (h : FlattenStep st sa seg) (nid : Addr) (s : Stmt)
    (hs : s.is_value = true) (hn : ¬ st.has_stmt nid = true) :
    FlattenStep st (sa.emit nid s) (seg ++ [s]) := by
  refine ⟨?_, ?_, le_trans h.next_le (Nat.le_succ _), ?_⟩
  · show sa.flattened ++ [s] = st.flattened ++ (seg ++ [s])
    rw [h.buffer, List.append_assoc]
  · intro x hx
    rcases List.mem_append.mp hx with hx | hx
    · exact h.values x hx
    · rw [List.mem_singleton] at hx
      rw [hx]; exact hs
  · intro k hk
    have hne : k ≠ nid := by
      rintro rfl
      exact hn hk
    show List.lookup k ((nid, s.addr) :: sa.memo) = _
    rw [lookup_cons_ne hne]
    exact h.memo_kept k hk

theorem isSome_lookup_emit (sa : FlattenState) (nid : Addr) (s : Stmt) :
    (List.lookup nid (sa.emit nid s).memo).isSome = true := by
  show (List.lookup nid ((nid, s.addr) :: sa.memo)).isSome = true
  rw [lookup_cons_self]; rfl

theorem flatten_step (scope : List VarMap) (e : Expr) :
    ∀ st st1, e.flatten scope st = some st1 →
      ∃ seg, FlattenStep st st1 seg ∧ (st1.stmt_of e).isSome = true := by
  induction e with
  | ConstExpression nid v =>
    intro st st1 h
    simp only [Expr.flatten] at h
    split at h
    · rename_i hm
      cases h
      exact ⟨[], FlattenStep.refl _, hm⟩
    · rename_i hm
      cases h
      exact ⟨_, (FlattenStep.refl st).then_emit _ _ rfl hm, isSome_lookup_emit _ _ _⟩
  | IdExpression nid id =>
    intro st st1 h
    simp only [Expr.flatten] at h
    split at h
    · rename_i hm
      cases h
      exact ⟨[], FlattenStep.refl _, hm⟩
    · rename_i hm
      split at h
      · cases h
      · cases h
        exact ⟨_, (FlattenStep.refl st).then_emit _ _ rfl hm, isSome_lookup_emit _ _ _⟩
  | UnaryOpExpression nid op e ih =>
    intro st st1 h
    simp only [Expr.flatten] at h
    split at h
    · rename_i hm
      cases h
      exact ⟨[], FlattenStep.refl _, hm⟩
    · rename_i hn
      split at h
      · cases h
      · rename_i sa ha
        split at h
        · cases h
        · cases h
          obtain ⟨seg, hs, _⟩ := ih st sa ha
          exact ⟨_, hs.then_emit _ _ rfl hn, isSome_lookup_emit _ _ _⟩
  | BinaryOpExpression nid op l r ihl ihr =>
    intro st st1 h
    simp only [Expr.flatten] at h
    split at h
    · rename_i hm
      cases h
      exact ⟨[], FlattenStep.refl _, hm⟩
    · rename_i hn
      split at h
      · cases h
      · rename_i sa ha
        split at h
        · cases h
        · rename_i sb hb
          split at h
          · cases h
            obtain ⟨seg1, hs1, _⟩ := ihl st sa ha
            obtain ⟨seg2, hs2, _⟩ := ihr sa sb hb
            exact ⟨_, (hs1.trans hs2).then_emit _ _ rfl hn, isSome_lookup_emit _ _ _⟩
          · cases h
  | GlobalPtrExpression nid g =>
    intro st st1 h
    simp only [Expr.flatten] at h
    split at h
    · rename_i hm
      cases h
      exact ⟨[], FlattenStep.refl _, hm⟩
    · rename_i hm
      cases h
      exact ⟨_, (FlattenStep.refl st).then_emit _ _ rfl hm, isSome_lookup_emit _ _ _⟩
  | GlobalLoadExpression nid e ih =>
    intro st st1 h
    simp only [Expr.flatten] at h
    split at h
    · rename_i hm
      cases h
      exact ⟨[], FlattenStep.refl _, hm⟩
    · rename_i hn
      split at h
      · cases h
      · rename_i sa ha
        split at h
        · cases h
        · cases h
          obtain ⟨seg, hs, _⟩ := ih st sa ha
          exact ⟨_, hs.then_emit _ _ rfl hn, isSome_lookup_emit _ _ _⟩

/-- Flattening a node that has no recorded instruction ends with the instruction
of that node, which is the one recorded on it. -/
theorem flatten_last (scope : List VarMap) (e : Expr) (st st1 : FlattenState)
    (hn : st.has_stmt e.nid = false) (h : e.flatten scope st = some st1) :
    ∃ s, st1.flattened.getLast? = some s ∧ st1.stmt_of e = some s.addr := by
  cases e with
  | ConstExpression nid v =>
    have hn1 : st.has_stmt nid = false := hn
    simp only [Expr.flatten, hn1, Bool.false_eq_true, if_false] at h
    cases h
    exact ⟨_, List.getLast?_concat _, lookup_cons_self⟩
  | IdExpression nid id =>
    have hn1 : st.has_stmt nid = false := hn
    simp only [Expr.flatten, hn1, Bool.false_eq_true, if_false] at h
    split at h
    · cases h
    · cases h
      exact ⟨_, List.getLast?_concat _, lookup_cons_self⟩
  | UnaryOpExpression nid op e =>
    have hn1 : st.has_stmt nid = false := hn
    simp only [Expr.flatten, hn1, Bool.false_eq_true, if_false] at h
    split at h
    · cases h
    · split at h
      · cases h
      · cases h
        exact ⟨_, List.getLast?_concat _, lookup_cons_self⟩
  | BinaryOpExpression nid op l r =>
    have hn1 : st.has_stmt nid = false := hn
    simp only [Expr.flatten, hn1, Bool.false_eq_true, if_false] at h
    split at h
    · cases h
    · split at h
      · cases h
      · split at h
        · cases h
          exact ⟨_, List.getLast?_concat _, lookup_cons_self⟩
        · cases h
  | GlobalPtrExpression nid g =>
    have hn1 : st.has_stmt nid = false := hn
    simp only [Expr.flatten, hn1, Bool.false_eq_true, if_false] at h
    cases h
    exact ⟨_, List.getLast?_concat _, lookup_cons_self⟩
  | GlobalLoadExpression nid e =>
    have hn1 : st.has_stmt nid = false := hn
    simp only [Expr.flatten, hn1, Bool.false_eq_true, if_false] at h
    split at h
    · cases h
    · split at h
      · cases h
      · cases h
        exact ⟨_, List.getLast?_concat _, lookup_cons_self⟩

/-! ## Counting frontend statements -/

theorem frontend_count_list_append (a b : List Stmt) :
    frontend_count_list (a ++ b) = frontend_count_list a + frontend_count_list b := by
  induction a with
  | nil => simp [frontend_count_list]
  | cons s rest ih =>
    show s.frontend_count + frontend_count_list (rest ++ b) = _
    rw [ih, ← Nat.add_assoc]; rfl

theorem frontend_count_of_value (s : Stmt) (h : s.is_value = true) : s.frontend_count = 0 := by
  cases s <;> first | rfl | exact Bool.noConfusion h

theorem frontend_count_list_values (seg : List Stmt) (h : ∀ s ∈ seg, s.is_value = true) :
    frontend_count_list seg = 0 := by
  induction seg with
  | nil => rfl
  | cons s rest ih =>
    simp only [frontend_count_list]
    rw [frontend_count_of_value s (h s (List.mem_cons_self _ _)),
      ih (fun x hx => h x (List.mem_cons_of_mem _ hx))]

theorem frontend_count_set_mask_var (b : Block) (m : Addr) :
    (b.set_mask_var m).frontend_count = b.frontend_count := by
  cases b; rfl

theorem frontend_count_set_inner_loop_variable (b : Block) (m : Addr) :
    (b.set_inner_loop_variable m).frontend_count = b.frontend_count := by
  cases b; rfl

theorem frontend_count_set_statements (b : Block) (ss : List Stmt) :
    (b.set_statements ss).frontend_count = frontend_count_list ss := by
  cases b; rfl

theorem frontend_count_statements (b : Block) :
    frontend_count_list b.statements = b.frontend_count := by
  cases b; rfl

theorem frontend_count_move_body (body : Option Block) (m : Addr) :
    frontend_count_opt (move_body_with_mask body m) = frontend_count_opt body := by
  cases body with
  | none => rfl
  | some b => exact frontend_count_set_mask_var b m

/-- A flattening that starts from a buffer of lowered statements ends with one. -/
theorem flatten_count (scope : List VarMap) (e : Expr) (st st1 : FlattenState)
    (h : e.flatten scope st = some st1) :
    frontend_count_list st1.flattened = frontend_count_list st.flattened := by
  obtain ⟨seg, hs, _⟩ := flatten_step scope e st st1 h
  rw [hs.buffer, frontend_count_list_append, frontend_count_list_values seg hs.values,
    Nat.add_zero]

/-! ## What each rewriter returns -/

theorem visit_FrontendAllocaStmt_some (vars : VarMap) (next : Addr) (ident : Identifier)
    (dt : DataType) (r : Rewrite) (h : visit_FrontendAllocaStmt vars next ident dt = some r) :
    VarMap.find vars ident = none ∧
      r = { replacement := [.AllocaStmt next dt],
            local_var_alloca := VarMap.insert vars ident next, next := next + 1 } := by
  unfold visit_FrontendAllocaStmt at h
  split at h
  · cases h
  · rename_i hf
    cases h
    refine ⟨?_, rfl⟩
    cases hv : VarMap.find vars ident with
    | none => rfl
    | some x => rw [hv] at hf; exact absurd rfl hf

theorem visit_FrontendIfStmt_some (outer : List VarMap) (vars : VarMap) (next : Addr)
    (cond : Expr) (t f : Option Block) (r : Rewrite)
    (h : visit_FrontendIfStmt outer vars next cond t f = some r) :
    ∃ st c, cond.flatten (vars :: outer) { flattened := [], memo := [], next := next } = some st ∧
      st.stmt_of cond = some c ∧
      r = { replacement := st.flattened ++
              [ .AllocaStmt (st.next + 1) .i32,
                .AllocaStmt (st.next + 2) .i32,
                .LocalStoreStmt (st.next + 3) (st.next + 1) c,
                .UnaryOpStmt (st.next + 4) .bit_not c,
                .LocalStoreStmt (st.next + 5) (st.next + 2) (st.next + 4),
                .IfStmt st.next c (st.next + 1) (st.next + 2)
                  (move_body_with_mask t (st.next + 1))
                  (move_body_with_mask f (st.next + 2)) ],
            local_var_alloca := vars, next := st.next + 6 } := by
  unfold visit_FrontendIfStmt at h
  split at h
  · cases h
  · rename_i st hst
    split at h
    · cases h
    · rename_i c hc
      cases h
      exact ⟨st, c, hst, hc, rfl⟩

theorem visit_FrontendPrintStmt_some (outer : List VarMap) (vars : VarMap) (next : Addr)
    (e : Expr) (str : String) (r : Rewrite)
    (h : visit_FrontendPrintStmt outer vars next e str = some r) :
    ∃ st v, (load_if_ptr next e).1.flatten (vars :: outer)
        { flattened := [], memo := [], next := (load_if_ptr next e).2 } = some st ∧
      st.stmt_of (load_if_ptr next e).1 = some v ∧
      r = { replacement := st.flattened ++ [.PrintStmt st.next v str],
            local_var_alloca := vars, next := st.next + 1 } := by
  unfold visit_FrontendPrintStmt at h
  simp only at h
  split at h
  · cases h
  · rename_i st hst
    split at h
    · cases h
    · rename_i c hc
      cases h
      exact ⟨st, c, hst, hc, rfl⟩

theorem visit_FrontendWhileStmt_some (outer : List VarMap) (vars : VarMap) (next : Addr)
    (cond : Expr) (body : Block) (r : Rewrite)
    (h : visit_FrontendWhileStmt outer vars next cond body = some r) :
    ∃ st last, cond.flatten (vars :: outer) { flattened := [], memo := [], next := next } = some st ∧
      st.flattened.getLast? = some last ∧
      r = { replacement :=
              [ .AllocaStmt (st.next + 3) .i32,
                .AllocaStmt (st.next + 1) .i32,
                .ConstStmt (st.next + 4) (to_int32 0xFFFFFFFF),
                .LocalStoreStmt (st.next + 5) (st.next + 1) (st.next + 4),
                .WhileStmt st.next (st.next + 1)
                  ((body.set_statements
                    (st.flattened ++ [.WhileControlStmt (st.next + 2) (st.next + 1) last.addr] ++
                      body.statements)).set_mask_var (st.next + 1)) ],
            local_var_alloca := vars, next := st.next + 6 } := by
  unfold visit_FrontendWhileStmt at h
  split at h
  · cases h
  · rename_i st hst
    split at h
    · cases h
    · rename_i c hc
      cases h
      exact ⟨st, c, hst, hc, rfl⟩

theorem visit_FrontendForStmt_some (outer : List VarMap) (vars : VarMap) (next : Addr)
    (i : Identifier) (b e : Expr) (body : Block) (v p : Int) (r : Rewrite)
    (h : visit_FrontendForStmt outer vars next i b e body v p = some r) :
    ∃ st1 st2 lv bs es,
      b.flatten (VarMap.assign vars i next :: outer)
        { flattened := [.AllocaStmt next .i32], memo := [], next := next + 1 } = some st1 ∧
      e.flatten (VarMap.assign vars i next :: outer) st1 = some st2 ∧
      lookup_var (VarMap.assign vars i next :: outer) i = some lv ∧
      st2.stmt_of b = some bs ∧ st2.stmt_of e = some es ∧
      r = { replacement := st2.flattened ++
              [ .RangeForStmt st2.next lv bs es (body.set_inner_loop_variable lv) v p ],
            local_var_alloca := VarMap.assign vars i next, next := st2.next + 1 } := by
  unfold visit_FrontendForStmt at h
  simp only at h
  split at h
  · cases h
  · rename_i st1 hst1
    split at h
    · cases h
    · rename_i st2 hst2
      split at h
      · rename_i lv bs es hlv hb he
        cases h
        exact ⟨st1, st2, lv, bs, es, hst1, hst2, hlv, hb, he, rfl⟩
      · cases h

theorem visit_FrontendAssignStmt_id_some (outer : List VarMap) (vars : VarMap) (next : Addr)
    (nid : Addr) (id : Identifier) (rhs : Expr) (r : Rewrite)
    (h : visit_FrontendAssignStmt outer vars next (.IdExpression nid id) rhs = some r) :
    ∃ st slot v,
      rhs.flatten (vars :: outer) { flattened := [], memo := [], next := next } = some st ∧
      lookup_var (vars :: outer) id = some slot ∧ st.stmt_of rhs = some v ∧
      r = { replacement := st.flattened ++ [.LocalStoreStmt st.next slot v],
            local_var_alloca := vars, next := st.next + 1 } := by
  unfold visit_FrontendAssignStmt at h
  split at h
  · cases h
  · rename_i st hst
    simp only at h
    split at h
    · rename_i slot v hs hv
      cases h
      exact ⟨st, slot, v, hst, hs, hv, rfl⟩
    · cases h

theorem visit_FrontendAssignStmt_global_some (outer : List VarMap) (vars : VarMap) (next : Addr)
    (nid : Addr) (g : Nat) (rhs : Expr) (r : Rewrite)
    (h : visit_FrontendAssignStmt outer vars next (.GlobalPtrExpression nid g) rhs = some r) :
    ∃ st st2 last v,
      rhs.flatten (vars :: outer) { flattened := [], memo := [], next := next } = some st ∧
      (Expr.GlobalPtrExpression nid g).flatten (vars :: outer) st = some st2 ∧
      st2.flattened.getLast? = some last ∧ st2.stmt_of rhs = some v ∧
      r = { replacement := st2.flattened ++ [.GlobalStoreStmt st2.next last.addr v],
            local_var_alloca := vars, next := st2.next + 1 } := by
  unfold visit_FrontendAssignStmt at h
  split at h
  · cases h
  · rename_i st hst
    simp only at h
    split at h
    · cases h
    · rename_i st2 hst2
      split at h
      · rename_i last v hl hv
        cases h
        exact ⟨st, st2, last, v, hst, hst2, hl, hv, rfl⟩
      · cases h

theorem visit_FrontendAssignStmt_other (outer : List VarMap) (vars : VarMap) (next : Addr)
    (lhs rhs : Expr) (h1 : lhs.is_IdExpression = false) (h2 : lhs.is_GlobalPtrExpression = false) :
    visit_FrontendAssignStmt outer vars next lhs rhs = none := by
  unfold visit_FrontendAssignStmt
  split
  · rfl
  · cases lhs <;> first | rfl | exact Bool.noConfusion h1 | exact Bool.noConfusion h2

/-! ## The walker and the count of frontend statements -/

theorem WalkCount.of_rewrite (o : Option Rewrite) (n : Nat) (hn : 0 < n)
    (h : ∀ r, o = some r → frontend_count_list r.replacement + 1 = n) :
    WalkCount (fun r => frontend_count_list r.replacement) n (Walk.of_rewrite o) := by
  cases o with
  | none => exact hn
  | some r => exact h r rfl

theorem rewrite_count_alloca (vars : VarMap) (next : Addr) (ident : Identifier)
    (dt : DataType) (r : Rewrite) (h : visit_FrontendAllocaStmt vars next ident dt = some r) :
    frontend_count_list r.replacement + 1 = 1 := by
  obtain ⟨_, rfl⟩ := visit_FrontendAllocaStmt_some vars next ident dt r h
  rfl

theorem rewrite_count_if (outer : List VarMap) (vars : VarMap) (next : Addr)
    (cond : Expr) (t f : Option Block) (r : Rewrite)
    (h : visit_FrontendIfStmt outer vars next cond t f = some r) :
    frontend_count_list r.replacement + 1 = 1 + (frontend_count_opt t + frontend_count_opt f) := by
  obtain ⟨st, c, hst, _, rfl⟩ := visit_FrontendIfStmt_some outer vars next cond t f r h
  have h0 := flatten_count _ _ _ _ hst
  simp only [frontend_count_list_append, h0, frontend_count_list, Stmt.frontend_count,
    frontend_count_move_body]
  omega

theorem rewrite_count_print (outer : List VarMap) (vars : VarMap) (next : Addr)
    (e : Expr) (str : String) (r : Rewrite)
    (h : visit_FrontendPrintStmt outer vars next e str = some r) :
    frontend_count_list r.replacement + 1 = 1 := by
  obtain ⟨st, c, hst, _, rfl⟩ := visit_FrontendPrintStmt_some outer vars next e str r h
  have h0 := flatten_count _ _ _ _ hst
  simp only [frontend_count_list_append, h0, frontend_count_list, Stmt.frontend_count]

theorem rewrite_count_while (outer : List VarMap) (vars : VarMap) (next : Addr)
    (cond : Expr) (body : Block) (r : Rewrite)
    (h : visit_FrontendWhileStmt outer vars next cond body = some r) :
    frontend_count_list r.replacement + 1 = 1 + body.frontend_count := by
  obtain ⟨st, c, hst, _, rfl⟩ := visit_FrontendWhileStmt_some outer vars next cond body r h
  have h0 := flatten_count _ _ _ _ hst
  simp only [frontend_count_list_append, h0, frontend_count_list, Stmt.frontend_count,
    frontend_count_set_mask_var, frontend_count_set_statements, frontend_count_statements]
  omega

theorem rewrite_count_for (outer : List VarMap) (vars : VarMap) (next : Addr)
    (i : Identifier) (b e : Expr) (body : Block) (v p : Int) (r : Rewrite)
    (h : visit_FrontendForStmt outer vars next i b e body v p = some r) :
    frontend_count_list r.replacement + 1 = 1 + body.frontend_count := by
  obtain ⟨st1, st2, lv, bs, es, h1, h2, _, _, _, rfl⟩ :=
    visit_FrontendForStmt_some outer vars next i b e body v p r h
  have h0 := flatten_count _ _ _ _ h1
  have h3 := flatten_count _ _ _ _ h2
  simp only [frontend_count_list_append, h0, h3, frontend_count_list, Stmt.frontend_count,
    frontend_count_set_inner_loop_variable]
  omega

theorem rewrite_count_assign (outer : List VarMap) (vars : VarMap) (next : Addr)
    (lhs rhs : Expr) (r : Rewrite)
    (h : visit_FrontendAssignStmt outer vars next lhs rhs = some r) :
    frontend_count_list r.replacement + 1 = 1 := by
  cases lhs with
  | IdExpression nid id =>
    obtain ⟨st, slot, v, hst, _, _, rfl⟩ :=
      visit_FrontendAssignStmt_id_some outer vars next nid id rhs r h
    have h0 := flatten_count _ _ _ _ hst
    simp only [frontend_count_list_append, h0, frontend_count_list, Stmt.frontend_count]
  | GlobalPtrExpression nid g =>
    obtain ⟨st, st2, last, v, hst, hst2, _, _, rfl⟩ :=
      visit_FrontendAssignStmt_global_some outer vars next nid g rhs r h
    have h0 := flatten_count _ _ _ _ hst
    have h3 := flatten_count _ _ _ _ hst2
    simp only [frontend_count_list_append, h0, h3, frontend_count_list, Stmt.frontend_count]
  | _ =>
    unfold visit_FrontendAssignStmt at h
    split at h <;> cases h

mutual
theorem visit_Stmt_count (outer : List VarMap) (vars : VarMap) (next : Addr) (s : Stmt) :
    WalkCount (fun r => frontend_count_list r.replacement) s.frontend_count
      (visit_Stmt outer vars next s) := by
  cases s with
  | FrontendAllocaStmt a ident dt =>
    exact WalkCount.of_rewrite _ _ Nat.one_pos (rewrite_count_alloca vars next ident dt)
  | FrontendAssignStmt a lhs rhs =>
    exact WalkCount.of_rewrite _ _ Nat.one_pos (rewrite_count_assign outer vars next lhs rhs)
  | FrontendIfStmt a c t f =>
    exact WalkCount.of_rewrite _ _ (by simp [Stmt.frontend_count])
      (rewrite_count_if outer vars next c t f)
  | FrontendWhileStmt a c b =>
    exact WalkCount.of_rewrite _ _ (by simp [Stmt.frontend_count])
      (rewrite_count_while outer vars next c b)
  | FrontendForStmt a i b e body v p =>
    exact WalkCount.of_rewrite _ _ (by simp [Stmt.frontend_count])
      (rewrite_count_for outer vars next i b e body v p)
  | FrontendPrintStmt a e str =>
    exact WalkCount.of_rewrite _ _ Nat.one_pos (rewrite_count_print outer vars next e str)
  | IfStmt a c tm fm t f =>
    have ht := visit_body_count (vars :: outer) next t
    have hf := visit_body_count (vars :: outer) next f
    simp only [visit_Stmt, Stmt.frontend_count]
    revert ht hf
    cases visit_body (vars :: outer) next t with
    | modified r =>
      intro ht hf
      simp only [WalkCount, frontend_count_list, Stmt.frontend_count] at ht ⊢
      omega
    | failed =>
      intro ht hf
      simp only [WalkCount] at ht ⊢
      omega
    | completed =>
      intro ht
      cases visit_body (vars :: outer) next f with
      | modified r =>
        intro hf
        simp only [WalkCount, frontend_count_list, Stmt.frontend_count] at ht hf ⊢
        omega
      | failed =>
        intro hf
        simp only [WalkCount] at ht hf ⊢
        omega
      | completed =>
        intro hf
        simp only [WalkCount] at ht hf ⊢
        omega
  | WhileStmt a m b =>
    have hb := visit_Block_count (vars :: outer) next b
    simp only [visit_Stmt, Stmt.frontend_count]
    revert hb
    cases visit_Block (vars :: outer) next b with
    | modified r =>
      intro hb
      simp only [WalkCount, frontend_count_list, Stmt.frontend_count] at hb ⊢
      omega
    | failed => exact id
    | completed => exact id
  | RangeForStmt a lv b e body v p =>
    have hb := visit_Block_count (vars :: outer) next body
    simp only [visit_Stmt, Stmt.frontend_count]
    revert hb
    cases visit_Block (vars :: outer) next body with
    | modified r =>
      intro hb
      simp only [WalkCount, frontend_count_list, Stmt.frontend_count] at hb ⊢
      omega
    | failed => exact id
    | completed => exact id
  | ConstStmt _ _ => exact rfl
  | UnaryOpStmt _ _ _ => exact rfl
  | BinaryOpStmt _ _ _ _ => exact rfl
  | AllocaStmt _ _ => exact rfl
  | LocalLoadStmt _ _ => exact rfl
  | LocalStoreStmt _ _ _ => exact rfl
  | GlobalPtrStmt _ _ => exact rfl
  | GlobalLoadStmt _ _ => exact rfl
  | GlobalStoreStmt _ _ _ => exact rfl
  | WhileControlStmt _ _ _ => exact rfl
  | PrintStmt _ _ _ => exact rfl
theorem visit_body_count (outer : List VarMap) (next : Addr) (b : Option Block) :
    WalkCount (fun r => frontend_count_opt r.1) (frontend_count_opt b)
      (visit_body outer next b) := by
  cases b with
  | none => exact rfl
  | some b =>
    have hb := visit_Block_count outer next b
    simp only [visit_body, frontend_count_opt]
    revert hb
    cases visit_Block outer next b with
    | modified r => exact id
    | failed => exact id
    | completed => exact id
theorem visit_Block_count (outer : List VarMap) (next : Addr) (b : Block) :
    WalkCount (fun r => r.1.frontend_count) b.frontend_count (visit_Block outer next b) := by
  cases b with
  | mk ss vars m v =>
    have hs := visit_statements_count outer vars next ss
    simp only [visit_Block, Block.frontend_count]
    revert hs
    cases visit_statements outer vars next ss with
    | modified r => exact id
    | failed => exact id
    | completed => exact id
theorem visit_statements_count (outer : List VarMap) (vars : VarMap) (next : Addr)
    (ss : List Stmt) :
    WalkCount (fun r => frontend_count_list r.replacement) (frontend_count_list ss)
      (visit_statements outer vars next ss) := by
  cases ss with
  | nil => exact rfl
  | cons s rest =>
    have hs := visit_Stmt_count outer vars next s
    have hr := visit_statements_count outer vars next rest
    simp only [visit_statements, frontend_count_list]
    revert hs hr
    cases visit_Stmt outer vars next s with
    | modified r =>
      intro hs hr
      simp only [WalkCount, frontend_count_list_append] at hs ⊢
      omega
    | failed =>
      intro hs hr
      simp only [WalkCount] at hs ⊢
      omega
    | completed =>
      intro hs
      cases visit_statements outer vars next rest with
      | modified r =>
        intro hr
        simp only [WalkCount, frontend_count_list] at hs hr ⊢
        omega
      | failed =>
        intro hr
        simp only [WalkCount] at hs hr ⊢
        omega
      | completed =>
        intro hr
        simp only [WalkCount] at hs hr ⊢
        omega
end

/-! ## Traversal and normal form -/

theorem count_where_append (p : Stmt → Bool) (a b : List Stmt) :
    count_where p (a ++ b) = count_where p a + count_where p b := by
  simp [count_where]

theorem count_where_cons (p : Stmt → Bool) (s : Stmt) (l : List Stmt) :
    count_where p (s :: l) = (if p s then 1 else 0) + count_where p l := by
  unfold count_where
  by_cases h : p s = true
  · simp [List.filter, h, Nat.add_comm]
  · simp [List.filter, h]

mutual
theorem stmt_frontend_count_eq (s : Stmt) :
    s.frontend_count = count_where Stmt.is_frontend s.nodes := by
  cases s with
  | FrontendIfStmt a c t f =>
    simp only [Stmt.frontend_count, Stmt.nodes, count_where_cons, count_where_append,
      Stmt.is_frontend, if_true, frontend_count_opt_eq t, frontend_count_opt_eq f]
  | FrontendWhileStmt a c b =>
    simp only [Stmt.frontend_count, Stmt.nodes, count_where_cons, count_where_append,
      Stmt.is_frontend, if_true, block_frontend_count_eq b]
  | FrontendForStmt a i b e body v p =>
    simp only [Stmt.frontend_count, Stmt.nodes, count_where_cons, count_where_append,
      Stmt.is_frontend, if_true, block_frontend_count_eq body]
  | IfStmt a c tm fm t f =>
    simp only [Stmt.frontend_count, Stmt.nodes, count_where_cons, count_where_append,
      Stmt.is_frontend, Bool.false_eq_true, if_false, Nat.zero_add,
      frontend_count_opt_eq t, frontend_count_opt_eq f]
  | WhileStmt a m b =>
    simp only [Stmt.frontend_count, Stmt.nodes, count_where_cons, count_where_append,
      Stmt.is_frontend, Bool.false_eq_true, if_false, Nat.zero_add, block_frontend_count_eq b]
  | RangeForStmt a lv b e body v p =>
    simp only [Stmt.frontend_count, Stmt.nodes, count_where_cons, count_where_append,
      Stmt.is_frontend, Bool.false_eq_true, if_false, Nat.zero_add, block_frontend_count_eq body]
  | _ => rfl
theorem frontend_count_opt_eq (b : Option Block) :
    frontend_count_opt b = count_where Stmt.is_frontend (nodes_opt b) := by
  cases b with
  | none => rfl
  | some b => simp only [frontend_count_opt, nodes_opt, block_frontend_count_eq b]
theorem block_frontend_count_eq (b : Block) :
    b.frontend_count = count_where Stmt.is_frontend b.nodes := by
  cases b with
  | mk ss vars m v => simp only [Block.frontend_count, Block.nodes, frontend_count_list_eq ss]
theorem frontend_count_list_eq (ss : List Stmt) :
    frontend_count_list ss = count_where Stmt.is_frontend (nodes_list ss) := by
  cases ss with
  | nil => rfl
  | cons s rest =>
    simp only [frontend_count_list, nodes_list, count_where_append, stmt_frontend_count_eq s,
      frontend_count_list_eq rest]
end

theorem block_lowered_iff (b : Block) : b.lowered ↔ b.frontend_count = 0 := by
  rw [block_frontend_count_eq, count_where, List.length_eq_zero, List.filter_eq_nil_iff]
  unfold Block.lowered
  constructor
  · intro h s hs
    rw [h s hs]; exact Bool.false_ne_true
  · intro h s hs
    cases hv : s.is_frontend with
    | false => rfl
    | true => exact absurd hv (h s hs)

/-! ## The position of a rewrite in the parent block -/

theorem visit_Stmt_completed_of_count (outer : List VarMap) (vars : VarMap) (next : Addr)
    (s : Stmt) (h : s.frontend_count = 0) : visit_Stmt outer vars next s = .completed := by
  have hc := visit_Stmt_count outer vars next s
  revert hc
  cases visit_Stmt outer vars next s with
  | completed => intro _; rfl
  | modified r =>
    intro hc
    simp only [WalkCount] at hc
    omega
  | failed =>
    intro hc
    simp only [WalkCount] at hc
    omega

/-- When the statements before `s` hold no frontend statement, the walk reaches
`s`; a rewrite of `s` puts its replacement where `s` stood. -/
theorem visit_statements_at (outer : List VarMap) (vars : VarMap) (next : Addr)
    (pre : List Stmt) (s : Stmt) (post : List Stmt) (r : Rewrite)
    (hpre : frontend_count_list pre = 0) (h : visit_Stmt outer vars next s = .modified r) :
    visit_statements outer vars next (pre ++ s :: post) =
      .modified { replacement := pre ++ r.replacement ++ post,
                  local_var_alloca := r.local_var_alloca, next := r.next } := by
  induction pre with
  | nil =>
    simp only [List.nil_append, visit_statements, h]
  | cons x rest ih =>
    have hx : x.frontend_count = 0 := by
      simp only [frontend_count_list] at hpre
      omega
    have hrest : frontend_count_list rest = 0 := by
      simp only [frontend_count_list] at hpre
      omega
    show visit_statements outer vars next (x :: (rest ++ s :: post)) = _
    rw [visit_statements, visit_Stmt_completed_of_count outer vars next x hx, ih hrest]
    rfl

theorem visit_Block_at (outer : List VarMap) (vars : VarMap) (next : Addr)
    (pre : List Stmt) (s : Stmt) (post : List Stmt) (m v : Option Addr) (r : Rewrite)
    (hpre : frontend_count_list pre = 0) (h : visit_Stmt outer vars next s = .modified r) :
    visit_Block outer next (.mk (pre ++ s :: post) vars m v) =
      .modified (.mk (pre ++ r.replacement ++ post) r.local_var_alloca m v, r.next) := by
  simp only [visit_Block, visit_statements_at outer vars next pre s post r hpre h]

/-! ## Identifier maps -/

theorem find_assign_self (m : VarMap) (id : Identifier) (slot : Addr) :
    VarMap.find (VarMap.assign m id slot) id = some slot := by
  simp only [VarMap.find, VarMap.assign, List.lookup, beq_self_eq_true]

theorem lookup_var_assign_self (m : VarMap) (outer : List VarMap) (id : Identifier)
    (slot : Addr) : lookup_var (VarMap.assign m id slot :: outer) id = some slot := by
  simp only [lookup_var, find_assign_self]

theorem find_mem (m : VarMap) (id : Identifier) (slot : Addr)
    (h : VarMap.find m id = some slot) : (id, slot) ∈ m := by
  induction m with
  | nil => cases h
  | cons p rest ih =>
    obtain ⟨k, x⟩ := p
    simp only [VarMap.find, List.lookup] at h
    by_cases hk : (id == k) = true
    · simp only [hk] at h
      have hid : id = k := by simpa using hk
      cases h
      rw [hid]
      exact List.mem_cons_self _ _
    · have hk2 : (id == k) = false := by simpa using hk
      simp only [hk2] at h
      exact List.mem_cons_of_mem _ (ih h)

theorem lookup_var_mem (scope : List VarMap) (id : Identifier) (slot : Addr)
    (h : lookup_var scope id = some slot) : ∃ m ∈ scope, (id, slot) ∈ m := by
  induction scope with
  | nil => cases h
  | cons m rest ih =>
    simp only [lookup_var] at h
    split at h
    · rename_i s hs
      cases h
      exact ⟨m, List.mem_cons_self _ _, find_mem m id _ hs⟩
    · obtain ⟨m2, hm2, hp⟩ := ih h
      exact ⟨m2, List.mem_cons_of_mem _ hm2, hp⟩

/-- After a successful flattening the recorded instruction of an expression that
already had one is the same. -/
theorem stmt_of_kept {st st1 : FlattenState} {seg : List Stmt} (hs : FlattenStep st st1 seg)
    (e : Expr) (v : Addr) (h : st.stmt_of e = some v) : st1.stmt_of e = some v := by
  have hk : st.has_stmt e.nid = true := by
    unfold FlattenState.has_stmt
    unfold FlattenState.stmt_of at h
    rw [h]; rfl
  unfold FlattenState.stmt_of at h ⊢
  rw [hs.memo_kept e.nid hk, h]

theorem flatten_stmt_of (scope : List VarMap) (e : Expr) (st st1 : FlattenState)
    (h : e.flatten scope st = some st1) : ∃ v, st1.stmt_of e = some v := by
  obtain ⟨_, _, hv⟩ := flatten_step scope e st st1 h
  cases hq : st1.stmt_of e with
  | none => rw [hq] at hv; exact Bool.noConfusion hv
  | some v => exact ⟨v, rfl⟩

theorem not_has_stmt_init (next : Addr) (buf : List Stmt) (nid : Addr) :
    FlattenState.has_stmt { flattened := buf, memo := [], next := next } nid = false := rfl

/-! ## Addresses stay below the counter -/

theorem bounded_init (next : Addr) :
    FlattenState.bounded { flattened := [], memo := [], next := next } :=
  ⟨fun _ h => absurd h (List.not_mem_nil _), fun _ h => absurd h (List.not_mem_nil _)⟩

theorem bounded_emit (st : FlattenState) (nid : Addr) (s : Stmt) (hb : st.bounded)
    (ha : s.addr = st.next) (ho : ∀ o ∈ s.operands, o < st.next) :
    (st.emit nid s).bounded := by
  constructor
  · intro x hx
    rcases List.mem_append.mp hx with hx | hx
    · have h1 := hb.1 x hx
      exact ⟨Nat.lt_succ_of_lt h1.1, fun o hmem => Nat.lt_succ_of_lt (h1.2 o hmem)⟩
    · rw [List.mem_singleton] at hx
      rw [hx]
      refine ⟨?_, fun o hmem => Nat.lt_succ_of_lt (ho o hmem)⟩
      rw [ha]
      exact Nat.lt_succ_self _
  · intro q hq
    rcases List.mem_cons.mp hq with hq | hq
    · rw [hq]
      show s.addr < st.next + 1
      rw [ha]
      exact Nat.lt_succ_self _
    · exact Nat.lt_succ_of_lt (hb.2 q hq)

theorem stmt_of_lt (st : FlattenState) (e : Expr) (v : Addr) (hb : st.bounded)
    (h : st.stmt_of e = some v) : v < st.next :=
  hb.2 _ (find_mem st.memo e.nid v h)

theorem lookup_var_lt (scope : List VarMap) (bound : Addr) (id : Identifier) (slot : Addr)
    (hwf : ∀ m ∈ scope, ∀ q ∈ m, q.2 < bound) (h : lookup_var scope id = some slot) :
    slot < bound := by
  obtain ⟨m, hm, hq⟩ := lookup_var_mem scope id slot h
  exact hwf m hm _ hq

/-- Flattening in a scope whose slots exist already keeps every address below the
counter. -/
theorem flatten_bounded (scope : List VarMap) (bound : Addr)
    (hwf : ∀ m ∈ scope, ∀ q ∈ m, q.2 < bound) (e : Expr) :
    ∀ st st1, bound ≤ st.next → st.bounded → e.flatten scope st = some st1 → st1.bounded := by
  induction e with
  | ConstExpression nid v =>
    intro st st1 hle hb h
    simp only [Expr.flatten] at h
    split at h
    · cases h; exact hb
    · cases h
      exact bounded_emit st nid _ hb rfl (fun _ hmem => absurd hmem (List.not_mem_nil _))
  | IdExpression nid id =>
    intro st st1 hle hb h
    simp only [Expr.flatten] at h
    split at h
    · cases h; exact hb
    · split at h
      · cases h
      · rename_i slot hslot
        cases h
        refine bounded_emit st nid _ hb rfl ?_
        intro o hmem
        rw [show o = slot from List.mem_singleton.mp hmem]
        exact Nat.lt_of_lt_of_le (lookup_var_lt scope bound id slot hwf hslot) hle
  | UnaryOpExpression nid op e ih =>
    intro st st1 hle hb h
    simp only [Expr.flatten] at h
    split at h
    · cases h; exact hb
    · split at h
      · cases h
      · rename_i sa ha
        split at h
        · cases h
        · rename_i v hv
          cases h
          have hba := ih st sa hle hb ha
          refine bounded_emit sa nid _ hba rfl ?_
          intro o hmem
          rw [show o = v from List.mem_singleton.mp hmem]
          exact stmt_of_lt sa e v hba hv
  | BinaryOpExpression nid op l r ihl ihr =>
    intro st st1 hle hb h
    simp only [Expr.flatten] at h
    split at h
    · cases h; exact hb
    · split at h
      · cases h
      · rename_i sa ha
        split at h
        · cases h
        · rename_i sb hsb
          split at h
          · rename_i x y hx hy
            cases h
            have hba := ihl st sa hle hb ha
            obtain ⟨_, hsa, _⟩ := flatten_step scope l st sa ha
            have hbb := ihr sa sb (le_trans hle hsa.next_le) hba hsb
            refine bounded_emit sb nid _ hbb rfl ?_
            intro o hmem
            simp only [Stmt.operands, List.mem_cons, List.mem_singleton, List.not_mem_nil,
              or_false] at hmem
            rcases hmem with ho | ho
            · rw [ho]; exact stmt_of_lt sb l x hbb hx
            · rw [ho]; exact stmt_of_lt sb r y hbb hy
          · cases h
  | GlobalPtrExpression nid g =>
    intro st st1 hle hb h
    simp only [Expr.flatten] at h
    split at h
    · cases h; exact hb
    · cases h
      exact bounded_emit st nid _ hb rfl (fun _ hmem => absurd hmem (List.not_mem_nil _))
  | GlobalLoadExpression nid e ih =>
    intro st st1 hle hb h
    simp only [Expr.flatten] at h
    split at h
    · cases h; exact hb
    · split at h
      · cases h
      · rename_i sa ha
        split at h
        · cases h
        · rename_i v hv
          cases h
          have hba := ih st sa hle hb ha
          refine bounded_emit sa nid _ hba rfl ?_
          intro o hmem
          rw [show o = v from List.mem_singleton.mp hmem]
          exact stmt_of_lt sa e v hba hv

/-! ## Walks and positions -/

theorem unplug_cons_pre (x : Stmt) (ctx : Ctx) (s : Stmt) :
    (ctx.cons_pre x).unplug s = x :: ctx.unplug s := by
  cases ctx <;> rfl

theorem unplug_append_post (ctx : Ctx) (rest : List Stmt) (s : Stmt) :
    (ctx.append_post rest).unplug s = ctx.unplug s ++ rest := by
  cases ctx <;> simp [Ctx.append_post, Ctx.unplug]

theorem leftmost_cons_pre (x : Stmt) (ctx : Ctx) (hx : x.frontend_count = 0)
    (h : ctx.leftmost) : (ctx.cons_pre x).leftmost := by
  cases ctx with
  | here pre post =>
    show frontend_count_list (x :: pre) = 0
    have hp : frontend_count_list pre = 0 := h
    simp only [frontend_count_list, hx, hp]
  | under pre fr vars m v inner post =>
    obtain ⟨hp, hb, hi⟩ := h
    refine ⟨?_, hb, hi⟩
    simp only [frontend_count_list, hx, hp]

theorem leftmost_append_post (ctx : Ctx) (rest : List Stmt) (h : ctx.leftmost) :
    (ctx.append_post rest).leftmost := by
  cases ctx with
  | here pre post => exact h
  | under pre fr vars m v inner post => exact h

theorem is_frontend_count_pos (s : Stmt) (h : s.is_frontend = true) : 0 < s.frontend_count := by
  cases s <;> first | exact Bool.noConfusion h | simp [Stmt.frontend_count]

mutual
/-- A statement that holds a frontend statement holds one at a position that
comes first in the order of the walk. -/
theorem exists_leftmost_stmt (x : Stmt) (h : 0 < x.frontend_count) :
    ∃ ctx s, [x] = Ctx.unplug ctx s ∧ ctx.leftmost ∧ s.is_frontend = true := by
  cases x with
  | FrontendAllocaStmt a i d => exact ⟨.here [] [], _, rfl, rfl, rfl⟩
  | FrontendAssignStmt a l r => exact ⟨.here [] [], _, rfl, rfl, rfl⟩
  | FrontendIfStmt a c t f => exact ⟨.here [] [], _, rfl, rfl, rfl⟩
  | FrontendWhileStmt a c b => exact ⟨.here [] [], _, rfl, rfl, rfl⟩
  | FrontendForStmt a i b e body v p => exact ⟨.here [] [], _, rfl, rfl, rfl⟩
  | FrontendPrintStmt a e s => exact ⟨.here [] [], _, rfl, rfl, rfl⟩
  | IfStmt a c tm fm t f =>
    by_cases ht : 0 < frontend_count_opt t
    · obtain ⟨ss, vars, m, v, ctx, s, hb, hu, hl, hs⟩ := exists_leftmost_opt t ht
      refine ⟨.under [] (.if_true a c tm fm f) vars m v ctx [], s, ?_, ⟨rfl, rfl, hl⟩, hs⟩
      rw [hb, hu]
      rfl
    · have ht0 : frontend_count_opt t = 0 := by omega
      have hf : 0 < frontend_count_opt f := by
        simp only [Stmt.frontend_count] at h
        omega
      obtain ⟨ss, vars, m, v, ctx, s, hb, hu, hl, hs⟩ := exists_leftmost_opt f hf
      refine ⟨.under [] (.if_false a c tm fm t) vars m v ctx [], s, ?_, ⟨rfl, ht0, hl⟩, hs⟩
      rw [hb, hu]
      rfl
  | WhileStmt a mk b =>
    obtain ⟨ss, vars, m, v, ctx, s, hb, hu, hl, hs⟩ := exists_leftmost_block b h
    refine ⟨.under [] (.while_body a mk) vars m v ctx [], s, ?_, ⟨rfl, rfl, hl⟩, hs⟩
    rw [hb, hu]
    rfl
  | RangeForStmt a lv b e body vz p =>
    obtain ⟨ss, vars, m, v, ctx, s, hb, hu, hl, hs⟩ := exists_leftmost_block body h
    refine ⟨.under [] (.for_body a lv b e vz p) vars m v ctx [], s, ?_, ⟨rfl, rfl, hl⟩, hs⟩
    rw [hb, hu]
    rfl
  | ConstStmt _ _ => exact absurd h (Nat.lt_irrefl 0)
  | UnaryOpStmt _ _ _ => exact absurd h (Nat.lt_irrefl 0)
  | BinaryOpStmt _ _ _ _ => exact absurd h (Nat.lt_irrefl 0)
  | AllocaStmt _ _ => exact absurd h (Nat.lt_irrefl 0)
  | LocalLoadStmt _ _ => exact absurd h (Nat.lt_irrefl 0)
  | LocalStoreStmt _ _ _ => exact absurd h (Nat.lt_irrefl 0)
  | GlobalPtrStmt _ _ => exact absurd h (Nat.lt_irrefl 0)
  | GlobalLoadStmt _ _ => exact absurd h (Nat.lt_irrefl 0)
  | GlobalStoreStmt _ _ _ => exact absurd h (Nat.lt_irrefl 0)
  | WhileControlStmt _ _ _ => exact absurd h (Nat.lt_irrefl 0)
  | PrintStmt _ _ _ => exact absurd h (Nat.lt_irrefl 0)
theorem exists_leftmost_opt (b : Option Block) (h : 0 < frontend_count_opt b) :
    ∃ ss vars m v ctx s, b = some (.mk ss vars m v) ∧ ss = Ctx.unplug ctx s ∧ ctx.leftmost ∧
      s.is_frontend = true := by
  cases b with
  | none => exact absurd h (Nat.lt_irrefl 0)
  | some b =>
    obtain ⟨ss, vars, m, v, ctx, s, hb, hu, hl, hs⟩ := exists_leftmost_block b h
    exact ⟨ss, vars, m, v, ctx, s, by rw [hb], hu, hl, hs⟩
theorem exists_leftmost_block (b : Block) (h : 0 < b.frontend_count) :
    ∃ ss vars m v ctx s, b = .mk ss vars m v ∧ ss = Ctx.unplug ctx s ∧ ctx.leftmost ∧
      s.is_frontend = true := by
  cases b with
  | mk ss vars m v =>
    obtain ⟨ctx, s, hss, hl, hs⟩ := exists_leftmost_list ss h
    exact ⟨ss, vars, m, v, ctx, s, rfl, hss, hl, hs⟩
theorem exists_leftmost_list (ss : List Stmt) (h : 0 < frontend_count_list ss) :
    ∃ ctx s, ss = Ctx.unplug ctx s ∧ ctx.leftmost ∧ s.is_frontend = true := by
  cases ss with
  | nil => exact absurd h (Nat.lt_irrefl 0)
  | cons x rest =>
    by_cases hx : 0 < x.frontend_count
    · obtain ⟨ctx, s, hu, hl, hs⟩ := exists_leftmost_stmt x hx
      refine ⟨ctx.append_post rest, s, ?_, leftmost_append_post ctx rest hl, hs⟩
      rw [unplug_append_post, ← hu]
      rfl
    · have hx0 : x.frontend_count = 0 := by omega
      have hr : 0 < frontend_count_list rest := by
        simp only [frontend_count_list] at h
        omega
      obtain ⟨ctx, s, hu, hl, hs⟩ := exists_leftmost_list rest hr
      refine ⟨ctx.cons_pre x, s, ?_, leftmost_cons_pre x ctx hx0 hl, hs⟩
      rw [unplug_cons_pre, ← hu]
end

theorem visit_body_completed_of_count (outer : List VarMap) (next : Addr) (b : Option Block)
    (h : frontend_count_opt b = 0) : visit_body outer next b = .completed := by
  have hc := visit_body_count outer next b
  revert hc
  cases visit_body outer next b with
  | completed => intro _; rfl
  | modified r =>
    intro hc
    simp only [WalkCount] at hc
    omega
  | failed =>
    intro hc
    simp only [WalkCount] at hc
    omega

theorem visit_statements_at_failed (outer : List VarMap) (vars : VarMap) (next : Addr)
    (pre : List Stmt) (s : Stmt) (post : List Stmt)
    (hpre : frontend_count_list pre = 0) (h : visit_Stmt outer vars next s = .failed) :
    visit_statements outer vars next (pre ++ s :: post) = .failed := by
  induction pre with
  | nil =>
    simp only [List.nil_append, visit_statements, h]
  | cons x rest ih =>
    have hx : x.frontend_count = 0 := by
      simp only [frontend_count_list] at hpre
      omega
    have hrest : frontend_count_list rest = 0 := by
      simp only [frontend_count_list] at hpre
      omega
    show visit_statements outer vars next (x :: (rest ++ s :: post)) = _
    rw [visit_statements, visit_Stmt_completed_of_count outer vars next x hx, ih hrest]

theorem visit_frame_modified (outer : List VarMap) (vars : VarMap) (next : Addr) (fr : Frame)
    (B B1 : Block) (n1 : Addr) (hb : fr.before_count = 0)
    (h : visit_Block (vars :: outer) next B = .modified (B1, n1)) :
    visit_Stmt outer vars next (fr.fill B) =
      .modified { replacement := [fr.fill B1], local_var_alloca := vars, next := n1 } := by
  cases fr with
  | if_true a c tm fm f =>
    simp only [Frame.fill, visit_Stmt, visit_body, h]
  | if_false a c tm fm t =>
    have ht : visit_body (vars :: outer) next t = .completed :=
      visit_body_completed_of_count _ _ t hb
    simp only [Frame.fill, visit_Stmt, ht, visit_body, h]
  | while_body a m =>
    simp only [Frame.fill, visit_Stmt, h]
  | for_body a lv b e v p =>
    simp only [Frame.fill, visit_Stmt, h]

theorem visit_frame_failed (outer : List VarMap) (vars : VarMap) (next : Addr) (fr : Frame)
    (B : Block) (hb : fr.before_count = 0)
    (h : visit_Block (vars :: outer) next B = .failed) :
    visit_Stmt outer vars next (fr.fill B) = .failed := by
  cases fr with
  | if_true a c tm fm f =>
    simp only [Frame.fill, visit_Stmt, visit_body, h]
  | if_false a c tm fm t =>
    have ht : visit_body (vars :: outer) next t = .completed :=
      visit_body_completed_of_count _ _ t hb
    simp only [Frame.fill, visit_Stmt, ht, visit_body, h]
  | while_body a m =>
    simp only [Frame.fill, visit_Stmt, h]
  | for_body a lv b e v p =>
    simp only [Frame.fill, visit_Stmt, h]

/-- A walk over a list reaches the position that comes first; when the visit of
the statement there rewrites, the walk returns the list with the replacement at
that position and the new map on the block of the position. -/
theorem walk_at_modified (ctx : Ctx) :
    ∀ (outer : List VarMap) (vars : VarMap) (next : Addr) (s : Stmt) (r0 : Rewrite),
      ctx.leftmost →
      visit_Stmt (ctx.hole_outer vars outer) (ctx.hole_vars vars) next s = .modified r0 →
      visit_statements outer vars next (ctx.unplug s) =
        .modified { replacement := ctx.plug r0.replacement r0.local_var_alloca,
                    local_var_alloca := ctx.plug_vars vars r0.local_var_alloca,
                    next := r0.next } := by
  induction ctx with
  | here pre post =>
    intro outer vars next s r0 hl h
    exact visit_statements_at outer vars next pre s post r0 hl h
  | under pre fr ivars m v inner post ih =>
    intro outer vars next s r0 hl h
    obtain ⟨hp, hb, hi⟩ := hl
    have hin := ih (vars :: outer) ivars next s r0 hi h
    have hblock : visit_Block (vars :: outer) next (.mk (inner.unplug s) ivars m v) =
        .modified (.mk (inner.plug r0.replacement r0.local_var_alloca)
          (inner.plug_vars ivars r0.local_var_alloca) m v, r0.next) := by
      simp only [visit_Block, hin]
    have hst := visit_frame_modified outer vars next fr _ _ _ hb hblock
    have hat := visit_statements_at outer vars next pre _ post _ hp hst
    rw [Ctx.unplug, hat]
    simp only [Ctx.plug, Ctx.plug_vars, List.append_assoc, List.singleton_append]

/-- When the visit of the statement at the position that comes first fails, the
walk over the list fails. -/
theorem walk_at_failed (ctx : Ctx) :
    ∀ (outer : List VarMap) (vars : VarMap) (next : Addr) (s : Stmt),
      ctx.leftmost →
      visit_Stmt (ctx.hole_outer vars outer) (ctx.hole_vars vars) next s = .failed →
      visit_statements outer vars next (ctx.unplug s) = .failed := by
  induction ctx with
  | here pre post =>
    intro outer vars next s hl h
    exact visit_statements_at_failed outer vars next pre s post hl h
  | under pre fr ivars m v inner post ih =>
    intro outer vars next s hl h
    obtain ⟨hp, hb, hi⟩ := hl
    have hin := ih (vars :: outer) ivars next s hi h
    have hblock : visit_Block (vars :: outer) next (.mk (inner.unplug s) ivars m v) =
        .failed := by
      simp only [visit_Block, hin]
    have hst := visit_frame_failed outer vars next fr _ hb hblock
    rw [Ctx.unplug]
    exact visit_statements_at_failed outer vars next pre _ post hp hst

theorem visit_frontend_not_completed (outer : List VarMap) (vars : VarMap) (next : Addr)
    (s : Stmt) (hs : s.is_frontend = true) : visit_Stmt outer vars next s ≠ .completed := by
  intro hc
  have h := visit_Stmt_count outer vars next s
  rw [hc] at h
  have hpos := is_frontend_count_pos s hs
  simp only [WalkCount] at h
  omega

/-- Every walk that rewrites is the rewrite of the frontend statement at the
position that comes first, plugged into that position. -/
theorem walk_modified_position (outer : List VarMap) (next : Addr) (ss : List Stmt)
    (vars : VarMap) (m v : Option Addr) (b1 : Block) (n1 : Addr)
    (h : visit_Block outer next (.mk ss vars m v) = .modified (b1, n1)) :
    ∃ ctx s r0, ss = Ctx.unplug ctx s ∧ ctx.leftmost ∧ s.is_frontend = true ∧
      visit_Stmt (ctx.hole_outer vars outer) (ctx.hole_vars vars) next s = .modified r0 ∧
      b1 = .mk (ctx.plug r0.replacement r0.local_var_alloca)
        (ctx.plug_vars vars r0.local_var_alloca) m v ∧
      n1 = r0.next := by
  have hpos : 0 < frontend_count_list ss := by
    have hc := visit_Block_count outer next (.mk ss vars m v)
    rw [h] at hc
    simp only [WalkCount, Block.frontend_count] at hc
    omega
  obtain ⟨ctx, s, hu, hl, hs⟩ := exists_leftmost_list ss hpos
  have hnc := visit_frontend_not_completed (ctx.hole_outer vars outer) (ctx.hole_vars vars)
    next s hs
  cases hv : visit_Stmt (ctx.hole_outer vars outer) (ctx.hole_vars vars) next s with
  | completed => exact absurd hv hnc
  | failed =>
    have hw := walk_at_failed ctx outer vars next s hl hv
    rw [← hu] at hw
    simp only [visit_Block, hw] at h
    cases h
  | modified r0 =>
    have hw := walk_at_modified ctx outer vars next s r0 hl hv
    rw [← hu] at hw
    simp only [visit_Block, hw] at h
    cases h
    exact ⟨ctx, s, r0, hu, hl, hs, hv, rfl, rfl⟩

theorem nodes_list_append (a b : List Stmt) :
    nodes_list (a ++ b) = nodes_list a ++ nodes_list b := by
  induction a with
  | nil => rfl
  | cons x rest ih =>
    show x.nodes ++ nodes_list (rest ++ b) = (x.nodes ++ nodes_list rest) ++ nodes_list b
    rw [ih, List.append_assoc]

theorem nodes_list_cons (x : Stmt) (l : List Stmt) :
    nodes_list (x :: l) = x.nodes ++ nodes_list l := by
  rw [nodes_list]

theorem frame_nodes (fr : Frame) (B : Block) :
    (fr.fill B).nodes = fr.fill B :: (fr.nodes_before ++ B.nodes ++ fr.nodes_after) := by
  cases fr with
  | if_true a c tm fm f =>
    simp only [Frame.fill, Stmt.nodes, nodes_opt, Frame.nodes_before, Frame.nodes_after,
      List.nil_append]
  | if_false a c tm fm t =>
    simp only [Frame.fill, Stmt.nodes, nodes_opt, Frame.nodes_before, Frame.nodes_after,
      List.append_nil]
  | while_body a m =>
    simp only [Frame.fill, Stmt.nodes, Frame.nodes_before, Frame.nodes_after,
      List.nil_append, List.append_nil]
  | for_body a lv b e v p =>
    simp only [Frame.fill, Stmt.nodes, Frame.nodes_before, Frame.nodes_after,
      List.nil_append, List.append_nil]

theorem frame_fill_not_frontend (fr : Frame) (B : Block) : (fr.fill B).is_frontend = false := by
  cases fr <;> rfl

theorem frame_fill_addr (fr : Frame) (B B1 : Block) : (fr.fill B).addr = (fr.fill B1).addr := by
  cases fr <;> rfl

theorem lowered_of_count_list (l : List Stmt) (h : frontend_count_list l = 0) :
    ∀ y ∈ nodes_list l, y.is_frontend = false := by
  rw [frontend_count_list_eq, count_where, List.length_eq_zero, List.filter_eq_nil_iff] at h
  intro y hy
  cases hv : y.is_frontend with
  | false => rfl
  | true => exact absurd hv (h y hy)

theorem lowered_of_count_opt (b : Option Block) (h : frontend_count_opt b = 0) :
    ∀ y ∈ nodes_opt b, y.is_frontend = false := by
  rw [frontend_count_opt_eq, count_where, List.length_eq_zero, List.filter_eq_nil_iff] at h
  intro y hy
  cases hv : y.is_frontend with
  | false => rfl
  | true => exact absurd hv (h y hy)

theorem frame_before_lowered (fr : Frame) (h : fr.before_count = 0) :
    ∀ y ∈ fr.nodes_before, y.is_frontend = false := by
  cases fr with
  | if_false a c tm fm t => exact lowered_of_count_opt t h
  | if_true a c tm fm f => intro y hy; exact absurd hy (List.not_mem_nil _)
  | while_body a m => intro y hy; exact absurd hy (List.not_mem_nil _)
  | for_body a lv b e v p => intro y hy; exact absurd hy (List.not_mem_nil _)

/-- The traversal of a list around a position that comes first: lowered
statements `P`, then what stands at the position, then `R`; with other content
at the position, `R` is the same and `P` keeps its statements (the same
addresses, all lowered). -/
theorem plug_nodes (ctx : Ctx) (hl : ctx.leftmost) (s : Stmt) :
    ∃ P R, nodes_list (ctx.unplug s) = P ++ s.nodes ++ R ∧
      (∀ y ∈ P, y.is_frontend = false) ∧
      ∀ content nv, ∃ P1, nodes_list (ctx.plug content nv) = P1 ++ nodes_list content ++ R ∧
        P1.map Stmt.addr = P.map Stmt.addr ∧ (∀ y ∈ P1, y.is_frontend = false) := by
  induction ctx with
  | here pre post =>
    have hp : ∀ y ∈ nodes_list pre, y.is_frontend = false := lowered_of_count_list pre hl
    refine ⟨nodes_list pre, nodes_list post, ?_, hp, ?_⟩
    · simp only [Ctx.unplug, nodes_list_append, nodes_list_cons, List.append_assoc]
    · intro content nv
      refine ⟨nodes_list pre, ?_, rfl, hp⟩
      simp only [Ctx.plug, nodes_list_append, List.append_assoc]
  | under pre fr ivars m v inner post ih =>
    obtain ⟨hpre, hb, hi⟩ := hl
    obtain ⟨Pi, Ri, hu, hPi, hplug⟩ := ih hi
    have hp : ∀ y ∈ nodes_list pre, y.is_frontend = false := lowered_of_count_list pre hpre
    have hbefore := frame_before_lowered fr hb
    refine ⟨nodes_list pre ++ fr.fill (.mk (inner.unplug s) ivars m v) :: (fr.nodes_before ++ Pi),
      Ri ++ fr.nodes_after ++ nodes_list post, ?_, ?_, ?_⟩
    · simp only [Ctx.unplug, nodes_list_append, nodes_list_cons, frame_nodes, Block.nodes, hu,
        List.append_assoc, List.cons_append]
    · intro y hy
      rcases List.mem_append.mp hy with hy | hy
      · exact hp y hy
      · rcases List.mem_cons.mp hy with hy | hy
        · rw [hy]; exact frame_fill_not_frontend _ _
        · rcases List.mem_append.mp hy with hy | hy
          · exact hbefore y hy
          · exact hPi y hy
    · intro content nv
      obtain ⟨P1, hn, ha, hlow⟩ := hplug content nv
      refine ⟨nodes_list pre ++
        fr.fill (.mk (inner.plug content nv) (inner.plug_vars ivars nv) m v) ::
          (fr.nodes_before ++ P1), ?_, ?_, ?_⟩
      · simp only [Ctx.plug, nodes_list_append, nodes_list_cons, frame_nodes, Block.nodes, hn,
          List.append_assoc, List.cons_append]
      · simp only [List.map_append, List.map_cons, ha]
        rw [frame_fill_addr fr _ (.mk (inner.unplug s) ivars m v)]
      · intro y hy
        rcases List.mem_append.mp hy with hy | hy
        · exact hp y hy
        · rcases List.mem_cons.mp hy with hy | hy
          · rw [hy]; exact frame_fill_not_frontend _ _
          · rcases List.mem_append.mp hy with hy | hy
            · exact hbefore y hy
            · exact hlow y hy

/-! ## Which nodes get a recorded instruction -/

theorem run_returned_count (fuel : Nat) :
    ∀ (root : Block) (next : Addr) (root1 : Block) (next1 : Addr),
      run fuel root next = .returned root1 next1 → root1.frontend_count = 0 := by
  induction fuel with
  | zero =>
    intro root next root1 next1 h
    cases h
  | succ n ih =>
    intro root next root1 next1 h
    have hc := visit_Block_count [] next root
    unfold run at h
    revert hc h
    cases visit_Block [] next root with
    | completed =>
      intro hc h
      cases h
      exact hc
    | modified r =>
      intro _ h
      exact ih _ _ _ _ h
    | failed =>
      intro _ h
      cases h

theorem visit_Block_completed_of_count (outer : List VarMap) (next : Addr) (b : Block)
    (h : b.frontend_count = 0) : visit_Block outer next b = .completed := by
  have hc := visit_Block_count outer next b
  revert hc
  cases visit_Block outer next b with
  | completed => intro _; rfl
  | modified r =>
    intro hc
    simp only [WalkCount] at hc
    omega
  | failed =>
    intro hc
    simp only [WalkCount] at hc
    omega

theorem run_of_count_zero (fuel : Nat) (root : Block) (next : Addr)
    (h : root.frontend_count = 0) : run (fuel + 1) root next = .returned root next := by
  unfold run
  rw [visit_Block_completed_of_count [] next root h]

theorem run_terminates (fuel : Nat) :
    ∀ (root : Block) (next : Addr), root.frontend_count < fuel →
      run fuel root next ≠ .out_of_fuel := by
  induction fuel with
  | zero =>
    intro root next h
    exact absurd h (Nat.not_lt_zero _)
  | succ n ih =>
    intro root next h
    have hc := visit_Block_count [] next root
    unfold run
    revert hc
    cases visit_Block [] next root with
    | completed =>
      intro _ hcontra
      cases hcontra
    | modified r =>
      intro hc
      simp only [WalkCount] at hc
      exact ih _ _ (by omega)
    | failed =>
      intro _ hcontra
      cases hcontra

/-- C1 (normal form): whenever `lower` returns, a full traversal of the returned
tree, the bodies of lowered conditional, masked-loop and range-for instructions
included, finds no frontend-only statement. -/
theorem C1_normal_form (fuel : Nat) (root : Block) (next : Addr) (root1 : Block)
    (next1 : Addr) (h : lower fuel root next = .returned root1 next1) :
    ∀ s ∈ root1.nodes, s.is_frontend = false :=
  (block_lowered_iff root1).mpr (run_returned_count fuel root next root1 next1 h)

/-- Witness of C1: the tree `var x; while (x < 10) { print x }` is lowered in
three rewrites, and the result holds no frontend statement. -/
theorem C1_normal_form_witness :
    lower 4 example_while_tree 7 = .returned example_while_lowered 19 ∧
      ∀ s ∈ example_while_lowered.nodes, s.is_frontend = false :=
  have h : lower 4 example_while_tree 7 = .returned example_while_lowered 19 := by
    simp [lower, run, example_while_tree, example_while_lowered, visit_Block, visit_statements,
      visit_Stmt, visit_body, visit_FrontendAllocaStmt, visit_FrontendWhileStmt,
      visit_FrontendPrintStmt, load_if_ptr, Expr.is_GlobalPtrStmt, Expr.flatten,
      FlattenState.emit, FlattenState.stmt_of, FlattenState.has_stmt, Walk.of_rewrite,
      Stmt.addr, Expr.nid, lookup_var, VarMap.find, VarMap.insert, Block.set_statements,
      Block.set_mask_var, Block.statements, List.lookup, to_int32]
  ⟨h, C1_normal_form 4 example_while_tree 7 example_while_lowered 19 h⟩

/-- C2 (idempotence): on a tree without frontend-only statements one walk
completes without a rewrite and `lower` returns the very same tree (statement
lists, identifier maps and mask references) and address counter; hence a tree
returned by `lower` is returned unchanged when lowered again. -/
theorem C2_idempotence (T : Block) (next : Addr) :
    (T.lowered →
      visit_Block [] next T = .completed ∧ ∀ fuel, lower (fuel + 1) T next = .returned T next) ∧
    (∀ fuel T1 next1, lower fuel T next = .returned T1 next1 →
      ∀ fuel2, lower (fuel2 + 1) T1 next1 = .returned T1 next1) := by
  constructor
  · intro h
    have h0 := (block_lowered_iff T).mp h
    exact ⟨visit_Block_completed_of_count [] next T h0, fun fuel => run_of_count_zero fuel T next h0⟩
  · intro fuel T1 next1 h fuel2
    exact run_of_count_zero fuel2 T1 next1 (run_returned_count fuel T next T1 next1 h)

/-- Witness of C2: one walk over the lowered while tree completes and `lower`
returns that tree unchanged, also when it is reached as the result of `lower`. -/
theorem C2_idempotence_witness :
    (visit_Block [] 19 example_while_lowered = .completed ∧
      ∀ fuel, lower (fuel + 1) example_while_lowered 19 = .returned example_while_lowered 19) ∧
    lower 1 example_while_lowered 19 = .returned example_while_lowered 19 :=
  have h : lower 4 example_while_tree 7 = .returned example_while_lowered 19 := by
    simp [lower, run, example_while_tree, example_while_lowered, visit_Block, visit_statements,
      visit_Stmt, visit_body, visit_FrontendAllocaStmt, visit_FrontendWhileStmt,
      visit_FrontendPrintStmt, load_if_ptr, Expr.is_GlobalPtrStmt, Expr.flatten,
      FlattenState.emit, FlattenState.stmt_of, FlattenState.has_stmt, Walk.of_rewrite,
      Stmt.addr, Expr.nid, lookup_var, VarMap.find, VarMap.insert, Block.set_statements,
      Block.set_mask_var, Block.statements, List.lookup, to_int32]
  ⟨(C2_idempotence example_while_lowered 19).1 (by
      simp [Block.lowered, Block.nodes, nodes_list, Stmt.nodes, example_while_lowered,
        Stmt.is_frontend]),
   (C2_idempotence example_while_tree 7).2 4 example_while_lowered 19 h 0⟩

/-- C3 (termination measure): one walk that rewrites leaves exactly one frontend
statement fewer in the whole tree, and the driver, given more walks than the tree
has frontend statements, does not use them up: it returns or fails. -/
theorem C3_termination_measure (root : Block) (next : Addr) :
    (∀ root1 next1, visit_Block [] next root = .modified (root1, next1) →
      root1.frontend_count + 1 = root.frontend_count) ∧
    (∀ fuel, root.frontend_count < fuel → lower fuel root next ≠ .out_of_fuel) := by
  constructor
  · intro root1 next1 h
    have hc := visit_Block_count [] next root
    rw [h] at hc
    exact hc
  · intro fuel h
    exact run_terminates fuel root next h

/-- Witness of C3: the first walk over the while tree rewrites the declaration
and leaves two of the three frontend statements. -/
theorem C3_termination_measure_witness :
    (Block.mk [ .AllocaStmt 7 .i32,
        .FrontendWhileStmt 1
          (.BinaryOpExpression 2 .cmp_lt (.IdExpression 3 1) (.ConstExpression 4 10))
          (.mk [.FrontendPrintStmt 5 (.IdExpression 6 1) "x"] [] none none) ]
      [(1, 7)] none none).frontend_count + 1 = example_while_tree.frontend_count ∧
    lower 4 example_while_tree 7 ≠ .out_of_fuel :=
  ⟨(C3_termination_measure example_while_tree 7).1 _ 8 (by
      simp [example_while_tree, visit_Block, visit_statements, visit_Stmt,
        visit_FrontendAllocaStmt, Walk.of_rewrite, VarMap.find, VarMap.insert, List.lookup]),
   (C3_termination_measure example_while_tree 7).2 4 (by decide)⟩

/-- C4 (if rewriter): when the statements before a frontend if hold no frontend
statement and flattening its condition `e` succeeds with buffer `st.flattened`
and value `c`, the walk replaces the if, at its position in the parent block, by
`st.flattened`, an i32 slot (true mask), an i32 slot (false mask), a local store
of `c` into the first, a `bit_not` of `c`, a local store of that into the second,
and one conditional carrying the two slots; a body that is present is moved with
its statements, identifier map and induction marker unchanged and its `mask_var`
set to the matching slot, an absent body stays absent. -/
theorem C4_if_rewriter (outer : List VarMap) (vars : VarMap) (next a : Addr) (e : Expr)
    (t f : Option Block) (pre post : List Stmt) (m v : Option Addr) (st : FlattenState)
    (hpre : frontend_count_list pre = 0)
    (hst : e.flatten (vars :: outer) { flattened := [], memo := [], next := next } = some st) :
    ∃ c, st.stmt_of e = some c ∧
      visit_Block outer next (.mk (pre ++ .FrontendIfStmt a e t f :: post) vars m v) =
        .modified
          (.mk (pre ++
              (st.flattened ++
                [ .AllocaStmt (st.next + 1) .i32,
                  .AllocaStmt (st.next + 2) .i32,
                  .LocalStoreStmt (st.next + 3) (st.next + 1) c,
                  .UnaryOpStmt (st.next + 4) .bit_not c,
                  .LocalStoreStmt (st.next + 5) (st.next + 2) (st.next + 4),
                  .IfStmt st.next c (st.next + 1) (st.next + 2)
                    (t.map fun b =>
                      .mk b.statements b.local_var_alloca (some (st.next + 1))
                        b.inner_loop_variable)
                    (f.map fun b =>
                      .mk b.statements b.local_var_alloca (some (st.next + 2))
                        b.inner_loop_variable) ]) ++
              post) vars m v,
           st.next + 6) := by
  obtain ⟨c, hc⟩ := flatten_stmt_of _ _ _ _ hst
  refine ⟨c, hc, ?_⟩
  have hmove : ∀ (body : Option Block) (k : Addr),
      move_body_with_mask body k =
        body.map fun b => .mk b.statements b.local_var_alloca (some k) b.inner_loop_variable := by
    intro body k
    cases body with
    | none => rfl
    | some b => cases b; rfl
  have hv : visit_Stmt outer vars next (.FrontendIfStmt a e t f) =
      .modified
        { replacement := st.flattened ++
            [ .AllocaStmt (st.next + 1) .i32,
              .AllocaStmt (st.next + 2) .i32,
              .LocalStoreStmt (st.next + 3) (st.next + 1) c,
              .UnaryOpStmt (st.next + 4) .bit_not c,
              .LocalStoreStmt (st.next + 5) (st.next + 2) (st.next + 4),
              .IfStmt st.next c (st.next + 1) (st.next + 2)
                (t.map fun b =>
                  .mk b.statements b.local_var_alloca (some (st.next + 1))
                    b.inner_loop_variable)
                (f.map fun b =>
                  .mk b.statements b.local_var_alloca (some (st.next + 2))
                    b.inner_loop_variable) ],
          local_var_alloca := vars, next := st.next + 6 } := by
    simp only [visit_Stmt, visit_FrontendIfStmt, hst, hc, Walk.of_rewrite, hmove]
  exact visit_Block_at outer vars next pre _ post m v _ hpre hv

/-- Witness of C4: `if (x > 0) { y = 1 }` with no else body, after the slot of
`x`, in a block whose map sends `x` to that slot. -/
theorem C4_if_rewriter_witness :
    ∃ c, example_cond_flattened.stmt_of example_cond = some c ∧
      visit_Block [] 10
          (.mk ([.AllocaStmt 0 .i32] ++
            .FrontendIfStmt 1 example_cond (some example_body) none :: []) [(1, 0)] none none) =
        .modified
          (.mk ([.AllocaStmt 0 .i32] ++
              (example_cond_flattened.flattened ++
                [ .AllocaStmt (example_cond_flattened.next + 1) .i32,
                  .AllocaStmt (example_cond_flattened.next + 2) .i32,
                  .LocalStoreStmt (example_cond_flattened.next + 3)
                    (example_cond_flattened.next + 1) c,
                  .UnaryOpStmt (example_cond_flattened.next + 4) .bit_not c,
                  .LocalStoreStmt (example_cond_flattened.next + 5)
                    (example_cond_flattened.next + 2) (example_cond_flattened.next + 4),
                  .IfStmt example_cond_flattened.next c (example_cond_flattened.next + 1)
                    (example_cond_flattened.next + 2)
                    ((some example_body).map fun b =>
                      .mk b.statements b.local_var_alloca
                        (some (example_cond_flattened.next + 1)) b.inner_loop_variable)
                    ((none : Option Block).map fun b =>
                      .mk b.statements b.local_var_alloca
                        (some (example_cond_flattened.next + 2)) b.inner_loop_variable) ]) ++
              []) [(1, 0)] none none,
           example_cond_flattened.next + 6) :=
  C4_if_rewriter [] [(1, 0)] 10 1 example_cond (some example_body) none [.AllocaStmt 0 .i32] []
    none none example_cond_flattened (by decide) (by rfl)

theorem xor_bit_not32 (w : Nat) (h : w < 2 ^ 32) :
    w ^^^ eval_unary .bit_not w = 0xFFFFFFFF := by
  show w ^^^ (2 ^ 32 - 1 - w % 2 ^ 32) = 2 ^ 32 - 1
  rw [Nat.mod_eq_of_lt h]
  apply Nat.eq_of_testBit_eq
  intro i
  have e : 2 ^ 32 - 1 - w = 2 ^ 32 - (w + 1) := by omega
  rw [Nat.testBit_xor, e, Nat.testBit_two_pow_sub_succ h, Nat.testBit_two_pow_sub_one]
  by_cases hi : i < 32
  · simp [hi]
  · have hw : w.testBit i = false := by
      apply Nat.testBit_lt_two_pow
      exact lt_of_lt_of_le h (Nat.pow_le_pow_right (by norm_num) (by omega))
    simp [hi, hw]

theorem filter_values_local_store (seg : List Stmt) (h : ∀ s ∈ seg, s.is_value = true) :
    seg.filter Stmt.is_LocalStoreStmt = [] := by
  rw [List.filter_eq_nil_iff]
  intro s hs
  have hv := h s hs
  cases s <;> first | exact Bool.false_ne_true | exact Bool.noConfusion hv

theorem filter_values_global_store (seg : List Stmt) (h : ∀ s ∈ seg, s.is_value = true) :
    seg.filter Stmt.is_GlobalStoreStmt = [] := by
  rw [List.filter_eq_nil_iff]
  intro s hs
  have hv := h s hs
  cases s <;> first | exact Bool.false_ne_true | exact Bool.noConfusion hv

/-- The buffer of a flattening that started from an empty buffer holds value
instructions only. -/
theorem flatten_values (scope : List VarMap) (e : Expr) (next : Addr) (st : FlattenState)
    (h : e.flatten scope { flattened := [], memo := [], next := next } = some st) :
    ∀ s ∈ st.flattened, s.is_value = true := by
  obtain ⟨seg, hs, _⟩ := flatten_step scope e _ st h
  have hb : st.flattened = seg := by rw [hs.buffer]; rfl
  rw [hb]
  exact hs.values

/-- C5 (mask partition): the sequence put out by the if rewriter is a run `S` of
value instructions, then two slots `tm` and `fm`, a store of `c` into `tm`, the
`bit_not` of that same `c`, a store of it into `fm`, and the conditional; these
two stores are the only local stores in it; and executing the five mask
instructions from any state in which `c` is a 32-bit word leaves `c` in `tm`, its
bitwise NOT in `fm`, and `tm XOR fm = 0xFFFFFFFF`. -/
theorem C5_mask_partition (outer : List VarMap) (vars : VarMap) (next : Addr) (e : Expr)
    (t f : Option Block) (r : Rewrite)
    (h : visit_FrontendIfStmt outer vars next e t f = some r) :
    ∃ S c tm fm a1 lnot a2 cond_stmt,
      r.replacement = S ++
        [ .AllocaStmt tm .i32, .AllocaStmt fm .i32, .LocalStoreStmt a1 tm c,
          .UnaryOpStmt lnot .bit_not c, .LocalStoreStmt a2 fm lnot ] ++ [cond_stmt] ∧
      tm ≠ fm ∧
      r.replacement.filter Stmt.is_LocalStoreStmt =
        [.LocalStoreStmt a1 tm c, .LocalStoreStmt a2 fm lnot] ∧
      ∀ M : Machine, M.value c < 2 ^ 32 →
        ∃ M1, exec_list
            [ .AllocaStmt tm .i32, .AllocaStmt fm .i32, .LocalStoreStmt a1 tm c,
              .UnaryOpStmt lnot .bit_not c, .LocalStoreStmt a2 fm lnot ] M = some M1 ∧
          M1.slot tm = M.value c ∧ M1.slot fm = eval_unary .bit_not (M.value c) ∧
          M1.slot tm ^^^ M1.slot fm = 0xFFFFFFFF := by
  obtain ⟨st, c, hst, hc, rfl⟩ := visit_FrontendIfStmt_some outer vars next e t f r h
  have hval := flatten_values _ _ _ _ hst
  refine ⟨st.flattened, c, st.next + 1, st.next + 2, st.next + 3, st.next + 4, st.next + 5,
    .IfStmt st.next c (st.next + 1) (st.next + 2) (move_body_with_mask t (st.next + 1))
      (move_body_with_mask f (st.next + 2)), ?_, ?_, ?_, ?_⟩
  · simp only [List.append_assoc, List.cons_append, List.nil_append]
  · intro hcontra
    exact absurd (Nat.add_left_cancel hcontra) (by decide)
  · simp only [List.filter_append, filter_values_local_store _ hval, List.nil_append]
    rfl
  · intro M hM
    have hne : st.next + 1 ≠ st.next + 2 := by
      intro hcontra
      exact absurd (Nat.add_left_cancel hcontra) (by decide)
    refine ⟨_, rfl, ?_, ?_, ?_⟩
    · simp [hne]
    · simp
    · simp only [if_true, if_neg hne]
      exact xor_bit_not32 _ hM

/-- Witness of C5: the rewriter applied to `if (x > 0) { y = 1 }`. -/
theorem C5_mask_partition_witness :
    ∃ S c tm fm a1 lnot a2 cond_stmt,
      (Rewrite.mk (example_cond_flattened.flattened ++
          [ .AllocaStmt 14 .i32, .AllocaStmt 15 .i32, .LocalStoreStmt 16 14 12,
            .UnaryOpStmt 17 .bit_not 12, .LocalStoreStmt 18 15 17,
            .IfStmt 13 12 14 15 (move_body_with_mask (some example_body) 14)
              (move_body_with_mask none 15) ]) [(1, 0)] 19).replacement = S ++
        [ .AllocaStmt tm .i32, .AllocaStmt fm .i32, .LocalStoreStmt a1 tm c,
          .UnaryOpStmt lnot .bit_not c, .LocalStoreStmt a2 fm lnot ] ++ [cond_stmt] ∧
      tm ≠ fm ∧
      (Rewrite.mk (example_cond_flattened.flattened ++
          [ .AllocaStmt 14 .i32, .AllocaStmt 15 .i32, .LocalStoreStmt 16 14 12,
            .UnaryOpStmt 17 .bit_not 12, .LocalStoreStmt 18 15 17,
            .IfStmt 13 12 14 15 (move_body_with_mask (some example_body) 14)
              (move_body_with_mask none 15) ]) [(1, 0)] 19).replacement.filter
          Stmt.is_LocalStoreStmt =
        [.LocalStoreStmt a1 tm c, .LocalStoreStmt a2 fm lnot] ∧
      ∀ M : Machine, M.value c < 2 ^ 32 →
        ∃ M1, exec_list
            [ .AllocaStmt tm .i32, .AllocaStmt fm .i32, .LocalStoreStmt a1 tm c,
              .UnaryOpStmt lnot .bit_not c, .LocalStoreStmt a2 fm lnot ] M = some M1 ∧
          M1.slot tm = M.value c ∧ M1.slot fm = eval_unary .bit_not (M.value c) ∧
          M1.slot tm ^^^ M1.slot fm = 0xFFFFFFFF :=
  C5_mask_partition [] [(1, 0)] 10 example_cond (some example_body) none _ (by rfl)

/-- C6 (while rewriter): when the statements before a frontend while hold no
frontend statement and flattening its condition succeeds with buffer
`st.flattened`, that buffer ends with the instruction `c` recorded on the
condition, and the walk replaces the while by a masked loop whose body is
`st.flattened`, one loop-control instruction on the loop's mask and `c`, then the
original statements of the body; the mask of the loop and the `mask_var` of the
body are one new i32 slot (its address is not below the counter `next`); before
the loop the parent block holds the allocation of that slot, a constant and a
local store of the constant into the slot, in this order; the constant is
`(int)0xFFFFFFFF`, that is `-1`, whose 32 bits are all set. -/
theorem C6_while_rewriter (outer : List VarMap) (vars : VarMap) (next a : Addr)
    (cond : Expr) (body : Block) (pre post : List Stmt) (m v : Option Addr)
    (st : FlattenState) (hpre : frontend_count_list pre = 0)
    (hst : cond.flatten (vars :: outer) { flattened := [], memo := [], next := next } = some st) :
    ∃ c last, st.stmt_of cond = some c ∧ st.flattened.getLast? = some last ∧ last.addr = c ∧
      visit_Block outer next (.mk (pre ++ .FrontendWhileStmt a cond body :: post) vars m v) =
        .modified
          (.mk (pre ++
              [ .AllocaStmt (st.next + 3) .i32,
                .AllocaStmt (st.next + 1) .i32,
                .ConstStmt (st.next + 4) (to_int32 0xFFFFFFFF),
                .LocalStoreStmt (st.next + 5) (st.next + 1) (st.next + 4),
                .WhileStmt st.next (st.next + 1)
                  (.mk (st.flattened ++
                      [.WhileControlStmt (st.next + 2) (st.next + 1) c] ++ body.statements)
                    body.local_var_alloca (some (st.next + 1)) body.inner_loop_variable) ] ++
              post) vars m v,
           st.next + 6) ∧
      next ≤ st.next + 1 ∧ to_int32 0xFFFFFFFF = -1 ∧ bits32 (to_int32 0xFFFFFFFF) = 0xFFFFFFFF := by
  obtain ⟨last, hlast, hc⟩ := flatten_last _ cond _ st (not_has_stmt_init _ _ _) hst
  obtain ⟨seg, hs, _⟩ := flatten_step _ cond _ st hst
  refine ⟨last.addr, last, hc, hlast, rfl, ?_, ?_, by decide, by decide⟩
  · have hv : visit_Stmt outer vars next (.FrontendWhileStmt a cond body) =
        .modified
          { replacement :=
              [ .AllocaStmt (st.next + 3) .i32,
                .AllocaStmt (st.next + 1) .i32,
                .ConstStmt (st.next + 4) (to_int32 0xFFFFFFFF),
                .LocalStoreStmt (st.next + 5) (st.next + 1) (st.next + 4),
                .WhileStmt st.next (st.next + 1)
                  (.mk (st.flattened ++
                      [.WhileControlStmt (st.next + 2) (st.next + 1) last.addr] ++
                      body.statements)
                    body.local_var_alloca (some (st.next + 1)) body.inner_loop_variable) ],
            local_var_alloca := vars, next := st.next + 6 } := by
      simp only [visit_Stmt, visit_FrontendWhileStmt, hst, hlast, Walk.of_rewrite]
      cases body
      rfl
    exact visit_Block_at outer vars next pre _ post m v _ hpre hv
  · exact Nat.le_succ_of_le hs.next_le

/-- Witness of C6: `while (x > 0) { y = 1 }` after the slot of `x`. -/
theorem C6_while_rewriter_witness :
    ∃ c last, example_cond_flattened.stmt_of example_cond = some c ∧
      example_cond_flattened.flattened.getLast? = some last ∧ last.addr = c ∧
      visit_Block [] 10
          (.mk ([.AllocaStmt 0 .i32] ++ .FrontendWhileStmt 1 example_cond example_body :: [])
            [(1, 0)] none none) =
        .modified
          (.mk ([.AllocaStmt 0 .i32] ++
              [ .AllocaStmt (example_cond_flattened.next + 3) .i32,
                .AllocaStmt (example_cond_flattened.next + 1) .i32,
                .ConstStmt (example_cond_flattened.next + 4) (to_int32 0xFFFFFFFF),
                .LocalStoreStmt (example_cond_flattened.next + 5)
                  (example_cond_flattened.next + 1) (example_cond_flattened.next + 4),
                .WhileStmt example_cond_flattened.next (example_cond_flattened.next + 1)
                  (.mk (example_cond_flattened.flattened ++
                      [.WhileControlStmt (example_cond_flattened.next + 2)
                        (example_cond_flattened.next + 1) c] ++ example_body.statements)
                    example_body.local_var_alloca (some (example_cond_flattened.next + 1))
                    example_body.inner_loop_variable) ] ++
              []) [(1, 0)] none none,
           example_cond_flattened.next + 6) ∧
      10 ≤ example_cond_flattened.next + 1 ∧ to_int32 0xFFFFFFFF = -1 ∧
      bits32 (to_int32 0xFFFFFFFF) = 0xFFFFFFFF :=
  C6_while_rewriter [] [(1, 0)] 10 1 example_cond example_body [.AllocaStmt 0 .i32] []
    none none example_cond_flattened (by decide) (by rfl)

/-- C7 (scope integrity of range-for): after the range-for rewriter has run on a
loop over `i`, the new i32 slot, whose address is the counter `next`, is the
entry of `i` in the enclosing block's map, the loop-variable operand of the
range-for instruction that ends the replacement, and the `inner_loop_variable`
of the moved body; a lookup of `i` from the body, which has no entry of its own
for `i`, resolves to this slot; and when every slot registered in the scope
exists already (its address is below `next`), the slot differs from every slot
that a lookup of `i` from the enclosing block returned before the rewrite. -/
theorem C7_range_for_scope (outer : List VarMap) (vars : VarMap) (next : Addr)
    (i : Identifier) (b e : Expr) (body : Block) (v p : Int) (r : Rewrite)
    (hwf : ∀ m ∈ vars :: outer, ∀ q ∈ m, q.2 < next)
    (hbody : VarMap.find body.local_var_alloca i = none)
    (h : visit_FrontendForStmt outer vars next i b e body v p = some r) :
    ∃ mid a bs es,
      r.replacement = .AllocaStmt next .i32 ::
        (mid ++ [.RangeForStmt a next bs es
          (.mk body.statements body.local_var_alloca body.mask_var (some next)) v p]) ∧
      VarMap.find r.local_var_alloca i = some next ∧
      lookup_var (body.local_var_alloca :: r.local_var_alloca :: outer) i = some next ∧
      ∀ old, lookup_var (vars :: outer) i = some old → old ≠ next := by
  obtain ⟨st1, st2, lv, bs, es, h1, h2, hlv, _, _, rfl⟩ :=
    visit_FrontendForStmt_some outer vars next i b e body v p r h
  rw [lookup_var_assign_self] at hlv
  cases hlv
  obtain ⟨s1, hs1, _⟩ := flatten_step _ b _ st1 h1
  obtain ⟨s2, hs2, _⟩ := flatten_step _ e _ st2 h2
  refine ⟨s1 ++ s2, st2.next, bs, es, ?_, find_assign_self vars i next, ?_, ?_⟩
  · show st2.flattened ++ _ = _
    rw [hs2.buffer, hs1.buffer]
    cases body
    simp [Block.set_inner_loop_variable, Block.statements, Block.local_var_alloca,
      Block.mask_var]
  · show lookup_var (body.local_var_alloca :: VarMap.assign vars i next :: outer) i = some next
    rw [lookup_var, hbody]
    exact lookup_var_assign_self vars outer i next
  · intro old hold hcontra
    obtain ⟨m, hm, hq⟩ := lookup_var_mem _ _ _ hold
    have hlt := hwf m hm _ hq
    rw [hcontra] at hlt
    exact Nat.lt_irrefl _ hlt

/-- Witness of C7: `for i in range(0, 10) { print i }` in a block that already
maps `i` to the slot 0. -/
theorem C7_range_for_scope_witness :
    ∃ mid a bs es,
      (Rewrite.mk
          [ .AllocaStmt 10 .i32, .ConstStmt 11 0, .ConstStmt 12 10,
            .RangeForStmt 13 10 11 12 (example_for_body.set_inner_loop_variable 10) 1 0 ]
          (VarMap.assign [(1, 0)] 1 10) 14).replacement = .AllocaStmt 10 .i32 ::
        (mid ++ [.RangeForStmt a 10 bs es
          (.mk example_for_body.statements example_for_body.local_var_alloca
            example_for_body.mask_var (some 10)) 1 0]) ∧
      VarMap.find (Rewrite.mk
          [ .AllocaStmt 10 .i32, .ConstStmt 11 0, .ConstStmt 12 10,
            .RangeForStmt 13 10 11 12 (example_for_body.set_inner_loop_variable 10) 1 0 ]
          (VarMap.assign [(1, 0)] 1 10) 14).local_var_alloca 1 = some 10 ∧
      lookup_var (example_for_body.local_var_alloca :: (Rewrite.mk
          [ .AllocaStmt 10 .i32, .ConstStmt 11 0, .ConstStmt 12 10,
            .RangeForStmt 13 10 11 12 (example_for_body.set_inner_loop_variable 10) 1 0 ]
          (VarMap.assign [(1, 0)] 1 10) 14).local_var_alloca :: []) 1 = some 10 ∧
      ∀ old, lookup_var ([(1, 0)] :: []) 1 = some old → old ≠ 10 :=
  C7_range_for_scope [] [(1, 0)] 10 1 (.ConstExpression 2 0) (.ConstExpression 3 10)
    example_for_body 1 0 _ (by decide) (by rfl) (by rfl)

/-- C8 (range-for output): when the statements before a frontend range-for hold
no frontend statement and flattening its bounds succeeds, the walk replaces it by
the allocation of the i32 induction slot, the instructions `Sb` flattening the
begin bound, the instructions `Se` flattening the end bound (value instructions
only), and one range-for instruction holding the induction slot, the instructions
recorded on the begin and on the end bound, the body with its statements, map and
mask unchanged, and the vectorize and parallelize values of the frontend
statement. -/
theorem C8_range_for_output (outer : List VarMap) (vars : VarMap) (next a : Addr)
    (i : Identifier) (b e : Expr) (body : Block) (vec par : Int) (pre post : List Stmt)
    (m k : Option Addr) (st1 st2 : FlattenState) (hpre : frontend_count_list pre = 0)
    (h1 : b.flatten (VarMap.assign vars i next :: outer)
      { flattened := [.AllocaStmt next .i32], memo := [], next := next + 1 } = some st1)
    (h2 : e.flatten (VarMap.assign vars i next :: outer) st1 = some st2) :
    ∃ Sb Se bs es,
      st1.flattened = [.AllocaStmt next .i32] ++ Sb ∧ st2.flattened = st1.flattened ++ Se ∧
      (∀ s ∈ Sb ++ Se, s.is_value = true) ∧
      st2.stmt_of b = some bs ∧ st2.stmt_of e = some es ∧
      visit_Block outer next (.mk (pre ++ .FrontendForStmt a i b e body vec par :: post) vars m k) =
        .modified
          (.mk (pre ++
              ([.AllocaStmt next .i32] ++ Sb ++ Se ++
                [.RangeForStmt st2.next next bs es
                  (.mk body.statements body.local_var_alloca body.mask_var (some next))
                  vec par]) ++
              post) (VarMap.assign vars i next) m k,
           st2.next + 1) := by
  obtain ⟨Sb, hs1, _⟩ := flatten_step _ b _ st1 h1
  obtain ⟨Se, hs2, _⟩ := flatten_step _ e _ st2 h2
  obtain ⟨bs, hb1⟩ := flatten_stmt_of _ _ _ _ h1
  obtain ⟨es, he⟩ := flatten_stmt_of _ _ _ _ h2
  have hb := stmt_of_kept hs2 b bs hb1
  refine ⟨Sb, Se, bs, es, hs1.buffer, hs2.buffer, ?_, hb, he, ?_⟩
  · intro s hs
    rcases List.mem_append.mp hs with hm | hm
    · exact hs1.values s hm
    · exact hs2.values s hm
  · have hv : visit_Stmt outer vars next (.FrontendForStmt a i b e body vec par) =
        .modified
          { replacement := [.AllocaStmt next .i32] ++ Sb ++ Se ++
              [.RangeForStmt st2.next next bs es
                (.mk body.statements body.local_var_alloca body.mask_var (some next)) vec par],
            local_var_alloca := VarMap.assign vars i next, next := st2.next + 1 } := by
      have hb2 : st2.flattened = [.AllocaStmt next .i32] ++ Sb ++ Se := by
        rw [hs2.buffer, hs1.buffer]
      simp only [visit_Stmt, visit_FrontendForStmt, h1, h2, hb, he, lookup_var_assign_self,
        Walk.of_rewrite, hb2]
      cases body
      rfl
    exact visit_Block_at outer vars next pre _ post m k _ hpre hv

/-- Witness of C8: `for i in range(0, 10) { print i }` as the only statement of
a block. -/
theorem C8_range_for_output_witness :
    ∃ Sb Se bs es,
      (FlattenState.mk [.AllocaStmt 10 .i32, .ConstStmt 11 0] [(2, 11)] 12).flattened =
        [.AllocaStmt 10 .i32] ++ Sb ∧
      (FlattenState.mk [.AllocaStmt 10 .i32, .ConstStmt 11 0, .ConstStmt 12 10]
          [(3, 12), (2, 11)] 13).flattened =
        (FlattenState.mk [.AllocaStmt 10 .i32, .ConstStmt 11 0] [(2, 11)] 12).flattened ++ Se ∧
      (∀ s ∈ Sb ++ Se, s.is_value = true) ∧
      (FlattenState.mk [.AllocaStmt 10 .i32, .ConstStmt 11 0, .ConstStmt 12 10]
          [(3, 12), (2, 11)] 13).stmt_of (.ConstExpression 2 0) = some bs ∧
      (FlattenState.mk [.AllocaStmt 10 .i32, .ConstStmt 11 0, .ConstStmt 12 10]
          [(3, 12), (2, 11)] 13).stmt_of (.ConstExpression 3 10) = some es ∧
      visit_Block [] 10
          (.mk ([] ++ .FrontendForStmt 1 1 (.ConstExpression 2 0) (.ConstExpression 3 10)
            example_for_body 1 0 :: []) [] none none) =
        .modified
          (.mk ([] ++
              ([.AllocaStmt 10 .i32] ++ Sb ++ Se ++
                [.RangeForStmt
                  (FlattenState.mk [.AllocaStmt 10 .i32, .ConstStmt 11 0, .ConstStmt 12 10]
                    [(3, 12), (2, 11)] 13).next 10 bs es
                  (.mk example_for_body.statements example_for_body.local_var_alloca
                    example_for_body.mask_var (some 10))
                  1 0]) ++
              []) (VarMap.assign [] 1 10) none none,
           (FlattenState.mk [.AllocaStmt 10 .i32, .ConstStmt 11 0, .ConstStmt 12 10]
              [(3, 12), (2, 11)] 13).next + 1) :=
  C8_range_for_output [] [] 10 1 1 (.ConstExpression 2 0) (.ConstExpression 3 10)
    example_for_body 1 0 [] [] none none _ _ (by decide) (by rfl) (by rfl)

theorem filter_append_singleton_none (p : Stmt → Bool) (l : List Stmt) (s : Stmt)
    (hl : l.filter p = []) (hs : p s = false) : (l ++ [s]).filter p = [] := by
  rw [List.filter_append, hl]
  simp [List.filter, hs]

theorem filter_append_singleton_one (p : Stmt → Bool) (l : List Stmt) (s : Stmt)
    (hl : l.filter p = []) (hs : p s = true) : (l ++ [s]).filter p = [s] := by
  rw [List.filter_append, hl]
  simp [List.filter, hs]

/-- C9 (assignment routing): let flattening the right-hand side succeed with
buffer `st.flattened`. For a target that is a plain identifier whose lookup in the
enclosing scope gives `slot`, the rewriter puts out `st.flattened` followed by one
local store of the right-hand side's value into `slot`; that store is the only
local store of the sequence and the sequence holds no global store. For a target
that is a global-address expression the rewriter puts out the buffer after
flattening the target followed by one global store carrying the right-hand
side's value; that store is the only global store of the sequence and the
sequence holds no local store. -/
theorem C9_assignment_routing (outer : List VarMap) (vars : VarMap) (next : Addr) (rhs : Expr)
    (st : FlattenState)
    (hst : rhs.flatten (vars :: outer) { flattened := [], memo := [], next := next } = some st) :
    (∀ nid id slot, lookup_var (vars :: outer) id = some slot →
      ∃ val, st.stmt_of rhs = some val ∧
        visit_FrontendAssignStmt outer vars next (.IdExpression nid id) rhs =
          some { replacement := st.flattened ++ [Stmt.LocalStoreStmt st.next slot val],
                 local_var_alloca := vars, next := st.next + 1 } ∧
        (st.flattened ++ [Stmt.LocalStoreStmt st.next slot val]).filter Stmt.is_LocalStoreStmt =
          [Stmt.LocalStoreStmt st.next slot val] ∧
        (st.flattened ++ [Stmt.LocalStoreStmt st.next slot val]).filter Stmt.is_GlobalStoreStmt = []) ∧
    (∀ nid g, ∃ st2 val ptr,
        (Expr.GlobalPtrExpression nid g).flatten (vars :: outer) st = some st2 ∧
        st.stmt_of rhs = some val ∧
        visit_FrontendAssignStmt outer vars next (.GlobalPtrExpression nid g) rhs =
          some { replacement := st2.flattened ++ [Stmt.GlobalStoreStmt st2.next ptr val],
                 local_var_alloca := vars, next := st2.next + 1 } ∧
        (st2.flattened ++ [Stmt.GlobalStoreStmt st2.next ptr val]).filter Stmt.is_GlobalStoreStmt =
          [Stmt.GlobalStoreStmt st2.next ptr val] ∧
        (st2.flattened ++ [Stmt.GlobalStoreStmt st2.next ptr val]).filter Stmt.is_LocalStoreStmt = []) := by
  obtain ⟨val, hval⟩ := flatten_stmt_of _ _ _ _ hst
  have hvalues := flatten_values _ _ _ _ hst
  constructor
  · intro nid id slot hslot
    refine ⟨val, hval, ?_, ?_, ?_⟩
    · simp only [visit_FrontendAssignStmt, hst, hslot, hval]
    · exact filter_append_singleton_one _ _ (Stmt.LocalStoreStmt _ _ _)
        (filter_values_local_store _ hvalues) rfl
    · exact filter_append_singleton_none _ _ (Stmt.LocalStoreStmt _ _ _)
        (filter_values_global_store _ hvalues) rfl
  · intro nid g
    obtain ⟨last, hlast, _⟩ := flatten_last _ rhs _ st (not_has_stmt_init _ _ _) hst
    have hsome : ∃ st2, (Expr.GlobalPtrExpression nid g).flatten (vars :: outer) st = some st2 := by
      simp only [Expr.flatten]
      split
      · exact ⟨_, rfl⟩
      · exact ⟨_, rfl⟩
    obtain ⟨st2, hst2⟩ := hsome
    obtain ⟨seg, hs, _⟩ := flatten_step _ _ _ st2 hst2
    have hval2 := stmt_of_kept hs rhs val hval
    have hvalues2 : ∀ s ∈ st2.flattened, s.is_value = true := by
      intro s hmem
      rw [hs.buffer] at hmem
      rcases List.mem_append.mp hmem with hm | hm
      · exact hvalues s hm
      · exact hs.values s hm
    have hne : st.flattened ≠ [] := by
      intro hnil
      rw [hnil] at hlast
      cases hlast
    have hne2 : st2.flattened ≠ [] := by
      rw [hs.buffer]
      intro hnil
      exact hne (List.append_eq_nil.mp hnil).1
    obtain ⟨last2, hlast2⟩ : ∃ x, st2.flattened.getLast? = some x :=
      ⟨_, List.getLast?_eq_getLast _ hne2⟩
    refine ⟨st2, val, last2.addr, hst2, hval, ?_, ?_, ?_⟩
    · simp only [visit_FrontendAssignStmt, hst, hst2, hlast2, hval2]
    · exact filter_append_singleton_one _ _ (Stmt.GlobalStoreStmt _ _ _)
        (filter_values_global_store _ hvalues2) rfl
    · exact filter_append_singleton_none _ _ (Stmt.GlobalStoreStmt _ _ _)
        (filter_values_local_store _ hvalues2) rfl

/-- Witness of C9: the assignments `x = 1` and `g = 1`, with `x` registered as the
slot 0 and `g` a global address. -/
theorem C9_assignment_routing_witness :
    (∃ val, (FlattenState.mk [Stmt.ConstStmt 10 1] [(7, 10)] 11).stmt_of (.ConstExpression 7 1) =
        some val ∧
      visit_FrontendAssignStmt [] [(1, 0)] 10 (.IdExpression 6 1) (.ConstExpression 7 1) =
        some { replacement := (FlattenState.mk [Stmt.ConstStmt 10 1] [(7, 10)] 11).flattened ++
                 [Stmt.LocalStoreStmt (FlattenState.mk [Stmt.ConstStmt 10 1] [(7, 10)] 11).next 0 val],
               local_var_alloca := [(1, 0)],
               next := (FlattenState.mk [Stmt.ConstStmt 10 1] [(7, 10)] 11).next + 1 } ∧
      ((FlattenState.mk [Stmt.ConstStmt 10 1] [(7, 10)] 11).flattened ++
          [Stmt.LocalStoreStmt (FlattenState.mk [Stmt.ConstStmt 10 1] [(7, 10)] 11).next 0
            val]).filter Stmt.is_LocalStoreStmt =
        [Stmt.LocalStoreStmt (FlattenState.mk [Stmt.ConstStmt 10 1] [(7, 10)] 11).next 0 val] ∧
      ((FlattenState.mk [Stmt.ConstStmt 10 1] [(7, 10)] 11).flattened ++
          [Stmt.LocalStoreStmt (FlattenState.mk [Stmt.ConstStmt 10 1] [(7, 10)] 11).next 0
            val]).filter Stmt.is_GlobalStoreStmt = []) ∧
    (∃ st2 val ptr,
      (Expr.GlobalPtrExpression 6 3).flatten ([(1, 0)] :: [])
        (FlattenState.mk [Stmt.ConstStmt 10 1] [(7, 10)] 11) = some st2 ∧
      (FlattenState.mk [Stmt.ConstStmt 10 1] [(7, 10)] 11).stmt_of (.ConstExpression 7 1) =
        some val ∧
      visit_FrontendAssignStmt [] [(1, 0)] 10 (.GlobalPtrExpression 6 3) (.ConstExpression 7 1) =
        some { replacement := st2.flattened ++ [Stmt.GlobalStoreStmt st2.next ptr val],
               local_var_alloca := [(1, 0)], next := st2.next + 1 } ∧
      (st2.flattened ++ [Stmt.GlobalStoreStmt st2.next ptr val]).filter Stmt.is_GlobalStoreStmt =
        [Stmt.GlobalStoreStmt st2.next ptr val] ∧
      (st2.flattened ++ [Stmt.GlobalStoreStmt st2.next ptr val]).filter Stmt.is_LocalStoreStmt = []) :=
  ⟨(C9_assignment_routing [] [(1, 0)] 10 (.ConstExpression 7 1) _ (by rfl)).1 6 1 0 (by rfl),
   (C9_assignment_routing [] [(1, 0)] 10 (.ConstExpression 7 1) _ (by rfl)).2 6 3⟩

/-- C10 (materialize), the behaviour of the code: `load_if_ptr` returns every
expression unchanged and creates no load, because its test is for the statement
class `GlobalPtrStmt`; so the print rewriter applied to the print of a
global-address expression puts out the address instruction and a print of that
address, with no load in between, whereas flattening the explicit load of the
same expression gives the address instruction followed by a global load. -/
theorem C10_print_global_without_load :
    (∀ next e, load_if_ptr next e = (e, next)) ∧
    visit_FrontendPrintStmt [] [] 10 (.GlobalPtrExpression 2 7) "g" =
      some { replacement := [.GlobalPtrStmt 10 7, .PrintStmt 11 10 "g"],
             local_var_alloca := [], next := 12 } ∧
    ((load 10 (.GlobalPtrExpression 2 7)).flatten [[]]
        { flattened := [], memo := [], next := 11 }).map FlattenState.flattened =
      some [.GlobalPtrStmt 11 7, .GlobalLoadStmt 12 11] :=
  ⟨fun _ _ => rfl, rfl, rfl⟩

theorem find_insert_absent (vars : VarMap) (id : Identifier) (slot : Addr)
    (h : VarMap.find vars id = none) : VarMap.insert vars id slot = (id, slot) :: vars := by
  unfold VarMap.insert
  rw [h]
  rfl

theorem lookup_var_cons_self (vars : VarMap) (outer : List VarMap) (id : Identifier)
    (slot : Addr) : lookup_var (((id, slot) :: vars) :: outer) id = some slot := by
  simp only [lookup_var, VarMap.find, List.lookup, beq_self_eq_true]

/-- C11 (declaration rewriter): the visit of a declaration fails exactly when the
identifier is registered in the map of the block that holds the declaration,
whatever the enclosing blocks register; otherwise the walk replaces the
declaration, where it stood, by one allocation of the declared data type, adds
the entry of the identifier to the block's map, and a lookup of the identifier
from the block returns the new slot. -/
theorem C11_declaration_rewriter (outer : List VarMap) (vars : VarMap) (next a : Addr)
    (ident : Identifier) (dt : DataType) :
    (visit_Stmt outer vars next (.FrontendAllocaStmt a ident dt) = .failed ↔
      ∃ slot, VarMap.find vars ident = some slot) ∧
    (VarMap.find vars ident = none →
      (∀ pre post m v, frontend_count_list pre = 0 →
        visit_Block outer next (.mk (pre ++ .FrontendAllocaStmt a ident dt :: post) vars m v) =
          .modified (.mk (pre ++ [.AllocaStmt next dt] ++ post) ((ident, next) :: vars) m v,
            next + 1)) ∧
      lookup_var (((ident, next) :: vars) :: outer) ident = some next) := by
  constructor
  · cases hf : VarMap.find vars ident with
    | none =>
      have hv : visit_Stmt outer vars next (.FrontendAllocaStmt a ident dt) =
          .modified { replacement := [.AllocaStmt next dt],
                      local_var_alloca := VarMap.insert vars ident next, next := next + 1 } := by
        simp only [visit_Stmt, visit_FrontendAllocaStmt, hf, Option.isSome_none,
          Bool.false_eq_true, if_false, Walk.of_rewrite]
      rw [hv]
      constructor
      · intro h; cases h
      · rintro ⟨slot, h⟩; cases h
    | some slot =>
      have hv : visit_Stmt outer vars next (.FrontendAllocaStmt a ident dt) = .failed := by
        simp only [visit_Stmt, visit_FrontendAllocaStmt, hf, Option.isSome_some, if_true,
          Walk.of_rewrite]
      rw [hv]
      exact ⟨fun _ => ⟨slot, rfl⟩, fun _ => rfl⟩
  · intro hf
    refine ⟨?_, lookup_var_cons_self vars outer ident next⟩
    intro pre post m v hpre
    have hv : visit_Stmt outer vars next (.FrontendAllocaStmt a ident dt) =
        .modified { replacement := [.AllocaStmt next dt],
                    local_var_alloca := (ident, next) :: vars, next := next + 1 } := by
      simp only [visit_Stmt, visit_FrontendAllocaStmt, hf, Option.isSome_none,
        Bool.false_eq_true, if_false, Walk.of_rewrite, find_insert_absent vars ident next hf]
    exact visit_Block_at outer vars next pre _ post m v _ hpre hv

/-- Witness of C11: `var x` in a block that does not register `x`, inside a block
that does: the visit does not fail and the lookup gives the new slot; in a block
that registers `x` the visit fails. -/
theorem C11_declaration_rewriter_witness :
    visit_Stmt [] [(1, 0)] 10 (.FrontendAllocaStmt 5 1 .f32) = .failed ∧
    visit_Block [[(1, 0)]] 10
        (.mk ([.ConstStmt 3 4] ++ .FrontendAllocaStmt 5 1 .f32 :: []) [] none none) =
      .modified (.mk ([.ConstStmt 3 4] ++ [.AllocaStmt 10 .f32] ++ []) ((1, 10) :: []) none none,
        10 + 1) ∧
    lookup_var (((1, 10) :: []) :: [[(1, 0)]]) 1 = some 10 :=
  ⟨(C11_declaration_rewriter [] [(1, 0)] 10 5 1 .f32).1.mpr ⟨0, by rfl⟩,
   ((C11_declaration_rewriter [[(1, 0)]] [] 10 5 1 .f32).2 (by rfl)).1
      [.ConstStmt 3 4] [] none none (by decide),
   ((C11_declaration_rewriter [[(1, 0)]] [] 10 5 1 .f32).2 (by rfl)).2⟩

theorem flatten_global_ptr_some (scope : List VarMap) (nid : Addr) (g : Nat)
    (st : FlattenState) :
    ∃ st2, (Expr.GlobalPtrExpression nid g).flatten scope st = some st2 := by
  simp only [Expr.flatten]
  split
  · exact ⟨_, rfl⟩
  · exact ⟨_, rfl⟩

theorem assign_id_succeeds (outer : List VarMap) (vars : VarMap) (next : Addr) (rhs : Expr)
    (st : FlattenState) (nid : Addr) (id : Identifier) (slot : Addr)
    (hst : rhs.flatten (vars :: outer) { flattened := [], memo := [], next := next } = some st)
    (hslot : lookup_var (vars :: outer) id = some slot) :
    ∃ r, visit_FrontendAssignStmt outer vars next (.IdExpression nid id) rhs = some r := by
  obtain ⟨val, hval⟩ := flatten_stmt_of _ _ _ _ hst
  simp only [visit_FrontendAssignStmt, hst, hslot, hval]
  exact ⟨_, rfl⟩

theorem assign_global_succeeds (outer : List VarMap) (vars : VarMap) (next : Addr) (rhs : Expr)
    (st : FlattenState) (nid : Addr) (g : Nat)
    (hst : rhs.flatten (vars :: outer) { flattened := [], memo := [], next := next } = some st) :
    ∃ r, visit_FrontendAssignStmt outer vars next (.GlobalPtrExpression nid g) rhs = some r := by
  obtain ⟨val, hval⟩ := flatten_stmt_of _ _ _ _ hst
  obtain ⟨last, hlast, _⟩ := flatten_last _ rhs _ st (not_has_stmt_init _ _ _) hst
  obtain ⟨st2, hst2⟩ := flatten_global_ptr_some (vars :: outer) nid g st
  obtain ⟨seg, hs, _⟩ := flatten_step _ _ _ st2 hst2
  have hval2 := stmt_of_kept hs rhs val hval
  have hne2 : st2.flattened ≠ [] := by
    rw [hs.buffer]
    intro hnil
    have h0 := (List.append_eq_nil.mp hnil).1
    rw [h0] at hlast
    cases hlast
  obtain ⟨last2, hlast2⟩ : ∃ x, st2.flattened.getLast? = some x :=
    ⟨_, List.getLast?_eq_getLast _ hne2⟩
  simp only [visit_FrontendAssignStmt, hst, hst2, hlast2, hval2]
  exact ⟨_, rfl⟩

theorem assign_id_undeclared (outer : List VarMap) (vars : VarMap) (next : Addr) (rhs : Expr)
    (nid : Addr) (id : Identifier) (hslot : lookup_var (vars :: outer) id = none) :
    visit_FrontendAssignStmt outer vars next (.IdExpression nid id) rhs = none := by
  unfold visit_FrontendAssignStmt
  split
  · rfl
  · simp only [hslot]

/-- C12 (assignment failures): let flattening the right-hand side succeed. The
assignment rewriter fails when the target is neither a plain identifier nor a
global-address expression, and when the target identifier is found neither in the
enclosing block nor in a block outward of it; a failed rewriter ends the walk in
a failure before `replace_with` is reached, so no replacement of the parent's
statements exists; for a target identifier that is found and for a
global-address target the rewriter succeeds. -/
theorem C12_assignment_failures (outer : List VarMap) (vars : VarMap) (next : Addr)
    (rhs : Expr) (st : FlattenState)
    (hst : rhs.flatten (vars :: outer) { flattened := [], memo := [], next := next } = some st) :
    (∀ lhs, lhs.is_IdExpression = false → lhs.is_GlobalPtrExpression = false →
      visit_FrontendAssignStmt outer vars next lhs rhs = none) ∧
    (∀ nid id, lookup_var (vars :: outer) id = none →
      visit_FrontendAssignStmt outer vars next (.IdExpression nid id) rhs = none) ∧
    (∀ lhs a pre post m v, visit_FrontendAssignStmt outer vars next lhs rhs = none →
      frontend_count_list pre = 0 →
      visit_Block outer next (.mk (pre ++ .FrontendAssignStmt a lhs rhs :: post) vars m v) =
        .failed) ∧
    (∀ nid id slot, lookup_var (vars :: outer) id = some slot →
      ∃ r, visit_FrontendAssignStmt outer vars next (.IdExpression nid id) rhs = some r) ∧
    (∀ nid g,
      ∃ r, visit_FrontendAssignStmt outer vars next (.GlobalPtrExpression nid g) rhs = some r) := by
  refine ⟨?_, ?_, ?_, ?_, ?_⟩
  · intro lhs h1 h2
    exact visit_FrontendAssignStmt_other outer vars next lhs rhs h1 h2
  · intro nid id hslot
    exact assign_id_undeclared outer vars next rhs nid id hslot
  · intro lhs a pre post m v hnone hpre
    have hv : visit_Stmt outer vars next (.FrontendAssignStmt a lhs rhs) = .failed := by
      simp only [visit_Stmt, hnone, Walk.of_rewrite]
    induction pre with
    | nil => simp only [List.nil_append, visit_Block, visit_statements, hv]
    | cons x rest ih =>
      have hx : x.frontend_count = 0 := by
        simp only [frontend_count_list] at hpre
        omega
      have hrest : frontend_count_list rest = 0 := by
        simp only [frontend_count_list] at hpre
        omega
      have ih2 := ih hrest
      simp only [visit_Block] at ih2 ⊢
      show (match visit_statements outer vars next
          (x :: (rest ++ .FrontendAssignStmt a lhs rhs :: post)) with
        | .modified r => _
        | .failed => _
        | .completed => _) = _
      rw [visit_statements, visit_Stmt_completed_of_count outer vars next x hx]
      revert ih2
      cases visit_statements outer vars next (rest ++ .FrontendAssignStmt a lhs rhs :: post) with
      | modified r => intro ih2; cases ih2
      | failed => intro _; rfl
      | completed => intro ih2; cases ih2
  · intro nid id slot hslot
    exact assign_id_succeeds outer vars next rhs st nid id slot hst hslot
  · intro nid g
    exact assign_global_succeeds outer vars next rhs st nid g hst

/-- Witness of C12: with right-hand side `1` and the map `x ↦ 0`: the target `1`
(a constant) fails, the undeclared target `y` fails and the walk over the block
fails, the targets `x` and the global address `g` succeed. -/
theorem C12_assignment_failures_witness :
    visit_FrontendAssignStmt [] [(1, 0)] 10 (.ConstExpression 6 1) (.ConstExpression 7 1) = none ∧
    visit_FrontendAssignStmt [] [(1, 0)] 10 (.IdExpression 6 2) (.ConstExpression 7 1) = none ∧
    visit_Block [] 10
        (.mk ([.AllocaStmt 0 .i32] ++
          .FrontendAssignStmt 5 (.IdExpression 6 2) (.ConstExpression 7 1) :: [])
          [(1, 0)] none none) = .failed ∧
    (∃ r, visit_FrontendAssignStmt [] [(1, 0)] 10 (.IdExpression 6 1) (.ConstExpression 7 1) =
      some r) ∧
    (∃ r, visit_FrontendAssignStmt [] [(1, 0)] 10 (.GlobalPtrExpression 6 3)
      (.ConstExpression 7 1) = some r) :=
  ⟨(C12_assignment_failures [] [(1, 0)] 10 (.ConstExpression 7 1) _ (by rfl)).1
      (.ConstExpression 6 1) (by rfl) (by rfl),
   (C12_assignment_failures [] [(1, 0)] 10 (.ConstExpression 7 1) _ (by rfl)).2.1 6 2 (by rfl),
   (C12_assignment_failures [] [(1, 0)] 10 (.ConstExpression 7 1) _ (by rfl)).2.2.1
      (.IdExpression 6 2) 5 [.AllocaStmt 0 .i32] [] none none (by rfl) (by decide),
   (C12_assignment_failures [] [(1, 0)] 10 (.ConstExpression 7 1) _ (by rfl)).2.2.2.1 6 1 0
      (by rfl),
   (C12_assignment_failures [] [(1, 0)] 10 (.ConstExpression 7 1) _ (by rfl)).2.2.2.2 6 3⟩

/-- The rewriter takes `flattened.back()` as the address operand. On a statement
in which the target node were also a node of the right-hand side, as in
`g = load(g)` built on the one node `g` (which the data model, where every node
has one owner, does not hold), flattening the right-hand side records the address
instruction 10 on `g` and ends with the load 11, flattening the target appends
nothing, and the operand is the load 11. -/
theorem assign_global_shared_node :
    visit_FrontendAssignStmt [] [] 10 example_shared_ptr
        (.GlobalLoadExpression 3 example_shared_ptr) =
      some { replacement :=
               [.GlobalPtrStmt 10 7, .GlobalLoadStmt 11 10, .GlobalStoreStmt 12 11 11],
             local_var_alloca := [], next := 13 } ∧
    ((Expr.GlobalLoadExpression 3 example_shared_ptr).flatten [[]]
        { flattened := [], memo := [], next := 10 }).map
        (fun st => (st.stmt_of example_shared_ptr, st.flattened.length)) = some (some 10, 2) ∧
    ((Expr.GlobalLoadExpression 3 example_shared_ptr).flatten [[]]
        { flattened := [], memo := [], next := 10 }).bind
        (fun st => (example_shared_ptr.flatten [[]] st).map
          (fun st2 => (st2.stmt_of example_shared_ptr, st2.flattened.length))) =
      some (some 10, 2) :=
  ⟨rfl, rfl, rfl⟩

theorem lookup_filter_ne (m : VarMap) (i id : Identifier) (h : id ≠ i) :
    List.lookup id (m.filter (fun p => p.1 != i)) = List.lookup id m := by
  induction m with
  | nil => rfl
  | cons p rest ih =>
    obtain ⟨k, x⟩ := p
    by_cases hk : k = i
    · have hf : ((k, x).1 != i) = false := by simp [hk]
      have hne : (id == k) = false := by
        rw [hk]
        simpa using h
      simp only [List.filter, hf, List.lookup, hne]
      exact ih
    · have hf : ((k, x).1 != i) = true := by simp [hk]
      simp only [List.filter, hf, List.lookup]
      cases (id == k) with
      | true => rfl
      | false => exact ih

theorem find_assign_ne (m : VarMap) (i id : Identifier) (slot : Addr) (h : id ≠ i) :
    VarMap.find (VarMap.assign m i slot) id = VarMap.find m id := by
  have hne : (id == i) = false := by simpa using h
  simp only [VarMap.find, VarMap.assign, List.lookup, hne]
  exact lookup_filter_ne m i id h

theorem lookup_var_assign_ne (m : VarMap) (outer : List VarMap) (i id : Identifier)
    (slot : Addr) (h : id ≠ i) :
    lookup_var (VarMap.assign m i slot :: outer) id = lookup_var (m :: outer) id := by
  simp only [lookup_var, find_assign_ne m i id slot h]

/-- Flattening depends on the scope only through the identifiers that the
expression mentions. -/
theorem flatten_scope_congr (sc1 sc2 : List VarMap) (e : Expr)
    (h : ∀ id, e.mentions id = true → lookup_var sc1 id = lookup_var sc2 id) :
    ∀ st, e.flatten sc1 st = e.flatten sc2 st := by
  induction e with
  | ConstExpression nid v => intro st; rfl
  | IdExpression nid x =>
    intro st
    have hx := h x (by simp [Expr.mentions])
    simp only [Expr.flatten, hx]
  | UnaryOpExpression nid op e ih =>
    intro st
    have he := ih (fun id hid => h id (by simpa [Expr.mentions] using hid))
    simp only [Expr.flatten, he]
  | BinaryOpExpression nid op l r ihl ihr =>
    intro st
    have hl := ihl (fun id hid => h id (by simp [Expr.mentions, hid]))
    have hr := ihr (fun id hid => h id (by simp [Expr.mentions, hid]))
    simp only [Expr.flatten, hl, hr]
  | GlobalPtrExpression nid g => intro st; rfl
  | GlobalLoadExpression nid p ih =>
    intro st
    have hp := ih (fun id hid => h id (by simpa [Expr.mentions] using hid))
    simp only [Expr.flatten, hp]

/-- Counterexample to C17: in `for i in range(0, i)`, in a block where `i` is the
slot 0, the end bound `i` is flattened to a load of the new induction slot 10,
while a lookup of `i` from the enclosing block before the rewrite gives 0. -/
theorem C17_range_for_bounds_counterexample :
    visit_FrontendForStmt [] [(1, 0)] 10 1 (.ConstExpression 2 0) (.IdExpression 3 1)
        example_for_body 1 0 =
      some { replacement :=
               [ .AllocaStmt 10 .i32, .ConstStmt 11 0, .LocalLoadStmt 12 10,
                 .RangeForStmt 13 10 11 12 (example_for_body.set_inner_loop_variable 10) 1 0 ],
             local_var_alloca := [(1, 10)], next := 14 } ∧
    lookup_var ([(1, 0)] :: []) 1 = some 0 ∧
    lookup_var (VarMap.assign [(1, 0)] 1 10 :: []) 1 = some 10 :=
  ⟨rfl, rfl, rfl⟩

/-- C17 as amended (range-for bounds): the bounds are flattened in the scope in
which the loop variable `i` is already registered as the new slot `next`. In that
scope every identifier other than `i` resolves as a lookup from the enclosing
block did before the registration, and `i` resolves to the new slot; so a bound
that does not mention `i` is flattened exactly as in the unchanged scope. -/
theorem C17_range_for_bounds_amended (outer : List VarMap) (vars : VarMap) (next : Addr)
    (i : Identifier) :
    (∀ id, id ≠ i →
      lookup_var (VarMap.assign vars i next :: outer) id = lookup_var (vars :: outer) id) ∧
    lookup_var (VarMap.assign vars i next :: outer) i = some next ∧
    (∀ (e : Expr) (st : FlattenState), e.mentions i = false →
      e.flatten (VarMap.assign vars i next :: outer) st = e.flatten (vars :: outer) st) ∧
    (∀ b e body v p r, visit_FrontendForStmt outer vars next i b e body v p = some r →
      ∃ st1 st2,
        b.flatten (VarMap.assign vars i next :: outer)
          { flattened := [.AllocaStmt next .i32], memo := [], next := next + 1 } = some st1 ∧
        e.flatten (VarMap.assign vars i next :: outer) st1 = some st2 ∧
        r.replacement.take st2.flattened.length = st2.flattened) := by
  refine ⟨fun id hid => lookup_var_assign_ne vars outer i id next hid,
    lookup_var_assign_self vars outer i next, ?_, ?_⟩
  · intro e st hm
    apply flatten_scope_congr
    intro id hid
    apply lookup_var_assign_ne
    rintro rfl
    rw [hm] at hid
    exact Bool.noConfusion hid
  · intro b e body v p r h
    obtain ⟨st1, st2, lv, bs, es, h1, h2, _, _, _, rfl⟩ :=
      visit_FrontendForStmt_some outer vars next i b e body v p r h
    exact ⟨st1, st2, h1, h2, List.take_left' rfl⟩

/-- Witness of C17 as amended: with loop variable `i` (identifier 1) and an
enclosing block mapping `i` to 0 and `n` (identifier 2) to 1. -/
theorem C17_range_for_bounds_amended_witness :
    lookup_var (VarMap.assign [(1, 0), (2, 1)] 1 10 :: []) 2 =
      lookup_var ([(1, 0), (2, 1)] :: []) 2 ∧
    (Expr.IdExpression 3 2).flatten (VarMap.assign [(1, 0), (2, 1)] 1 10 :: [])
        { flattened := [.AllocaStmt 10 .i32], memo := [], next := 11 } =
      (Expr.IdExpression 3 2).flatten ([(1, 0), (2, 1)] :: [])
        { flattened := [.AllocaStmt 10 .i32], memo := [], next := 11 } ∧
    (∃ st1 st2,
        (Expr.ConstExpression 2 0).flatten (VarMap.assign [(1, 0), (2, 1)] 1 10 :: [])
          { flattened := [.AllocaStmt 10 .i32], memo := [], next := 10 + 1 } = some st1 ∧
        (Expr.IdExpression 3 2).flatten (VarMap.assign [(1, 0), (2, 1)] 1 10 :: []) st1 =
          some st2 ∧
        (Rewrite.mk
          [ .AllocaStmt 10 .i32, .ConstStmt 11 0, .LocalLoadStmt 12 1,
            .RangeForStmt 13 10 11 12 (example_for_body.set_inner_loop_variable 10) 1 0 ]
          [(1, 10), (2, 1)] 14).replacement.take st2.flattened.length = st2.flattened) :=
  ⟨(C17_range_for_bounds_amended [] [(1, 0), (2, 1)] 10 1).1 2 (by decide),
   (C17_range_for_bounds_amended [] [(1, 0), (2, 1)] 10 1).2.2.1 (.IdExpression 3 2) _ (by rfl),
   (C17_range_for_bounds_amended [] [(1, 0), (2, 1)] 10 1).2.2.2 (.ConstExpression 2 0)
      (.IdExpression 3 2) example_for_body 1 0 _ (by rfl)⟩

theorem nat_add3_ne_add1 (n : Nat) : n + 3 ≠ n + 1 := by omega

theorem nat_add3_ne_add4 (n : Nat) : n + 3 ≠ n + 4 := by omega

theorem nat_add_ne_of_lt (o n k : Nat) (h : o < n) : n + k ≠ o := by omega

theorem while_visit_Block (outer : List VarMap) (vars : VarMap) (next a : Addr)
    (cond : Expr) (body : Block) (pre post : List Stmt) (m v : Option Addr)
    (st : FlattenState) (last : Stmt) (hpre : frontend_count_list pre = 0)
    (hst : cond.flatten (vars :: outer) { flattened := [], memo := [], next := next } = some st)
    (hlast : st.flattened.getLast? = some last) :
    visit_Block outer next (.mk (pre ++ .FrontendWhileStmt a cond body :: post) vars m v) =
      .modified
        (.mk (pre ++
            [ .AllocaStmt (st.next + 3) .i32,
              .AllocaStmt (st.next + 1) .i32,
              .ConstStmt (st.next + 4) (to_int32 0xFFFFFFFF),
              .LocalStoreStmt (st.next + 5) (st.next + 1) (st.next + 4),
              .WhileStmt st.next (st.next + 1)
                (.mk (st.flattened ++
                    [Stmt.WhileControlStmt (st.next + 2) (st.next + 1) last.addr] ++ body.statements)
                  body.local_var_alloca (some (st.next + 1)) body.inner_loop_variable) ] ++
            post) vars m v,
         st.next + 6) := by
  have hv : visit_Stmt outer vars next (.FrontendWhileStmt a cond body) =
      .modified
        { replacement :=
            [ .AllocaStmt (st.next + 3) .i32,
              .AllocaStmt (st.next + 1) .i32,
              .ConstStmt (st.next + 4) (to_int32 0xFFFFFFFF),
              .LocalStoreStmt (st.next + 5) (st.next + 1) (st.next + 4),
              .WhileStmt st.next (st.next + 1)
                (.mk (st.flattened ++
                    [Stmt.WhileControlStmt (st.next + 2) (st.next + 1) last.addr] ++
                    body.statements)
                  body.local_var_alloca (some (st.next + 1)) body.inner_loop_variable) ],
          local_var_alloca := vars, next := st.next + 6 } := by
    simp only [visit_Stmt, visit_FrontendWhileStmt, hst, hlast, Walk.of_rewrite]
    cases body
    rfl
  exact visit_Block_at outer vars next pre _ post m v _ hpre hv

/-- C20 (while preamble size): when the statements before a frontend while hold
no frontend statement and flattening its condition succeeds, the walk puts the
loop instruction in the place of the while statement and, directly before it, in
this order, an i32 allocation, the allocation of the mask slot, the constant
`(int)0xFFFFFFFF` (all 32 bits set) and the local store of the constant into the
mask slot; the parent block is four statements longer; and when every slot
registered in the scope exists already, no statement that the rewriter emits (the
five statements, the flattened condition, the loop-control instruction) has the
first allocation among its operands. -/
theorem C20_while_preamble (outer : List VarMap) (vars : VarMap) (next a : Addr)
    (cond : Expr) (body : Block) (pre post : List Stmt) (m v : Option Addr)
    (st : FlattenState) (hpre : frontend_count_list pre = 0)
    (hwf : ∀ mm ∈ vars :: outer, ∀ q ∈ mm, q.2 < next)
    (hst : cond.flatten (vars :: outer) { flattened := [], memo := [], next := next } = some st) :
    ∃ c,
      visit_Block outer next (.mk (pre ++ .FrontendWhileStmt a cond body :: post) vars m v) =
        .modified
          (.mk (pre ++
              [ .AllocaStmt (st.next + 3) .i32,
                .AllocaStmt (st.next + 1) .i32,
                .ConstStmt (st.next + 4) (to_int32 0xFFFFFFFF),
                .LocalStoreStmt (st.next + 5) (st.next + 1) (st.next + 4),
                .WhileStmt st.next (st.next + 1)
                  (.mk (st.flattened ++
                      [Stmt.WhileControlStmt (st.next + 2) (st.next + 1) c] ++ body.statements)
                    body.local_var_alloca (some (st.next + 1)) body.inner_loop_variable) ] ++
              post) vars m v,
           st.next + 6) ∧
      (pre ++
          [ Stmt.AllocaStmt (st.next + 3) .i32,
            .AllocaStmt (st.next + 1) .i32,
            .ConstStmt (st.next + 4) (to_int32 0xFFFFFFFF),
            .LocalStoreStmt (st.next + 5) (st.next + 1) (st.next + 4),
            .WhileStmt st.next (st.next + 1)
              (.mk (st.flattened ++
                  [Stmt.WhileControlStmt (st.next + 2) (st.next + 1) c] ++ body.statements)
                body.local_var_alloca (some (st.next + 1)) body.inner_loop_variable) ] ++
          post).length = (pre ++ Stmt.FrontendWhileStmt a cond body :: post).length + 4 ∧
      bits32 (to_int32 0xFFFFFFFF) = 0xFFFFFFFF ∧
      ∀ s ∈
          [ Stmt.AllocaStmt (st.next + 3) .i32,
            .AllocaStmt (st.next + 1) .i32,
            .ConstStmt (st.next + 4) (to_int32 0xFFFFFFFF),
            .LocalStoreStmt (st.next + 5) (st.next + 1) (st.next + 4),
            .WhileStmt st.next (st.next + 1)
              (.mk (st.flattened ++
                  [Stmt.WhileControlStmt (st.next + 2) (st.next + 1) c] ++ body.statements)
                body.local_var_alloca (some (st.next + 1)) body.inner_loop_variable) ] ++
          st.flattened ++ [Stmt.WhileControlStmt (st.next + 2) (st.next + 1) c],
        st.next + 3 ∉ s.operands := by
  obtain ⟨last, hlast, _⟩ := flatten_last _ cond _ st (not_has_stmt_init _ _ _) hst
  have hb : st.bounded :=
    flatten_bounded (vars :: outer) next hwf cond _ st (Nat.le_refl _) (bounded_init next) hst
  have hlast_mem : last ∈ st.flattened := List.mem_of_getLast?_eq_some hlast
  refine ⟨last.addr, while_visit_Block outer vars next a cond body pre post m v st last hpre
    hst hlast, ?_, by decide, ?_⟩
  · simp only [List.length_append, List.length_cons, List.length_nil]
    omega
  · intro s hs
    simp only [List.mem_append, List.mem_cons, List.mem_singleton, List.not_mem_nil,
      or_false] at hs
    rcases hs with ((hs | hs | hs | hs | hs) | hs) | hs
    · rw [hs]; exact List.not_mem_nil _
    · rw [hs]; exact List.not_mem_nil _
    · rw [hs]; exact List.not_mem_nil _
    · rw [hs]
      simp only [Stmt.operands, List.mem_cons, List.mem_singleton, List.not_mem_nil, or_false]
      rintro (h | h)
      · exact nat_add3_ne_add1 _ h
      · exact nat_add3_ne_add4 _ h
    · rw [hs]
      simp only [Stmt.operands, List.mem_singleton]
      exact nat_add3_ne_add1 _
    · intro hmem
      exact nat_add_ne_of_lt _ _ 3 ((hb.1 s hs).2 _ hmem) rfl
    · rw [hs]
      simp only [Stmt.operands, List.mem_cons, List.mem_singleton, List.not_mem_nil, or_false]
      rintro (h | h)
      · exact nat_add3_ne_add1 _ h
      · exact nat_add_ne_of_lt _ _ 3 (hb.1 last hlast_mem).1 h

/-- Witness of C20: `while (x > 0) { y = 1 }` after the slot of `x`. -/
theorem C20_while_preamble_witness :
    ∃ c,
      visit_Block [] 10
          (.mk ([.AllocaStmt 0 .i32] ++ .FrontendWhileStmt 1 example_cond example_body :: [])
            [(1, 0)] none none) =
        .modified
          (.mk ([.AllocaStmt 0 .i32] ++
              [ .AllocaStmt (example_cond_flattened.next + 3) .i32,
                .AllocaStmt (example_cond_flattened.next + 1) .i32,
                .ConstStmt (example_cond_flattened.next + 4) (to_int32 0xFFFFFFFF),
                .LocalStoreStmt (example_cond_flattened.next + 5)
                  (example_cond_flattened.next + 1) (example_cond_flattened.next + 4),
                .WhileStmt example_cond_flattened.next (example_cond_flattened.next + 1)
                  (.mk (example_cond_flattened.flattened ++
                      [Stmt.WhileControlStmt (example_cond_flattened.next + 2)
                        (example_cond_flattened.next + 1) c] ++ example_body.statements)
                    example_body.local_var_alloca (some (example_cond_flattened.next + 1))
                    example_body.inner_loop_variable) ] ++
              []) [(1, 0)] none none,
           example_cond_flattened.next + 6) ∧
      ([Stmt.AllocaStmt 0 .i32] ++
          [ Stmt.AllocaStmt (example_cond_flattened.next + 3) .i32,
            .AllocaStmt (example_cond_flattened.next + 1) .i32,
            .ConstStmt (example_cond_flattened.next + 4) (to_int32 0xFFFFFFFF),
            .LocalStoreStmt (example_cond_flattened.next + 5)
              (example_cond_flattened.next + 1) (example_cond_flattened.next + 4),
            .WhileStmt example_cond_flattened.next (example_cond_flattened.next + 1)
              (.mk (example_cond_flattened.flattened ++
                  [Stmt.WhileControlStmt (example_cond_flattened.next + 2)
                    (example_cond_flattened.next + 1) c] ++ example_body.statements)
                example_body.local_var_alloca (some (example_cond_flattened.next + 1))
                example_body.inner_loop_variable) ] ++
          []).length =
        ([Stmt.AllocaStmt 0 .i32] ++
          Stmt.FrontendWhileStmt 1 example_cond example_body :: []).length + 4 ∧
      bits32 (to_int32 0xFFFFFFFF) = 0xFFFFFFFF ∧
      ∀ s ∈
          [ Stmt.AllocaStmt (example_cond_flattened.next + 3) .i32,
            .AllocaStmt (example_cond_flattened.next + 1) .i32,
            .ConstStmt (example_cond_flattened.next + 4) (to_int32 0xFFFFFFFF),
            .LocalStoreStmt (example_cond_flattened.next + 5)
              (example_cond_flattened.next + 1) (example_cond_flattened.next + 4),
            .WhileStmt example_cond_flattened.next (example_cond_flattened.next + 1)
              (.mk (example_cond_flattened.flattened ++
                  [Stmt.WhileControlStmt (example_cond_flattened.next + 2)
                    (example_cond_flattened.next + 1) c] ++ example_body.statements)
                example_body.local_var_alloca (some (example_cond_flattened.next + 1))
                example_body.inner_loop_variable) ] ++
          example_cond_flattened.flattened ++
          [Stmt.WhileControlStmt (example_cond_flattened.next + 2)
            (example_cond_flattened.next + 1) c],
        example_cond_flattened.next + 3 ∉ s.operands :=
  C20_while_preamble [] [(1, 0)] 10 1 example_cond example_body [.AllocaStmt 0 .i32] []
    none none example_cond_flattened (by decide) (by decide) (by rfl)

theorem bodies_list_append (a b : List Stmt) :
    bodies_list (a ++ b) = bodies_list a ++ bodies_list b := by
  induction a with
  | nil => rfl
  | cons x rest ih =>
    show x.bodies ++ bodies_list (rest ++ b) = (x.bodies ++ bodies_list rest) ++ bodies_list b
    rw [ih, List.append_assoc]

theorem bodies_of_value (s : Stmt) (h : s.is_value = true) : s.bodies = [] := by
  cases s <;> first | rfl | exact Bool.noConfusion h

theorem bodies_list_values (seg : List Stmt) (h : ∀ s ∈ seg, s.is_value = true) :
    bodies_list seg = [] := by
  induction seg with
  | nil => rfl
  | cons s rest ih =>
    show s.bodies ++ bodies_list rest = []
    rw [bodies_of_value s (h s (List.mem_cons_self _ _)),
      ih (fun x hx => h x (List.mem_cons_of_mem _ hx))]
    rfl

theorem move_body_statements (body : Option Block) (k : Addr) :
    (move_body_with_mask body k).toList.map Block.statements =
      body.toList.map Block.statements := by
  cases body with
  | none => rfl
  | some b => cases b; rfl

/-- The bodies of the replacement that a rewriter other than the while rewriter
puts out are the bodies of the rewritten statement, with their statement lists
unchanged. -/
theorem rewrite_bodies_kept (outer : List VarMap) (vars : VarMap) (next : Addr) (s : Stmt)
    (r : Rewrite) (hs : s.is_frontend = true)
    (hw : ∀ a cond body, s ≠ .FrontendWhileStmt a cond body)
    (h : visit_Stmt outer vars next s = .modified r) :
    (bodies_list r.replacement).map Block.statements = s.bodies.map Block.statements := by
  cases s with
  | FrontendAllocaStmt a ident dt =>
    simp only [visit_Stmt] at h
    cases ho : visit_FrontendAllocaStmt vars next ident dt with
    | none => rw [ho] at h; cases h
    | some r0 =>
      rw [ho] at h
      cases h
      obtain ⟨_, rfl⟩ := visit_FrontendAllocaStmt_some vars next ident dt _ ho
      rfl
  | FrontendAssignStmt a lhs rhs =>
    simp only [visit_Stmt] at h
    cases ho : visit_FrontendAssignStmt outer vars next lhs rhs with
    | none => rw [ho] at h; cases h
    | some r0 =>
      rw [ho] at h
      cases h
      cases lhs with
      | IdExpression nid id =>
        obtain ⟨st, slot, v, hst, _, _, rfl⟩ :=
          visit_FrontendAssignStmt_id_some outer vars next nid id rhs _ ho
        have hval := flatten_values _ _ _ _ hst
        simp only [bodies_list_append, bodies_list_values _ hval]
        rfl
      | GlobalPtrExpression nid g =>
        obtain ⟨st, st2, last, v, hst, hst2, _, _, rfl⟩ :=
          visit_FrontendAssignStmt_global_some outer vars next nid g rhs _ ho
        obtain ⟨seg, hseg, _⟩ := flatten_step _ _ _ st2 hst2
        have hval := flatten_values _ _ _ _ hst
        have hval2 : ∀ x ∈ st2.flattened, x.is_value = true := by
          intro x hx
          rw [hseg.buffer] at hx
          rcases List.mem_append.mp hx with hm | hm
          · exact hval x hm
          · exact hseg.values x hm
        simp only [bodies_list_append, bodies_list_values _ hval2]
        rfl
      | _ =>
        unfold visit_FrontendAssignStmt at ho
        split at ho <;> cases ho
  | FrontendIfStmt a cond t f =>
    simp only [visit_Stmt] at h
    cases ho : visit_FrontendIfStmt outer vars next cond t f with
    | none => rw [ho] at h; cases h
    | some r0 =>
      rw [ho] at h
      cases h
      obtain ⟨st, c, hst, _, rfl⟩ := visit_FrontendIfStmt_some outer vars next cond t f _ ho
      have hval := flatten_values _ _ _ _ hst
      simp only [bodies_list_append, bodies_list_values _ hval, List.nil_append]
      simp only [bodies_list, Stmt.bodies, List.nil_append, List.append_nil, List.map_append,
        move_body_statements]
  | FrontendWhileStmt a cond body => exact absurd rfl (hw a cond body)
  | FrontendForStmt a i b e body v p =>
    simp only [visit_Stmt] at h
    cases ho : visit_FrontendForStmt outer vars next i b e body v p with
    | none => rw [ho] at h; cases h
    | some r0 =>
      rw [ho] at h
      cases h
      obtain ⟨st1, st2, lv, bs, es, h1, h2, _, _, _, rfl⟩ :=
        visit_FrontendForStmt_some outer vars next i b e body v p _ ho
      obtain ⟨s1, hs1, _⟩ := flatten_step _ b _ st1 h1
      obtain ⟨s2, hs2, _⟩ := flatten_step _ e _ st2 h2
      have hb2 : st2.flattened = [Stmt.AllocaStmt next .i32] ++ (s1 ++ s2) := by
        rw [hs2.buffer, hs1.buffer, List.append_assoc]
      have hv12 : ∀ x ∈ s1 ++ s2, x.is_value = true := by
        intro x hx
        rcases List.mem_append.mp hx with hm | hm
        · exact hs1.values x hm
        · exact hs2.values x hm
      simp only [hb2, bodies_list_append, bodies_list_values _ hv12]
      cases body
      rfl
  | FrontendPrintStmt a e str =>
    simp only [visit_Stmt] at h
    cases ho : visit_FrontendPrintStmt outer vars next e str with
    | none => rw [ho] at h; cases h
    | some r0 =>
      rw [ho] at h
      cases h
      obtain ⟨st, v, hst, _, rfl⟩ := visit_FrontendPrintStmt_some outer vars next e str _ ho
      have hval := flatten_values _ _ _ _ hst
      simp only [bodies_list_append, bodies_list_values _ hval]
      rfl
  | _ => exact Bool.noConfusion hs

/-- The replacement that the while rewriter puts out ends with the masked loop,
whose body is the only body in it: the flattened condition, the loop-control
instruction on the mask of the loop and on the last flattened instruction, then
the statements the body had. -/
theorem rewrite_bodies_while (outer : List VarMap) (vars : VarMap) (next a : Addr)
    (cond : Expr) (body : Block) (r : Rewrite)
    (h : visit_Stmt outer vars next (.FrontendWhileStmt a cond body) = .modified r) :
    ∃ st last b2,
      cond.flatten (vars :: outer) { flattened := [], memo := [], next := next } = some st ∧
      st.flattened.getLast? = some last ∧
      r.replacement.getLast? = some (Stmt.WhileStmt st.next (st.next + 1) b2) ∧
      bodies_list r.replacement = [b2] ∧
      b2.statements =
        st.flattened ++ [Stmt.WhileControlStmt (st.next + 2) (st.next + 1) last.addr] ++
          body.statements := by
  simp only [visit_Stmt] at h
  cases ho : visit_FrontendWhileStmt outer vars next cond body with
  | none => rw [ho] at h; cases h
  | some r0 =>
    rw [ho] at h
    cases h
    obtain ⟨st, last, hst, hlast, rfl⟩ :=
      visit_FrontendWhileStmt_some outer vars next cond body _ ho
    refine ⟨st, last, _, hst, hlast, rfl, rfl, ?_⟩
    cases body
    rfl

/-- C18 (frame of a rewrite): a walk that rewrites turns the tree that has the
frontend statement `s` at a position into the tree that has, at the same
position, the replacement `r.replacement` put out by the rewriter of `s`: in the
parent block the statements before and after the position are the same, the
replacement stands between them, and every other block of the tree has the
statement list it had (an enclosing block holds the same statements, one of them
around the changed body). When `s` is not a while statement, the bodies of the
replacement are the bodies of `s` with their statement lists unchanged. When `s`
is a while statement with condition `cond` and body `body`, the replacement ends
with the masked loop, its body `b2` is the only body in the replacement, and the
statement list of `b2` is the flattening of `cond` (in the scope of the position),
then the loop-control instruction on the mask of that loop and on the last
flattened instruction, then the statements of `body`. -/
theorem C18_frame_of_rewrite (outer : List VarMap) (next : Addr) (ss : List Stmt)
    (vars : VarMap) (m v : Option Addr) (b1 : Block) (n1 : Addr)
    (h : visit_Block outer next (.mk ss vars m v) = .modified (b1, n1)) :
    ∃ ctx s r, s.is_frontend = true ∧ ss = Ctx.unplug ctx s ∧
      visit_Stmt (ctx.hole_outer vars outer) (ctx.hole_vars vars) next s = .modified r ∧
      b1 = .mk (ctx.plug r.replacement r.local_var_alloca)
        (ctx.plug_vars vars r.local_var_alloca) m v ∧
      ((∀ a cond body, s ≠ .FrontendWhileStmt a cond body) →
        (bodies_list r.replacement).map Block.statements = s.bodies.map Block.statements) ∧
      (∀ a cond body, s = .FrontendWhileStmt a cond body →
        ∃ st last b2,
          cond.flatten (ctx.hole_vars vars :: ctx.hole_outer vars outer)
            { flattened := [], memo := [], next := next } = some st ∧
          st.flattened.getLast? = some last ∧
          r.replacement.getLast? = some (Stmt.WhileStmt st.next (st.next + 1) b2) ∧
          bodies_list r.replacement = [b2] ∧
          b2.statements =
            st.flattened ++ [Stmt.WhileControlStmt (st.next + 2) (st.next + 1) last.addr] ++
              body.statements) := by
  obtain ⟨ctx, s, r0, hu, _, hs, hv, hb1, _⟩ :=
    walk_modified_position outer next ss vars m v b1 n1 h
  refine ⟨ctx, s, r0, hs, hu, hv, hb1, ?_, ?_⟩
  · intro hw
    exact rewrite_bodies_kept _ _ next s r0 hs hw hv
  · intro a cond body he
    rw [he] at hv
    exact rewrite_bodies_while _ _ next a cond body r0 hv

/-- Witness of C18: the walk over `while (x > 0) { y = 1 }` after the slot of
`x`. -/
theorem C18_frame_of_rewrite_witness :
    ∃ ctx s r, s.is_frontend = true ∧
      [Stmt.AllocaStmt 0 .i32] ++ Stmt.FrontendWhileStmt 1 example_cond example_body :: [] =
        Ctx.unplug ctx s ∧
      visit_Stmt (ctx.hole_outer [(1, 0)] []) (ctx.hole_vars [(1, 0)]) 10 s = .modified r ∧
      Block.mk ([.AllocaStmt 0 .i32] ++
          [ .AllocaStmt (example_cond_flattened.next + 3) .i32,
            .AllocaStmt (example_cond_flattened.next + 1) .i32,
            .ConstStmt (example_cond_flattened.next + 4) (to_int32 0xFFFFFFFF),
            .LocalStoreStmt (example_cond_flattened.next + 5)
              (example_cond_flattened.next + 1) (example_cond_flattened.next + 4),
            .WhileStmt example_cond_flattened.next (example_cond_flattened.next + 1)
              (.mk (example_cond_flattened.flattened ++
                  [Stmt.WhileControlStmt (example_cond_flattened.next + 2)
                    (example_cond_flattened.next + 1) (Stmt.BinaryOpStmt 12 .cmp_gt 10 11).addr] ++
                  example_body.statements)
                example_body.local_var_alloca (some (example_cond_flattened.next + 1))
                example_body.inner_loop_variable) ] ++
          []) [(1, 0)] none none =
        .mk (ctx.plug r.replacement r.local_var_alloca)
          (ctx.plug_vars [(1, 0)] r.local_var_alloca) none none ∧
      ((∀ a cond body, s ≠ .FrontendWhileStmt a cond body) →
        (bodies_list r.replacement).map Block.statements = s.bodies.map Block.statements) ∧
      (∀ a cond body, s = .FrontendWhileStmt a cond body →
        ∃ st last b2,
          cond.flatten (ctx.hole_vars [(1, 0)] :: ctx.hole_outer [(1, 0)] [])
            { flattened := [], memo := [], next := 10 } = some st ∧
          st.flattened.getLast? = some last ∧
          r.replacement.getLast? = some (Stmt.WhileStmt st.next (st.next + 1) b2) ∧
          bodies_list r.replacement = [b2] ∧
          b2.statements =
            st.flattened ++ [Stmt.WhileControlStmt (st.next + 2) (st.next + 1) last.addr] ++
              body.statements) :=
  C18_frame_of_rewrite [] 10 _ [(1, 0)] none none _ (example_cond_flattened.next + 6)
    (while_visit_Block [] [(1, 0)] 10 1 example_cond example_body [.AllocaStmt 0 .i32] []
      none none example_cond_flattened (.BinaryOpStmt 12 .cmp_gt 10 11) (by decide) (by rfl)
      (by rfl))

theorem for_succeeds (outer : List VarMap) (vars : VarMap) (next : Addr) (i : Identifier)
    (b e : Expr) (body : Block) (vec par : Int) (st1 st2 : FlattenState)
    (h1 : b.flatten (VarMap.assign vars i next :: outer)
      { flattened := [.AllocaStmt next .i32], memo := [], next := next + 1 } = some st1)
    (h2 : e.flatten (VarMap.assign vars i next :: outer) st1 = some st2) :
    ∃ r, visit_FrontendForStmt outer vars next i b e body vec par = some r := by
  obtain ⟨Se, hs2, _⟩ := flatten_step _ e _ st2 h2
  obtain ⟨bs, hb1⟩ := flatten_stmt_of _ _ _ _ h1
  obtain ⟨es, he⟩ := flatten_stmt_of _ _ _ _ h2
  have hb := stmt_of_kept hs2 b bs hb1
  simp only [visit_FrontendForStmt, h1, h2, hb, he, lookup_var_assign_self]
  exact ⟨_, rfl⟩

/-- C19 (range-for registration overwrites): take a range-for over `i` at a
position that comes first in the walk. Its rewriter fails only when flattening a
bound fails, never because `i` is registered already. When it succeeds, the map
of the enclosing block is the old one with the entry of `i` set to the new slot
`next` and every other entry kept; a lookup of `i` from the enclosing block gives
the new slot, and no longer an earlier slot registered there; the walk returns the
tree with the replacement at the position and that map on the enclosing block,
every other block keeping its map, the moved body included. -/
theorem C19_range_for_registration (outer : List VarMap) (next : Addr) (ss : List Stmt)
    (vars : VarMap) (m v : Option Addr) (ctx : Ctx) (a : Addr) (i : Identifier) (b e : Expr)
    (body : Block) (vec par : Int) (hl : ctx.leftmost)
    (hss : ss = ctx.unplug (.FrontendForStmt a i b e body vec par)) :
    (visit_FrontendForStmt (ctx.hole_outer vars outer) (ctx.hole_vars vars) next i b e body
        vec par = none →
      b.flatten (VarMap.assign (ctx.hole_vars vars) i next :: ctx.hole_outer vars outer)
          { flattened := [.AllocaStmt next .i32], memo := [], next := next + 1 } = none ∨
      ∃ st1,
        b.flatten (VarMap.assign (ctx.hole_vars vars) i next :: ctx.hole_outer vars outer)
          { flattened := [.AllocaStmt next .i32], memo := [], next := next + 1 } = some st1 ∧
        e.flatten (VarMap.assign (ctx.hole_vars vars) i next :: ctx.hole_outer vars outer) st1 =
          none) ∧
    (∀ r, visit_FrontendForStmt (ctx.hole_outer vars outer) (ctx.hole_vars vars) next i b e body
        vec par = some r →
      r.local_var_alloca = VarMap.assign (ctx.hole_vars vars) i next ∧
      VarMap.find r.local_var_alloca i = some next ∧
      (∀ id, id ≠ i → VarMap.find r.local_var_alloca id = VarMap.find (ctx.hole_vars vars) id) ∧
      lookup_var (r.local_var_alloca :: ctx.hole_outer vars outer) i = some next ∧
      (∀ old, VarMap.find (ctx.hole_vars vars) i = some old → old < next →
        lookup_var (r.local_var_alloca :: ctx.hole_outer vars outer) i ≠ some old) ∧
      visit_Block outer next (.mk ss vars m v) =
        .modified (.mk (ctx.plug r.replacement r.local_var_alloca)
          (ctx.plug_vars vars r.local_var_alloca) m v, r.next) ∧
      ∃ S rf lv bs es,
        r.replacement = S ++ [.RangeForStmt rf lv bs es
          (.mk body.statements body.local_var_alloca body.mask_var (some lv)) vec par] ∧
        bodies_list S = []) := by
  constructor
  · intro hnone
    cases h1 : b.flatten (VarMap.assign (ctx.hole_vars vars) i next :: ctx.hole_outer vars outer)
        { flattened := [.AllocaStmt next .i32], memo := [], next := next + 1 } with
    | none => exact Or.inl rfl
    | some st1 =>
      right
      refine ⟨st1, rfl, ?_⟩
      cases h2 : e.flatten (VarMap.assign (ctx.hole_vars vars) i next ::
          ctx.hole_outer vars outer) st1 with
      | none => rfl
      | some st2 =>
        obtain ⟨r, hr⟩ := for_succeeds _ _ next i b e body vec par st1 st2 h1 h2
        rw [hnone] at hr
        cases hr
  · intro r hr
    have hblock : visit_Block outer next (.mk ss vars m v) =
        .modified (.mk (ctx.plug r.replacement r.local_var_alloca)
          (ctx.plug_vars vars r.local_var_alloca) m v, r.next) := by
      have hv : visit_Stmt (ctx.hole_outer vars outer) (ctx.hole_vars vars) next
          (.FrontendForStmt a i b e body vec par) = .modified r := by
        simp only [visit_Stmt, hr, Walk.of_rewrite]
      have hw := walk_at_modified ctx outer vars next _ _ hl hv
      rw [← hss] at hw
      simp only [visit_Block, hw]
    obtain ⟨st1, st2, lv, bs, es, h1, h2, hlv, _, _, rfl⟩ :=
      visit_FrontendForStmt_some _ _ next i b e body vec par r hr
    rw [lookup_var_assign_self] at hlv
    cases hlv
    obtain ⟨s1, hs1, _⟩ := flatten_step _ b _ st1 h1
    obtain ⟨s2, hs2, _⟩ := flatten_step _ e _ st2 h2
    refine ⟨rfl, find_assign_self _ i next, ?_, lookup_var_assign_self _ _ i next, ?_, hblock,
      ?_⟩
    · intro id hid
      exact find_assign_ne _ i id next hid
    · intro old _ hlt hcontra
      have hsame : lookup_var (VarMap.assign (ctx.hole_vars vars) i next ::
          ctx.hole_outer vars outer) i = some next := lookup_var_assign_self _ _ i next
      have hcontra2 : lookup_var (VarMap.assign (ctx.hole_vars vars) i next ::
          ctx.hole_outer vars outer) i = some old := hcontra
      rw [hsame] at hcontra2
      cases hcontra2
      exact Nat.lt_irrefl _ hlt
    · refine ⟨st2.flattened, st2.next, next, bs, es, ?_, ?_⟩
      · cases body
        rfl
      · have hb2 : st2.flattened = [Stmt.AllocaStmt next .i32] ++ (s1 ++ s2) := by
          rw [hs2.buffer, hs1.buffer, List.append_assoc]
        have hv12 : ∀ x ∈ s1 ++ s2, x.is_value = true := by
          intro x hx
          rcases List.mem_append.mp hx with hm | hm
          · exact hs1.values x hm
          · exact hs2.values x hm
        rw [hb2, bodies_list_append, bodies_list_values _ hv12]
        rfl

/-- Witness of C19: `for i in range(0, 10) { print i }` after the slot of an
earlier `i`, in a block whose map sends `i` to that slot and `n` to the slot 1:
the rewriter succeeds and the entry of `i` becomes the new slot 10; with the
undeclared end bound `u` it fails, in the flattening of that bound. -/
theorem C19_range_for_registration_witness :
    ((Expr.ConstExpression 2 0).flatten (VarMap.assign [(1, 0), (2, 1)] 1 10 :: [])
          { flattened := [.AllocaStmt 10 .i32], memo := [], next := 10 + 1 } = none ∨
      ∃ st1,
        (Expr.ConstExpression 2 0).flatten (VarMap.assign [(1, 0), (2, 1)] 1 10 :: [])
          { flattened := [.AllocaStmt 10 .i32], memo := [], next := 10 + 1 } = some st1 ∧
        (Expr.IdExpression 3 9).flatten (VarMap.assign [(1, 0), (2, 1)] 1 10 :: []) st1 =
          none) ∧
    VarMap.find (VarMap.assign [(1, 0), (2, 1)] 1 10) 2 = VarMap.find [(1, 0), (2, 1)] 2 ∧
    lookup_var (VarMap.assign [(1, 0), (2, 1)] 1 10 :: []) 1 ≠ some 0 ∧
    visit_Block [] 10
        (.mk ([.AllocaStmt 0 .i32] ++
          .FrontendForStmt 5 1 (.ConstExpression 2 0) (.ConstExpression 3 10)
            example_for_body 1 0 :: [])
          [(1, 0), (2, 1)] none none) =
      .modified
        (.mk ([.AllocaStmt 0 .i32] ++
            [ .AllocaStmt 10 .i32, .ConstStmt 11 0, .ConstStmt 12 10,
              .RangeForStmt 13 10 11 12 (example_for_body.set_inner_loop_variable 10) 1 0 ] ++
            [])
          (VarMap.assign [(1, 0), (2, 1)] 1 10) none none, 14) :=
  have hr : visit_FrontendForStmt [] [(1, 0), (2, 1)] 10 1 (.ConstExpression 2 0)
      (.ConstExpression 3 10) example_for_body 1 0 =
      some { replacement :=
               [ .AllocaStmt 10 .i32, .ConstStmt 11 0, .ConstStmt 12 10,
                 .RangeForStmt 13 10 11 12 (example_for_body.set_inner_loop_variable 10) 1 0 ],
             local_var_alloca := VarMap.assign [(1, 0), (2, 1)] 1 10, next := 14 } := by rfl
  ⟨(C19_range_for_registration [] 10 _ [(1, 0), (2, 1)] none none
      (.here [.AllocaStmt 0 .i32] []) 5 1 (.ConstExpression 2 0) (.IdExpression 3 9)
      example_for_body 1 0 (by show frontend_count_list _ = 0; rfl) rfl).1 (by rfl),
   ((C19_range_for_registration [] 10 _ [(1, 0), (2, 1)] none none
      (.here [.AllocaStmt 0 .i32] []) 5 1 (.ConstExpression 2 0) (.ConstExpression 3 10)
      example_for_body 1 0 (by show frontend_count_list _ = 0; rfl) rfl).2 _ hr).2.2.1 2 (by decide),
   ((C19_range_for_registration [] 10 _ [(1, 0), (2, 1)] none none
      (.here [.AllocaStmt 0 .i32] []) 5 1 (.ConstExpression 2 0) (.ConstExpression 3 10)
      example_for_body 1 0 (by show frontend_count_list _ = 0; rfl) rfl).2 _ hr).2.2.2.2.1 0 (by rfl) (by decide),
   ((C19_range_for_registration [] 10 _ [(1, 0), (2, 1)] none none
      (.here [.AllocaStmt 0 .i32] []) 5 1 (.ConstExpression 2 0) (.ConstExpression 3 10)
      example_for_body 1 0 (by show frontend_count_list _ = 0; rfl) rfl).2 _ hr).2.2.2.2.2.1⟩

theorem nodes_of_value (s : Stmt) (h : s.is_value = true) : s.nodes = [s] := by
  cases s <;> first | rfl | exact Bool.noConfusion h

theorem masks_of_value (s : Stmt) (h : s.is_value = true) : s.body_masks_set := by
  cases s <;> first | exact True.intro | exact Bool.noConfusion h

theorem masks_of_values (seg : List Stmt) (h : ∀ s ∈ seg, s.is_value = true) :
    ∀ x ∈ nodes_list seg, x.body_masks_set := by
  induction seg with
  | nil => intro x hx; exact absurd hx (List.not_mem_nil _)
  | cons s rest ih =>
    intro x hx
    rw [nodes_list_cons, nodes_of_value s (h s (List.mem_cons_self _ _))] at hx
    rcases List.mem_append.mp hx with hm | hm
    · rw [List.mem_singleton.mp hm]
      exact masks_of_value s (h s (List.mem_cons_self _ _))
    · exact ih (fun y hy => h y (List.mem_cons_of_mem _ hy)) x hm

theorem masks_of_frontend (s : Stmt) (h : s.is_frontend = true) : s.body_masks_set := by
  cases s <;> first | exact True.intro | exact Bool.noConfusion h

theorem nodes_move_body (body : Option Block) (k : Addr) :
    nodes_opt (move_body_with_mask body k) = nodes_opt body := by
  cases body with
  | none => rfl
  | some b => cases b; rfl

theorem mask_move_body (body : Option Block) (k : Addr) :
    ∀ b, move_body_with_mask body k = some b → b.mask_var = some k := by
  intro b hb
  cases body with
  | none => cases hb
  | some b0 =>
    cases b0
    cases hb
    rfl

theorem frame_masks (fr : Frame) (ss1 ss2 : List Stmt) (v1 v2 : VarMap) (m v : Option Addr)
    (h : (fr.fill (.mk ss1 v1 m v)).body_masks_set) :
    (fr.fill (.mk ss2 v2 m v)).body_masks_set := by
  cases fr with
  | if_true a c tm fm f =>
    refine ⟨?_, h.2⟩
    intro b hb
    cases hb
    exact h.1 (Block.mk ss1 v1 m v) rfl
  | if_false a c tm fm t =>
    refine ⟨h.1, ?_⟩
    intro b hb
    cases hb
    exact h.2 (Block.mk ss1 v1 m v) rfl
  | while_body a mk => exact h
  | for_body a lv b e vz p => exact True.intro

/-- Putting content whose statements carry their masks at a position of a list
whose statements carry their masks gives such a list. -/
theorem masks_plug (ctx : Ctx) (s : Stmt) (content : List Stmt) (nv : VarMap)
    (hnew : ∀ x ∈ nodes_list content, x.body_masks_set) :
    (∀ x ∈ nodes_list (ctx.unplug s), x.body_masks_set) →
      ∀ x ∈ nodes_list (ctx.plug content nv), x.body_masks_set := by
  induction ctx with
  | here pre post =>
    intro hold x hx
    simp only [Ctx.plug, nodes_list_append, List.mem_append] at hx
    rcases hx with (hx | hx) | hx
    · apply hold
      simp only [Ctx.unplug, nodes_list_append, List.mem_append]
      exact Or.inl hx
    · exact hnew x hx
    · apply hold
      simp only [Ctx.unplug, nodes_list_append, nodes_list_cons, List.mem_append]
      exact Or.inr (Or.inr hx)
  | under pre fr ivars m v inner post ih =>
    intro hold x hx
    simp only [Ctx.plug, nodes_list_append, nodes_list_cons, frame_nodes, Block.nodes,
      List.mem_append, List.mem_cons] at hx
    have hold2 : ∀ y, (y ∈ nodes_list pre ∨
        (y = fr.fill (.mk (inner.unplug s) ivars m v) ∨
          (y ∈ fr.nodes_before ∨ y ∈ nodes_list (inner.unplug s)) ∨ y ∈ fr.nodes_after) ∨
        y ∈ nodes_list post) → y.body_masks_set := by
      intro y hy
      apply hold
      simp only [Ctx.unplug, nodes_list_append, nodes_list_cons, frame_nodes, Block.nodes,
        List.mem_append, List.mem_cons]
      exact hy
    rcases hx with hx | (hx | (hx | hx) | hx) | hx
    · exact hold2 x (Or.inl hx)
    · rw [hx]
      exact frame_masks fr _ _ _ _ m v (hold2 _ (Or.inr (Or.inl (Or.inl rfl))))
    · exact hold2 x (Or.inr (Or.inl (Or.inr (Or.inl (Or.inl hx)))))
    · exact ih (fun y hy => hold2 y (Or.inr (Or.inl (Or.inr (Or.inl (Or.inr hy)))))) x hx
    · exact hold2 x (Or.inr (Or.inl (Or.inr (Or.inr hx))))
    · exact hold2 x (Or.inr (Or.inr hx))

/-- The statements that a rewriter puts out, and those of the bodies it moves,
carry their masks when those of the rewritten statement did. -/
theorem rewrite_masks (outer : List VarMap) (vars : VarMap) (next : Addr) (s : Stmt)
    (r : Rewrite) (hold : ∀ x ∈ s.nodes, x.body_masks_set)
    (h : visit_Stmt outer vars next s = .modified r) (hs : s.is_frontend = true) :
    ∀ x ∈ nodes_list r.replacement, x.body_masks_set := by
  cases s with
  | FrontendAllocaStmt a ident dt =>
    simp only [visit_Stmt] at h
    cases ho : visit_FrontendAllocaStmt vars next ident dt with
    | none => rw [ho] at h; cases h
    | some r0 =>
      rw [ho] at h
      cases h
      obtain ⟨_, rfl⟩ := visit_FrontendAllocaStmt_some vars next ident dt _ ho
      intro x hx
      simp only [nodes_list, Stmt.nodes, List.append_nil, List.mem_singleton] at hx
      rw [hx]
      exact True.intro
  | FrontendAssignStmt a lhs rhs =>
    simp only [visit_Stmt] at h
    cases ho : visit_FrontendAssignStmt outer vars next lhs rhs with
    | none => rw [ho] at h; cases h
    | some r0 =>
      rw [ho] at h
      cases h
      cases lhs with
      | IdExpression nid id =>
        obtain ⟨st, slot, v, hst, _, _, rfl⟩ :=
          visit_FrontendAssignStmt_id_some outer vars next nid id rhs _ ho
        have hval := flatten_values _ _ _ _ hst
        intro x hx
        simp only [nodes_list_append, List.mem_append] at hx
        rcases hx with hx | hx
        · exact masks_of_values _ hval x hx
        · simp only [nodes_list, Stmt.nodes, List.append_nil, List.mem_singleton] at hx
          rw [hx]
          exact True.intro
      | GlobalPtrExpression nid g =>
        obtain ⟨st, st2, last, v, hst, hst2, _, _, rfl⟩ :=
          visit_FrontendAssignStmt_global_some outer vars next nid g rhs _ ho
        obtain ⟨seg, hseg, _⟩ := flatten_step _ _ _ st2 hst2
        have hval := flatten_values _ _ _ _ hst
        have hval2 : ∀ x ∈ st2.flattened, x.is_value = true := by
          intro x hx
          rw [hseg.buffer] at hx
          rcases List.mem_append.mp hx with hm | hm
          · exact hval x hm
          · exact hseg.values x hm
        intro x hx
        simp only [nodes_list_append, List.mem_append] at hx
        rcases hx with hx | hx
        · exact masks_of_values _ hval2 x hx
        · simp only [nodes_list, Stmt.nodes, List.append_nil, List.mem_singleton] at hx
          rw [hx]
          exact True.intro
      | _ =>
        unfold visit_FrontendAssignStmt at ho
        split at ho <;> cases ho
  | FrontendIfStmt a cond t f =>
    simp only [visit_Stmt] at h
    cases ho : visit_FrontendIfStmt outer vars next cond t f with
    | none => rw [ho] at h; cases h
    | some r0 =>
      rw [ho] at h
      cases h
      obtain ⟨st, c, hst, _, rfl⟩ := visit_FrontendIfStmt_some outer vars next cond t f _ ho
      have hval := flatten_values _ _ _ _ hst
      intro x hx
      simp only [nodes_list_append, List.mem_append] at hx
      rcases hx with hx | hx
      · exact masks_of_values _ hval x hx
      · simp only [nodes_list, Stmt.nodes, nodes_move_body, List.append_nil, List.mem_append,
          List.mem_cons, List.mem_singleton, List.cons_append, List.nil_append,
          List.not_mem_nil, or_false] at hx
        rcases hx with hx | hx | hx | hx | hx | hx | hx | hx
        · rw [hx]; exact True.intro
        · rw [hx]; exact True.intro
        · rw [hx]; exact True.intro
        · rw [hx]; exact True.intro
        · rw [hx]; exact True.intro
        · rw [hx]
          exact ⟨mask_move_body t _, mask_move_body f _⟩
        · apply hold
          simp only [Stmt.nodes, List.mem_cons, List.mem_append]
          exact Or.inr (Or.inl hx)
        · apply hold
          simp only [Stmt.nodes, List.mem_cons, List.mem_append]
          exact Or.inr (Or.inr hx)
  | FrontendWhileStmt a cond body =>
    simp only [visit_Stmt] at h
    cases ho : visit_FrontendWhileStmt outer vars next cond body with
    | none => rw [ho] at h; cases h
    | some r0 =>
      rw [ho] at h
      cases h
      obtain ⟨st, last, hst, _, rfl⟩ :=
        visit_FrontendWhileStmt_some outer vars next cond body _ ho
      have hval := flatten_values _ _ _ _ hst
      cases body with
      | mk bss bvars bm bv =>
        intro x hx
        simp only [nodes_list, Stmt.nodes, Block.set_statements, Block.set_mask_var,
          Block.statements, Block.nodes, nodes_list_append, List.append_nil, List.mem_append,
          List.mem_cons, List.mem_singleton, List.cons_append, List.nil_append,
          List.not_mem_nil, or_false] at hx
        rcases hx with hx | hx | hx | hx | hx | (hx | hx) | hx
        · rw [hx]; exact True.intro
        · rw [hx]; exact True.intro
        · rw [hx]; exact True.intro
        · rw [hx]; exact True.intro
        · rw [hx]; exact rfl
        · exact masks_of_values _ hval x hx
        · rw [hx]; exact True.intro
        · apply hold
          simp only [Stmt.nodes, Block.nodes, List.mem_cons]
          exact Or.inr hx
  | FrontendForStmt a i b e body v p =>
    simp only [visit_Stmt] at h
    cases ho : visit_FrontendForStmt outer vars next i b e body v p with
    | none => rw [ho] at h; cases h
    | some r0 =>
      rw [ho] at h
      cases h
      obtain ⟨st1, st2, lv, bs, es, h1, h2, _, _, _, rfl⟩ :=
        visit_FrontendForStmt_some outer vars next i b e body v p _ ho
      obtain ⟨s1, hs1, _⟩ := flatten_step _ b _ st1 h1
      obtain ⟨s2, hs2, _⟩ := flatten_step _ e _ st2 h2
      have hb2 : st2.flattened = [Stmt.AllocaStmt next .i32] ++ (s1 ++ s2) := by
        rw [hs2.buffer, hs1.buffer, List.append_assoc]
      have hv12 : ∀ x ∈ s1 ++ s2, x.is_value = true := by
        intro x hx
        rcases List.mem_append.mp hx with hm | hm
        · exact hs1.values x hm
        · exact hs2.values x hm
      cases body with
      | mk bss bvars bm bv =>
        intro x hx
        simp only [hb2, nodes_list_append, List.mem_append] at hx
        rcases hx with (hx | hx) | hx
        · simp only [nodes_list, Stmt.nodes, List.append_nil, List.mem_singleton] at hx
          rw [hx]
          exact True.intro
        · apply masks_of_values _ hv12 x
          rw [nodes_list_append]
          exact List.mem_append.mpr hx
        · simp only [nodes_list, Stmt.nodes, Block.set_inner_loop_variable, Block.nodes,
            List.append_nil, List.mem_cons] at hx
          rcases hx with hx | hx
          · rw [hx]; exact True.intro
          · apply hold
            simp only [Stmt.nodes, Block.nodes, List.mem_cons]
            exact Or.inr hx
  | FrontendPrintStmt a e str =>
    simp only [visit_Stmt] at h
    cases ho : visit_FrontendPrintStmt outer vars next e str with
    | none => rw [ho] at h; cases h
    | some r0 =>
      rw [ho] at h
      cases h
      obtain ⟨st, v, hst, _, rfl⟩ := visit_FrontendPrintStmt_some outer vars next e str _ ho
      have hval := flatten_values _ _ _ _ hst
      intro x hx
      simp only [nodes_list_append, List.mem_append] at hx
      rcases hx with hx | hx
      · exact masks_of_values _ hval x hx
      · simp only [nodes_list, Stmt.nodes, List.append_nil, List.mem_singleton] at hx
        rw [hx]
        exact True.intro
  | _ => exact Bool.noConfusion hs

theorem walk_masks (outer : List VarMap) (next : Addr) (b b1 : Block) (n1 : Addr)
    (hold : ∀ x ∈ b.nodes, x.body_masks_set)
    (h : visit_Block outer next b = .modified (b1, n1)) :
    (∀ x ∈ b1.nodes, x.body_masks_set) ∧ b1.mask_var = b.mask_var := by
  cases b with
  | mk ss vars m v =>
    obtain ⟨ctx, s, r0, hu, hl, hs, hv, hb1, _⟩ :=
      walk_modified_position outer next ss vars m v b1 n1 h
    obtain ⟨P, R, hnodes, _, _⟩ := plug_nodes ctx hl s
    have hold_list : ∀ x ∈ nodes_list (ctx.unplug s), x.body_masks_set := by
      rw [← hu]
      exact hold
    have hold_s : ∀ x ∈ s.nodes, x.body_masks_set := by
      intro x hx
      apply hold_list
      rw [hnodes]
      exact List.mem_append.mpr (Or.inl (List.mem_append.mpr (Or.inr hx)))
    have hnew := rewrite_masks _ _ next s r0 hold_s hv hs
    rw [hb1]
    exact ⟨masks_plug ctx s r0.replacement r0.local_var_alloca hnew hold_list, rfl⟩

theorem run_masks (fuel : Nat) :
    ∀ (root : Block) (next : Addr) (root1 : Block) (next1 : Addr),
      (∀ x ∈ root.nodes, x.body_masks_set) → run fuel root next = .returned root1 next1 →
      (∀ x ∈ root1.nodes, x.body_masks_set) ∧ root1.mask_var = root.mask_var := by
  induction fuel with
  | zero =>
    intro root next root1 next1 _ h
    cases h
  | succ n ih =>
    intro root next root1 next1 hold h
    unfold run at h
    cases hv : visit_Block [] next root with
    | completed =>
      rw [hv] at h
      cases h
      exact ⟨hold, rfl⟩
    | modified r =>
      rw [hv] at h
      obtain ⟨b1, n1⟩ := r
      obtain ⟨hold1, hm⟩ := walk_masks [] next root b1 n1 hold hv
      obtain ⟨hfinal, hm2⟩ := ih b1 n1 root1 next1 hold1 h
      exact ⟨hfinal, by rw [hm2, hm]⟩
    | failed =>
      rw [hv] at h
      cases h

/-- Counterexample to C13: the tree `for i in range(0, 10) { print i }` is built
of frontend kinds only; `lower` returns a tree whose range-for instruction has a
body without active-mask reference. -/
theorem C13_body_masks_counterexample :
    (∀ s ∈ example_for_tree.nodes, s.is_frontend = true) ∧
    lower 3 example_for_tree 10 = .returned example_for_tree_lowered 16 ∧
    example_for_tree_lowered.statements.getLast? =
      some (.RangeForStmt 13 10 11 12 example_for_body_lowered 1 0) ∧
    example_for_body_lowered.mask_var = none := by
  refine ⟨?_, ?_, rfl, rfl⟩
  · simp [example_for_tree, example_for_body, Block.nodes, nodes_list, Stmt.nodes,
      Stmt.is_frontend]
  · simp [lower, run, example_for_tree, example_for_tree_lowered, example_for_body,
      example_for_body_lowered, visit_Block, visit_statements, visit_Stmt, visit_body,
      visit_FrontendForStmt, visit_FrontendPrintStmt, load_if_ptr, Expr.is_GlobalPtrStmt,
      Expr.flatten, FlattenState.emit, FlattenState.stmt_of, FlattenState.has_stmt,
      Walk.of_rewrite, Stmt.addr, Expr.nid, lookup_var, VarMap.find, VarMap.assign,
      Block.set_inner_loop_variable, List.lookup]

/-- C13 as amended (active masks on bodies): for a tree built of frontend kinds
only, after `lower` returns every lowered conditional has the `mask_var` of each
body that is present set to its true or false mask slot, every masked loop has
the `mask_var` of its body set to its mask slot, the root block keeps the
`mask_var` it had, and no frontend statement is left; the range-for rewriter
leaves the `mask_var` of the body as it was. -/
theorem C13_body_masks_amended (fuel : Nat) (root : Block) (next : Addr) (root1 : Block)
    (next1 : Addr) (hfront : ∀ s ∈ root.nodes, s.is_frontend = true)
    (h : lower fuel root next = .returned root1 next1) :
    (∀ s ∈ root1.nodes, s.body_masks_set) ∧
    root1.mask_var = root.mask_var ∧
    (∀ s ∈ root1.nodes, s.is_frontend = false) ∧
    (∀ outer vars n i b e body v p r,
      visit_FrontendForStmt outer vars n i b e body v p = some r →
      ∃ S rf lv bs es body1,
        r.replacement = S ++ [.RangeForStmt rf lv bs es body1 v p] ∧
        body1.mask_var = body.mask_var) := by
  have hold : ∀ x ∈ root.nodes, x.body_masks_set :=
    fun x hx => masks_of_frontend x (hfront x hx)
  obtain ⟨h1, h2⟩ := run_masks fuel root next root1 next1 hold h
  refine ⟨h1, h2, (block_lowered_iff root1).mpr (run_returned_count fuel root next root1 next1 h),
    ?_⟩
  intro outer vars n i b e body v p r hr
  obtain ⟨st1, st2, lv, bs, es, _, _, _, _, _, rfl⟩ :=
    visit_FrontendForStmt_some outer vars n i b e body v p r hr
  refine ⟨st2.flattened, st2.next, lv, bs, es, body.set_inner_loop_variable lv, rfl, ?_⟩
  cases body
  rfl

/-- Witness of C13 as amended: the tree `var x; while (x < 10) { print x }`. -/
theorem C13_body_masks_amended_witness :
    (∀ s ∈ example_while_lowered.nodes, s.body_masks_set) ∧
    example_while_lowered.mask_var = example_while_tree.mask_var ∧
    (∀ s ∈ example_while_lowered.nodes, s.is_frontend = false) ∧
    (∀ outer vars n i b e body v p r,
      visit_FrontendForStmt outer vars n i b e body v p = some r →
      ∃ S rf lv bs es body1,
        r.replacement = S ++ [.RangeForStmt rf lv bs es body1 v p] ∧
        body1.mask_var = body.mask_var) :=
  C13_body_masks_amended 4 example_while_tree 7 example_while_lowered 19
    (by
      simp [example_while_tree, Block.nodes, nodes_list, Stmt.nodes, Stmt.is_frontend])
    (by
      simp [lower, run, example_while_tree, example_while_lowered, visit_Block,
        visit_statements, visit_Stmt, visit_body, visit_FrontendAllocaStmt,
        visit_FrontendWhileStmt, visit_FrontendPrintStmt, load_if_ptr, Expr.is_GlobalPtrStmt,
        Expr.flatten, FlattenState.emit, FlattenState.stmt_of, FlattenState.has_stmt,
        Walk.of_rewrite, Stmt.addr, Expr.nid, lookup_var, VarMap.find, VarMap.insert,
        Block.set_statements, Block.set_mask_var, Block.statements, List.lookup, to_int32])

end LowerAST
